import Mathlib

/-!
# SHR3D raster engine: ground / non-ground classification

A shallow embedding of `src/shr3d/shr3d.cpp`.  Rasters are total functions from
(row, column) to a sample; the dimensions `w` (width) and `h` (height) are
passed alongside, as all rasters of one pipeline share them.  Loops of the
source are folds over the index ranges the C loops visit, with the unsigned
32-bit arithmetic of the loop bounds written out.
-/

namespace Shr3d

/-- Modelled from the spec: the raster class is declared in a header that is not
among the sources.  A raster is its sample array `data[j][i]`, row `j`, column
`i` (section 3); its `width` and `height` are unsigned 32-bit values and are
passed alongside as `w` and `h`. -/
abbrev Image := Nat → Nat → Nat

/-- The write `data[j][i] = v`. -/
def setPx (img : Image) (j i v : Nat) : Image :=
  fun j' i' => if j' = j ∧ i' = i then v else img j' i'

/-- Rows of a raster literal; samples outside the literal read 0. -/
def ofRows (rows : List (List Nat)) : Image :=
  fun j i => (rows.getD j []).getD i 0

/-- The `h` by `w` window of a raster, as rows. -/
def toRows (img : Image) (w h : Nat) : List (List Nat) :=
  (List.range h).map (fun j => (List.range w).map (fun i => img j i))

/-- Modelled from the spec: the header that declares the label constants is not
among the sources; section 3 gives `LABEL_GROUND` = 0. -/
def LABEL_GROUND : Nat := 0

/-- Unsigned 32-bit subtraction `a - b`. -/
def usub (a b : Nat) : Nat := (a + (4294967296 - b % 4294967296)) % 4294967296

/-- Unsigned 32-bit sum of an unsigned `a` and a signed `d` (the signed operand
is converted to unsigned). -/
def uaddInt (a : Nat) (d : Int) : Nat := (((a : Int) + d) % 4294967296).toNat

/-- Modelled from the spec: the header that defines the macro `MAX` is not among
the sources.  It is the comparison macro `((a) > (b)) ? (a) : (b)`, which section
4.1 uses for clamping; this is its value on operands that C compares as
unsigned (or that are both non-negative). -/
def MAX (a b : Nat) : Nat := if a > b then a else b

/-- Modelled from the spec: the header that defines the macro `MIN` is not among
the sources.  It is the comparison macro `((a) < (b)) ? (a) : (b)`, on operands
that C compares as unsigned (or that are both non-negative). -/
def MIN (a b : Nat) : Nat := if a < b then a else b

/-- The values an ascending loop `for (x = lo; x <= hi; x++)` visits. -/
def loopRange (lo hi : Nat) : List Nat := (List.range (hi + 1 - lo)).map (fun k => lo + k)

/-- The pixels `(j, i)` in the order the nested loops `for j < h`, `for i < w`
visit them (row-major). -/
def scanOrder (w h : Nat) : List (Nat × Nat) := List.product (List.range h) (List.range w)

/-- Bounds `MAX(0, j - 1) .. MIN(j + 1, n - 1)` of an 8-neighbourhood loop whose
index `j` is an `unsigned int`: `j - 1` wraps to 4294967295 at `j = 0`. -/
def nbrRangeU (j n : Nat) : List Nat := loopRange (MAX 0 (usub j 1)) (MIN (j + 1) (usub n 1))

/-- The value `fabs((float) a - (float) b)` for 16-bit samples. -/
def absDiff (a b : Nat) : Nat := if a ≥ b then a - b else b - a

/-- Modelled from the spec: the pixel structure is declared in a header that is
not among the sources; section 3 gives it as the pair `{i, j}`, column `i` and
row `j`. -/
structure PixelType where
  i : Nat
  j : Nat
deriving DecidableEq, Repr

/-- Modelled from the spec: the object structure is declared in a header that is
not among the sources; section 3 gives it as label, inclusive bounding box
`xmin, xmax, ymin, ymax` (pixel indices) and pixel count.  The bounds are taken
as signed values that hold pixel indices, so `obj.xmin - 1` below 0 is clamped
by `MAX(0, ...)`. -/
structure ObjectType where
  label : Nat
  xmin : Nat
  xmax : Nat
  ymin : Nat
  ymax : Nat
  count : Nat
deriving DecidableEq, Repr

/-- Loop state of `addNeighbors`: the label raster, the object and `newNeighbors`. -/
structure GrowState where
  L : Image
  obj : ObjectType
  newNeighbors : List PixelType

/-- Body of the innermost loop of `addNeighbors` for frontier pixel `(j,i)` and
neighbour `(jj,ii)`. -/
def addNeighborStep (H : Image) (dzShort j i jj : Nat) (st : GrowState) (ii : Nat) : GrowState :=
  if st.L jj ii > 1 then st
  else if absDiff (H jj ii) (H j i) > dzShort then st
  else
    { L := setPx st.L jj ii (st.L j i)
      obj :=
        { label := st.obj.label
          xmin := MIN st.obj.xmin ii
          xmax := MAX st.obj.xmax ii
          ymin := MIN st.obj.ymin jj
          ymax := MAX st.obj.ymax jj
          count := st.obj.count + 1 }
      newNeighbors := st.newNeighbors ++ [⟨ii, jj⟩] }

/-- The two neighbour loops of `addNeighbors` for one frontier pixel. -/
def addNeighborsPixel (w h : Nat) (H : Image) (dzShort : Nat) (st : GrowState) (p : PixelType) :
    GrowState :=
  (nbrRangeU p.j h).foldl
    (fun st jj => (nbrRangeU p.i w).foldl (addNeighborStep H dzShort p.j p.i jj) st) st

/-- The loop over the frontier in `addNeighbors`. -/
def addNeighborsSweep (w h : Nat) (H : Image) (dzShort : Nat) (neighbors : List PixelType)
    (L : Image) (obj : ObjectType) : GrowState :=
  neighbors.foldl (addNeighborsPixel w h H dzShort) ⟨L, obj, []⟩

/-- Result of `addNeighbors`: the return value and the updated arguments. -/
structure AddResult where
  keep : Bool
  neighbors : List PixelType
  L : Image
  obj : ObjectType

/-- `addNeighbors`: one growth wave. -/
def addNeighbors (w h : Nat) (H : Image) (dzShort : Nat) (neighbors : List PixelType)
    (L : Image) (obj : ObjectType) : AddResult :=
  let st := addNeighborsSweep w h H dzShort neighbors L obj
  if st.newNeighbors.length > 0 then ⟨true, st.newNeighbors, st.L, st.obj⟩
  else ⟨false, neighbors, st.L, st.obj⟩

/-- The `while (keepSearching)` loop of `groupObjects`; `none` when the fuel runs out. -/
def growLoop (w h : Nat) (H : Image) (dzShort : Nat) (maxCount : Int) :
    Nat → List PixelType → Image → ObjectType → Option (Image × ObjectType)
  | 0, _, _, _ => none
  | fuel + 1, neighbors, L, obj =>
    let r := addNeighbors w h H dzShort neighbors L obj
    if (r.obj.count : Int) > maxCount then some (r.L, r.obj)
    else if r.keep then growLoop w h H dzShort maxCount fuel r.neighbors r.L r.obj
    else some (r.L, r.obj)

/-- Loop state of `groupObjects`. -/
structure GroupState where
  L : Image
  objects : List ObjectType
  label : Nat

/-- Body of the scan of `groupObjects` at pixel `p = (j,i)`. -/
def groupStep (w h : Nat) (H : Image) (maxCount : Int) (dzShort : Nat)
    (st : Option GroupState) (p : Nat × Nat) : Option GroupState :=
  st.bind fun s =>
    if s.L p.1 p.2 = LABEL_GROUND then some s
    else if s.L p.1 p.2 > 1 then some s
    else
      (growLoop w h H dzShort maxCount (w * h + 1) [⟨p.2, p.1⟩]
          (setPx s.L p.1 p.2 (s.label + 1)) ⟨s.label + 1, p.2, p.2, p.1, p.1, 1⟩).map
        fun r => ⟨r.1, s.objects ++ [r.2], s.label + 1⟩

/-- `groupObjects`: the row-major sweep; returns the label raster, the objects
and the last label handed out.  The label counter is a natural number: its
overflow is outside the contract (section 7 of the spec). -/
def groupObjects (w h : Nat) (L H : Image) (maxCount : Int) (dzShort : Nat) : Option GroupState :=
  (scanOrder w h).foldl (groupStep w h H maxCount dzShort) (some ⟨L, [], 1⟩)

/-- Modelled from the spec: the header that declares the class constants is not
among the sources; section 6 gives the ASPRS class numbers, high vegetation = 5. -/
def LAS_TREE : Nat := 5

/-- Modelled from the spec: the header that declares the class constants is not
among the sources; section 6 gives the ASPRS class numbers, building = 6. -/
def LAS_BUILDING : Nat := 6

/-- Bounds `MAX(0, j - 1) .. MIN(j + 1, n - 1)` of an 8-neighbourhood loop whose
index `j` is signed (`int` or `long`): the lower bound clamps at 0. -/
def nbrRangeS (j n : Nat) : List Nat := loopRange (j - 1) (MIN (j + 1) (usub n 1))

/-- Loop state of `addClassNeighbors`: the visited mask and `newNeighbors`. -/
structure ClassGrow where
  labeled : Image
  newNeighbors : List PixelType

/-- Body of the innermost loop of `addClassNeighbors` at neighbour `(jj,ii)`. -/
def addClassNeighborStep (classImage : Image) (label jj : Nat) (st : ClassGrow) (ii : Nat) :
    ClassGrow :=
  if st.labeled jj ii = 1 then st
  else if classImage jj ii ≠ label then st
  else ⟨setPx st.labeled jj ii 1, st.newNeighbors ++ [⟨ii, jj⟩]⟩

/-- The two neighbour loops of `addClassNeighbors` for one listed pixel. -/
def addClassNeighborsPixel (w h : Nat) (classImage : Image) (label : Nat) (st : ClassGrow)
    (p : PixelType) : ClassGrow :=
  (nbrRangeU p.j h).foldl
    (fun st jj => (nbrRangeU p.i w).foldl (addClassNeighborStep classImage label jj) st) st

/-- `addClassNeighbors`: returns the flag, the extended list and the visited mask. -/
def addClassNeighbors (w h : Nat) (neighbors : List PixelType) (classImage labeled : Image)
    (label : Nat) : Bool × List PixelType × Image :=
  let st := neighbors.foldl (addClassNeighborsPixel w h classImage label) ⟨labeled, []⟩
  if st.newNeighbors.length > 0 then (true, neighbors ++ st.newNeighbors, st.labeled)
  else (false, neighbors, st.labeled)

/-- The `while (keepSearching)` loop of `fillInsideBuildings`; `none` when the
fuel runs out. -/
def classGrowLoop (w h : Nat) (classImage : Image) (label : Nat) :
    Nat → List PixelType → Image → Option (List PixelType × Image)
  | 0, _, _ => none
  | fuel + 1, neighbors, labeled =>
    let r := addClassNeighbors w h neighbors classImage labeled label
    if r.1 then classGrowLoop w h classImage label fuel r.2.1 r.2.2 else some (r.2.1, r.2.2)

/-- The test `inside` of `fillInsideBuildings`: no pixel of the group has an
unvisited neighbour that is not a building. -/
def insideBuilding (w h : Nat) (classImage labeled : Image) (neighbors : List PixelType) : Bool :=
  neighbors.all fun p =>
    (nbrRangeS p.j h).all fun jj =>
      (nbrRangeS p.i w).all fun ii =>
        !(labeled jj ii = 0 ∧ classImage jj ii ≠ LAS_BUILDING)

/-- Loop state of `fillInsideBuildings`: the class raster and the visited mask. -/
structure FillState where
  classImage : Image
  labeled : Image

/-- Body of the scan of `fillInsideBuildings` at pixel `p = (j,i)`. -/
def fillInsideStep (w h : Nat) (st : Option FillState) (p : Nat × Nat) : Option FillState :=
  st.bind fun s =>
    if ¬ (s.labeled p.1 p.2 = 0 ∧ s.classImage p.1 p.2 = LAS_TREE) then some s
    else
      (classGrowLoop w h s.classImage (s.classImage p.1 p.2) (w * h + 1) [⟨p.2, p.1⟩]
          (setPx s.labeled p.1 p.2 1)).map fun r =>
        if insideBuilding w h s.classImage r.2 r.1 then
          ⟨r.1.foldl (fun c q => setPx c q.j q.i LAS_BUILDING) s.classImage, r.2⟩
        else ⟨s.classImage, r.2⟩

/-- `fillInsideBuildings`: the class raster on return. -/
def fillInsideBuildings (w h : Nat) (classImage : Image) : Option Image :=
  ((scanOrder w h).foldl (fillInsideStep w h) (some ⟨classImage, fun _ _ => 0⟩)).map
    fun s => s.classImage

/-- Truncation of a rational towards zero. -/
def truncQ (q : ℚ) : Int := Int.tdiv q.num q.den

/-- The number of halvings that bring `n` below 2, at most `fuel` of them. -/
def log2Fuel : Nat → Nat → Nat
  | 0, _ => 0
  | fuel + 1, n => if 2 ≤ n then log2Fuel fuel (n / 2) + 1 else 0

/-- The position of the leading bit of `n`: the `e` with `2^e ≤ n < 2^(e+1)`
for `n ≥ 1`. -/
def floorLog2 (n : Nat) : Nat := log2Fuel n n

/-- The binary exponent of a non-zero rational `q`: the `e` with
`2^e ≤ |q| < 2^(e+1)`. -/
def binade (q : ℚ) : Int :=
  if q.den ≤ q.num.natAbs then (floorLog2 (q.num.natAbs / q.den) : Int)
  else -((floorLog2 ((q.den - 1) / q.num.natAbs) : Int) + 1)

/-- The power `2^e` for a whole exponent of either sign. -/
def pow2 (e : Int) : ℚ :=
  if 0 ≤ e then ((2 ^ e.toNat : Nat) : ℚ) else 1 / ((2 ^ (-e).toNat : Nat) : ℚ)

/-- Rounding to the nearest whole number, a tie going to the even one. -/
def roundEven (q : ℚ) : Int :=
  if q - ⌊q⌋ < 1 / 2 then ⌊q⌋
  else if q - ⌊q⌋ > 1 / 2 then ⌊q⌋ + 1
  else if ⌊q⌋ % 2 = 0 then ⌊q⌋ else ⌊q⌋ + 1

/-- The value a `float` takes for the exact result `q` of an operation: IEEE 754
single precision, round to nearest, ties to even.  The significand has 24 bits
and the exponent does not go below -126 (below that the spacing stays
`2^-149`, the subnormal range).  A result beyond the largest finite `float`
keeps its rounded value here instead of becoming an infinity; the uses below
say where that matters. -/
def roundF32 (q : ℚ) : ℚ :=
  if q = 0 then 0
  else (roundEven (q / pow2 (max (binade q) (-126) - 23)) : ℚ) * pow2 (max (binade q) (-126) - 23)

/-- Modelled from the spec: the raster class, which declares `gsd`, is not among
the sources; section 3 gives `gsd` as a `float`.  This is the `float` quotient
`a / (gsd * gsd)` for a `float` (or small whole) `a`: the product is rounded,
then the quotient.  `none` stands for an infinity or NaN, which the quotient is
when the rounded product is 0.  When the product exceeds the largest finite
`float` it is an infinity and the quotient is 0; the quotient of the model is
then below 1 in magnitude, which the conversion to an integer turns into the
same 0. -/
def floatAreaQuot (a gsd : ℚ) : Option ℚ :=
  if roundF32 (gsd * gsd) = 0 then none else some (roundF32 (a / roundF32 (gsd * gsd)))

/-- The conversion of a `float` to a signed integer type of `bits` bits
(`int(x)`, or the initialisation of a `long`): truncation towards zero.  For an
infinity, a NaN or a value whose truncation does not fit the type the C
conversion is undefined; the model then takes the least value of the type, which
is what the conversion instruction of x86-64 delivers.  A quotient beyond the
largest finite `float` does not fit either type, so it needs no case of its own. -/
def floatToInt (bits : Nat) (x : Option ℚ) : Int :=
  match x with
  | some q =>
    if -(2 : Int) ^ (bits - 1) ≤ truncQ q ∧ truncQ q < (2 : Int) ^ (bits - 1) then truncQ q
    else -(2 : Int) ^ (bits - 1)
  | none => -(2 : Int) ^ (bits - 1)

/-- The clamped index `MAX(0, MIN(n - 1, j + d))` with `n - 1` unsigned, so the
sum is compared as an unsigned value: a sum below zero wraps and yields `n - 1`. -/
def clampIdx (n j : Nat) (d : Int) : Nat := MAX 0 (MIN (usub n 1) (uaddInt j d))

/-- The pointwise loop `if (label != LABEL_GROUND) label = 1` (the body of
`finishLabelImage`, repeated inline in `classifyNonGround`). -/
def finishLabelImage (L : Image) : Image :=
  fun j i => if L j i ≠ LABEL_GROUND then 1 else L j i

/-- The AGL threshold loop of `classifyNonGround`.  The source compares
`(float) dsm - (float) dtm` with `(float) aglShort`: the difference of two 16-bit
samples is exact in a `float`, and the rounding of `aglShort` (an `unsigned int`,
exact below 16777216) cannot carry it across a value of at most 65535, so the
test is the comparison of the whole numbers, the difference taken signed. -/
def aglCull (dsm dtm L : Image) (aglShort : Nat) : Image :=
  fun j i =>
    if L j i ≠ LABEL_GROUND then
      if dsm j i = 0 then LABEL_GROUND
      else if (dsm j i : Int) - (dtm j i : Int) < (aglShort : Int) then LABEL_GROUND
      else L j i
    else L j i

/-- One boundary contribution
`MAX(0, MAX(0, dsm[p] - dsm[n]) - MAX(0, dsm[n] - dsm[n2]))`, a non-negative
whole number (natural subtraction truncates at 0). -/
def gradTerm (a b c : Nat) : Nat := (a - b) - (b - c)

/-- The statement `meanGradient += t` on the `float` sum `acc` for a whole
contribution `t`: the new sum, rounded to single precision.  Expressions of type
`float` are taken to be evaluated in single precision, with no excess precision
(the arithmetic of x86-64). -/
def addF32 (acc : ℚ) (t : Nat) : ℚ := roundF32 (acc + (t : ℚ))

/-- The accumulation of `meanGradient` (before the division) and `count` over
the bounding box of an object.  `meanGradient` is a `float`: every `+=` rounds
the new sum to single precision.  The samples are 16-bit, so each contribution
is a whole number that a `float` holds exactly.  `count` is an `int`; more than
2147483647 contributions for one object are outside the model. -/
def boundaryStats (w h : Nat) (dsm L : Image) (obj : ObjectType) : ℚ × Nat :=
  (loopRange obj.ymin obj.ymax).foldl
    (fun acc j => (loopRange obj.xmin obj.xmax).foldl
      (fun acc i =>
        if L j i = obj.label then
          ([-1, 0, 1] : List Int).foldl
            (fun acc jj => ([-1, 0, 1] : List Int).foldl
              (fun acc ii =>
                if L (clampIdx h j jj) (clampIdx w i ii) = LABEL_GROUND then
                  (addF32 acc.1 (gradTerm (dsm j i) (dsm (clampIdx h j jj) (clampIdx w i ii))
                      (dsm (clampIdx h j (jj * 2)) (clampIdx w i (ii * 2)))),
                    acc.2 + 1)
                else acc) acc) acc
        else acc) acc) (0, 0)

/-- The statement `meanGradient /= count` followed by the test
`(meanGradient < dzShort / 2.0) && (meanGradient != 0.0)`: the count is
converted to `float`, the quotient is rounded to single precision and is then
compared, as a `double`, with the exact half of `dzShort`.  With `count = 0` the
quotient `0.0 / 0` is NaN and the test fails. -/
def flatBoundary (sum : ℚ) (count dzShort : Nat) : Bool :=
  count ≠ 0 ∧ roundF32 (sum / roundF32 (count : ℚ)) < (dzShort : ℚ) / 2 ∧
    roundF32 (sum / roundF32 (count : ℚ)) ≠ 0

/-- The loop that relabels every pixel of an object inside its bounding box to
`LABEL_GROUND`. -/
def rejectObject (L : Image) (obj : ObjectType) : Image :=
  fun j i =>
    if obj.ymin ≤ j ∧ j ≤ obj.ymax ∧ obj.xmin ≤ i ∧ i ≤ obj.xmax ∧ L j i = obj.label then
      LABEL_GROUND
    else L j i

/-- Body of the flat-boundary rejection loop over the objects. -/
def gradientRejectStep (w h : Nat) (dsm : Image) (dzShort : Nat) (L : Image) (obj : ObjectType) :
    Image :=
  let s := boundaryStats w h dsm L obj
  if flatBoundary s.1 s.2 dzShort then rejectObject L obj else L

/-- Whether some pixel of the clipped 3x3 window of `(j,i)` satisfies `p`
(signed loop indices). -/
def anyWindow (w h : Nat) (p : Nat → Nat → Bool) (j i : Nat) : Bool :=
  (nbrRangeS j h).any fun jj => (nbrRangeS i w).any fun ii => p jj ii

/-- The erosion into `tempImage`. -/
def erodeTemp (w h : Nat) (L : Image) : Image :=
  fun j i =>
    if L j i ≠ LABEL_GROUND ∧ anyWindow w h (fun jj ii => L jj ii = LABEL_GROUND) j i then
      LABEL_GROUND
    else L j i

/-- The dilation test against the eroded `tempImage`. -/
def dilateFromTemp (w h : Nat) (L T : Image) : Image :=
  fun j i =>
    if L j i ≠ LABEL_GROUND ∧ ¬ anyWindow w h (fun jj ii => T jj ii ≠ LABEL_GROUND) j i then
      LABEL_GROUND
    else L j i

/-- Body of the small-object rejection loop over the objects. -/
def areaRejectStep (minPointCount : Int) (L : Image) (obj : ObjectType) : Image :=
  if (obj.count : Int) < minPointCount then rejectObject L obj else L

/-- The constant `LONG_MAX`. -/
def LONG_MAX : Int := 9223372036854775807

/-- The constant `INT_MAX`. -/
def INT_MAX : Nat := 2147483647

/-- `classifyNonGround`: the label raster on return.  `gsd` is the ground sample
distance of the DSM raster; `gsd` and `minAreaMeters` are `float` values, and
`minPointCount` is the `int` made of their single-precision quotient. -/
def classifyNonGround (w h : Nat) (gsd : ℚ) (dsm dtm L : Image) (dzShort aglShort : Nat)
    (minAreaMeters : ℚ) : Option Image :=
  let minPointCount := floatToInt 32 (floatAreaQuot minAreaMeters gsd)
  let L1 := aglCull dsm dtm L aglShort
  (groupObjects w h L1 dsm LONG_MAX (dzShort / 2)).bind fun g1 =>
    let L2 := g1.objects.foldl (gradientRejectStep w h dsm dzShort) g1.L
    let L3 := dilateFromTemp w h L2 (erodeTemp w h L2)
    let L4 := finishLabelImage L3
    (groupObjects w h L4 dsm LONG_MAX INT_MAX).map fun g2 =>
      finishLabelImage (g2.objects.foldl (areaRejectStep minPointCount) g2.L)

/-- Modelled from the spec: the header that declares the scratch label constants
is not among the sources.  Section 3 names them as reserved label values without
giving their encoding, so they are carried as parameters. -/
structure LabelConsts where
  LABEL_TEMP : Nat
  LABEL_IN_ONE : Nat
  LABEL_ACCEPTED : Nat
  LABEL_OBJECT : Nat

/-- The values a loop `for (x = lo; x < hi; x++)` visits. -/
def loopRangeLt (lo hi : Nat) : List Nat := (List.range (hi - lo)).map (fun k => lo + k)

/-- The loop `for (int d = -dh; d <= dh; d += dh)`: the offsets it visits, from
offset `d` on; `none` when the fuel runs out. -/
def stencilLoop (dh : Nat) : Nat → Int → Option (List Int)
  | 0, _ => none
  | fuel + 1, d =>
    if d ≤ (dh : Int) then (stencilLoop dh fuel (d + dh)).map (fun l => d :: l) else some []

/-- The offsets of the stencil loops of `labelObjectBoundaries`. -/
def stencilOffsets (dh : Nat) : Option (List Int) := stencilLoop dh 4 (-(dh : Int))

/-- The clamped index `MIN(MAX(0, j + d), n - 1)` of `labelObjectBoundaries`, the
sum taken in unsigned arithmetic. -/
def clampStencil (n j : Nat) (d : Int) : Nat := MIN (MAX 0 (uaddInt j d)) (usub n 1)

/-- The test of `labelObjectBoundaries` at pixel `(j,i)` for offset `(dj,di)`. -/
def stepEdge (w h : Nat) (H : Image) (dz j i : Nat) (dj di : Int) : Bool :=
  H (clampStencil h j dj) (clampStencil w i di) ≠ 0 ∧
    ((H j i : Int) - (H (clampStencil h j dj) (clampStencil w i di) : Int)) -
        ((H (clampStencil h j dj) (clampStencil w i di) : Int) -
          (H (clampStencil h j (dj * 2)) (clampStencil w i (di * 2)) : Int)) > (dz : Int)

/-- The first loop of `labelObjectBoundaries`: every pixel of the raster is set
to `LABEL_GROUND`. -/
def resetLabels (w h : Nat) (L : Image) : Image :=
  fun j i => if j < h ∧ i < w then LABEL_GROUND else L j i

/-- `labelObjectBoundaries`: the label raster on return; `none` when the stencil
loops do not come to an end. -/
def labelObjectBoundaries (w h : Nat) (H L : Image)
    (edgeResolution minDistanceShortValue : Nat) : Option Image :=
  if w = 0 ∨ h = 0 then some (resetLabels w h L)
  else
    (stencilOffsets edgeResolution).map fun offs => fun j i =>
      if j < h ∧ i < w ∧
          offs.any (fun dj => offs.any fun di => stepEdge w h H minDistanceShortValue j i dj di)
      then 1 else resetLabels w h L j i

/-- Body of the innermost loop of the first pass of `extendObjectBoundaries`,
centre `(j,i)`, neighbour `(jj,ii)`. -/
def extendMarkStep (c : LabelConsts) (H : Image) (dz j i jj : Nat) (L : Image) (ii : Nat) : Image :=
  if L jj ii = 1 then L
  else if 2 * ((H j i : Int) - (H jj ii : Int)) < (dz : Int) then setPx L jj ii c.LABEL_TEMP
  else L

/-- First pass of `extendObjectBoundaries`: mark close neighbours `LABEL_TEMP`.
The loops run over `1 .. height - 2` and `1 .. width - 2` with unsigned bounds.
On a raster of height or width 0 the bound `height - 1` wraps to 4294967295 and
the source reads `data[1][1]`, outside the raster; the fold below then runs over
the samples the total function supplies there, which stands for no behaviour of
the program.  What is stated about a return of `extendObjectBoundaries` or of
`classifyGround` describes the program for rasters with `0 < w` and `0 < h`. -/
def extendMark (c : LabelConsts) (w h : Nat) (H : Image) (dz : Nat) (L : Image) : Image :=
  (loopRangeLt 1 (usub h 1)).foldl
    (fun L j => (loopRangeLt 1 (usub w 1)).foldl
      (fun L i =>
        if L j i = 1 then
          (loopRange (j - 1) (j + 1)).foldl
            (fun L jj => (loopRange (i - 1) (i + 1)).foldl (extendMarkStep c H dz j i jj) L) L
        else L) L) L

/-- Second pass of `extendObjectBoundaries`: a `LABEL_TEMP` pixel higher than a
neighbour by more than `dz / 2.0` becomes 1. -/
def extendPromote (c : LabelConsts) (w h : Nat) (H : Image) (dz : Nat) (L : Image) : Image :=
  fun j i =>
    if L j i = c.LABEL_TEMP ∧
        (nbrRangeU j h).any (fun jj => (nbrRangeU i w).any fun ii =>
          decide (2 * ((H j i : Int) - (H jj ii : Int)) > (dz : Int))) then 1
    else L j i

/-- `extendObjectBoundaries`. -/
def extendObjectBoundaries (c : LabelConsts) (w h : Nat) (H L : Image)
    (edgeResolution minDistanceShortValue : Nat) : Image :=
  let L1 := (List.range edgeResolution).foldl
    (fun L _ => extendPromote c w h H minDistanceShortValue
      (extendMark c w h H minDistanceShortValue L)) L
  fun j i => if L1 j i = c.LABEL_TEMP then LABEL_GROUND else L1 j i

/-- The forward search for the first index of `idxs` where `cell` holds the label. -/
def findStart (cell : Nat → Nat) (label : Nat) (idxs : List Nat) : Option Nat :=
  idxs.find? fun i => cell i = label

/-- The backward search for the last index of `idxs` where `cell` holds the label. -/
def findStop (cell : Nat → Nat) (label : Nat) (idxs : List Nat) : Option Nat :=
  idxs.reverse.find? fun i => cell i = label

/-- The ground level of a scan line: the sample next to the labelled span on the
side(s) that exist. -/
def scanGroundLevel (hcell : Nat → Nat) (n start stop : Nat) : Nat :=
  if start = 0 then hcell (stop + 1)
  else if stop = usub n 1 then hcell (start - 1)
  else MAX (hcell (start - 1)) (hcell (stop + 1))

/-- One row of the row scan of `fillObjectBounds`; `none` when the backward
search finds no label (the C loop then runs below index 0). -/
def fillRow (c : LabelConsts) (w : Nat) (H : Image) (obj : ObjectType) (L : Image) (j : Nat) :
    Option Image :=
  let idxs := loopRange (obj.xmin - 1) (MIN (obj.xmax + 1) (usub w 1))
  match findStart (L j) obj.label idxs with
  | none => some L
  | some start =>
    match findStop (L j) obj.label idxs with
    | none => none
    | some stop =>
      if start = 0 ∧ stop = usub w 1 then some L
      else
        some fun j' i' =>
          if j' = j ∧ start ≤ i' ∧ i' ≤ stop then
            if H j i' > scanGroundLevel (H j) w start stop then
              (if L j i' ≠ obj.label then c.LABEL_IN_ONE else L j i')
            else (if L j i' = obj.label then LABEL_GROUND else L j i')
          else L j' i'

/-- One column of the column scan of `fillObjectBounds`. -/
def fillCol (c : LabelConsts) (h : Nat) (H : Image) (obj : ObjectType) (L : Image) (i : Nat) :
    Option Image :=
  let idxs := loopRange (obj.ymin - 1) (MIN (obj.ymax + 1) (usub h 1))
  match findStart (fun j => L j i) obj.label idxs with
  | none => some L
  | some start =>
    match findStop (fun j => L j i) obj.label idxs with
    | none => none
    | some stop =>
      if start = 0 ∧ stop = usub h 1 then some L
      else
        some fun j' i' =>
          if i' = i ∧ start ≤ j' ∧ j' ≤ stop then
            if H j' i > scanGroundLevel (fun j => H j i) h start stop ∧
                (L j' i = obj.label ∨ L j' i = c.LABEL_IN_ONE) then c.LABEL_ACCEPTED
            else L j' i
          else L j' i'

/-- Body of the erosion loop of `fillObjectBounds` at pixel `(j,i)`: the square
`i - rad .. MIN(i + rad, w - 1)` by `j - rad .. MIN(j + rad, h - 1)`, the lower
bounds computed in unsigned arithmetic. -/
def erodeAt (c : LabelConsts) (w h rad : Nat) (L : Image) (j i : Nat) : Image :=
  if L j i = c.LABEL_ACCEPTED then
    (loopRange (MAX (usub j rad) 0) (MIN ((j + rad) % 4294967296) (usub h 1))).foldl
      (fun L jj => (loopRange (MAX (usub i rad) 0) (MIN ((i + rad) % 4294967296) (usub w 1))).foldl
        (fun L ii => if L jj ii ≠ c.LABEL_ACCEPTED then setPx L jj ii c.LABEL_TEMP else L) L) L
  else L

/-- `fillObjectBounds`: the label raster and the object (with its bounds
updated) on return. -/
def fillObjectBounds (c : LabelConsts) (w h : Nat) (L H : Image) (obj : ObjectType)
    (edgeResolution _dzShort : Nat) : Option (Image × ObjectType) :=
  let rows := loopRange (obj.ymin - 1) (MIN (obj.ymax + 1) (usub h 1))
  let cols := loopRange (obj.xmin - 1) (MIN (obj.xmax + 1) (usub w 1))
  (rows.foldl (fun acc j => acc.bind fun L => fillRow c w H obj L j) (some L)).bind fun L1 =>
  (cols.foldl (fun acc i => acc.bind fun L => fillCol c h H obj L i) (some L1)).map fun L2 =>
    let L3 := rows.foldl (fun L j => cols.foldl (fun L i => erodeAt c w h edgeResolution L j i) L) L2
    let obj1 : ObjectType :=
      { label := obj.label
        xmin := obj.xmin - edgeResolution - 1
        ymin := obj.ymin - edgeResolution - 1
        xmax := MIN (obj.xmax + edgeResolution + 1) (usub w 1)
        ymax := MIN (obj.ymax + edgeResolution + 1) (usub h 1)
        count := obj.count }
    let L4 : Image := fun j i =>
      if obj1.ymin ≤ j ∧ j ≤ obj1.ymax ∧ obj1.xmin ≤ i ∧ i ≤ obj1.xmax ∧ L3 j i = c.LABEL_TEMP
      then c.LABEL_ACCEPTED else L3 j i
    let L5 : Image := fun j i =>
      if obj1.ymin - 1 ≤ j ∧ j ≤ MIN (obj1.ymax + 1) (usub h 1) ∧
          obj1.xmin - 1 ≤ i ∧ i ≤ MIN (obj1.xmax + 1) (usub w 1) then
        (if (if L4 j i = obj.label then LABEL_GROUND else L4 j i) = c.LABEL_ACCEPTED
          then c.LABEL_OBJECT
          else (if L4 j i = obj.label then LABEL_GROUND else L4 j i))
      else L4 j i
    (L5, obj1)

/-- The external primitive `fillVoidsPyramid(noSmoothing)` on a raster of the
pipeline's dimensions. -/
abbrev VoidFill := Bool → Image → Image

/-- Modelled from the spec: `fillVoidsPyramid` is a member of the raster class,
which is not among the sources; this is the contract of section 4.2.  With
`noSmoothing` non-void pixels are preserved; no void pixel remains zero unless
the entire raster is void; every output sample lies between two input samples. -/
structure FillContract (w h : Nat) (fill : VoidFill) : Prop where
  preserve : ∀ (img : Image) (j i : Nat), j < h → i < w → img j i ≠ 0 → fill true img j i = img j i
  nonvoid : ∀ (b : Bool) (img : Image), (∃ j i, j < h ∧ i < w ∧ img j i ≠ 0) →
    ∀ j i, j < h → i < w → fill b img j i ≠ 0
  bounded : ∀ (b : Bool) (img : Image) (j i : Nat), j < h → i < w →
    (∃ j1 i1, j1 < h ∧ i1 < w ∧ img j1 i1 ≤ fill b img j i) ∧
    (∃ j2 i2, j2 < h ∧ i2 < w ∧ fill b img j i ≤ img j2 i2)

/-- The rasters `classifyGround` works on: labels, the DTM and the void mask. -/
structure GroundState where
  L : Image
  dtm : Image
  void : Image

/-- The loop over the objects that calls `fillObjectBounds` on each. -/
def fillAllObjects (c : LabelConsts) (w h : Nat) (L H : Image) (objects : List ObjectType)
    (dhBins dzShort : Nat) : Option Image :=
  objects.foldl
    (fun acc obj => acc.bind fun L => (fillObjectBounds c w h L H obj dhBins dzShort).map (·.1))
    (some L)

/-- Iteration `k` of the loop of `classifyGround`. -/
def groundIteration (c : LabelConsts) (fill : VoidFill) (w h : Nat) (maxCount : Int)
    (dhBins dzShort : Nat) (st : Option GroundState) (k : Nat) : Option GroundState :=
  st.bind fun s =>
    (labelObjectBoundaries w h s.dtm s.L dhBins dzShort).bind fun L1 =>
      let L2 := extendObjectBoundaries c w h s.dtm L1 dhBins dzShort
      (groupObjects w h L2 s.dtm maxCount dzShort).bind fun g =>
        (fillAllObjects c w h g.L s.dtm g.objects dhBins dzShort).map fun L3 =>
          let L4 := finishLabelImage L3
          let V : Image := fun j i => if L4 j i = 1 then 1 else s.void j i
          let D : Image := fun j i => if V j i = 1 then 0 else s.dtm j i
          ⟨L4, fill (decide (k ≠ 4)) D, V⟩

/-- The loop that restores the DSM value wherever the DTM is not below it. -/
def clampToDsm (dsm : Image) (s : GroundState) : GroundState :=
  ⟨fun j i => if s.dtm j i ≥ dsm j i then LABEL_GROUND else s.L j i,
   fun j i => if s.dtm j i ≥ dsm j i then dsm j i else s.dtm j i,
   fun j i => if s.dtm j i ≥ dsm j i then 0 else s.void j i⟩

/-- The constant `FLT_MAX` (a whole number). -/
def FLT_MAX : Nat := 340282346638528859811704183484516925440

/-- The offsets `(jj, ii)` of the spike loop, the centre skipped. -/
def spikeOffsets : List (Int × Int) :=
  [(-1, -1), (-1, 0), (-1, 1), (0, -1), (0, 1), (1, -1), (1, 0), (1, 1)]

/-- The value `minDiff` of the spike loop at `(j,i)`; each difference is
`MAX(0, dtm[j][i] - dtm[j2][i2])`. -/
def spikeMinDiff (w h : Nat) (dtm : Image) (j i : Nat) : Nat :=
  spikeOffsets.foldl
    (fun m d => MIN m (dtm j i - dtm (clampIdx h j d.1) (clampIdx w i d.2))) FLT_MAX

/-- Body of the spike loop at `p = (j,i)`: `minDiff > dzShort / 2.0` marks a void. -/
def spikeStep (w h dzShort : Nat) (s : GroundState) (p : Nat × Nat) : GroundState :=
  if 2 * spikeMinDiff w h s.dtm p.1 p.2 > dzShort then
    ⟨setPx s.L p.1 p.2 1, setPx s.dtm p.1 p.2 0, setPx s.void p.1 p.2 1⟩
  else s

/-- The spike loop over the raster, row-major. -/
def removeSpikes (w h dzShort : Nat) (s : GroundState) : GroundState :=
  (scanOrder w h).foldl (spikeStep w h dzShort) s

/-- The DTM handed to the last `fillVoidsPyramid(false)`: void pixels zeroed. -/
def zeroVoids (s : GroundState) : Image :=
  fun j i => if s.void j i = 1 then 0 else s.dtm j i

/-- The labels written at the end of `classifyGround`. -/
def markVoids (void : Image) : Image :=
  fun j i => if void j i = 1 then 1 else LABEL_GROUND

/-- The state of `classifyGround` after the consistency clamp and the spike
loop, before the last void fill. -/
def groundTail (w h : Nat) (dsm : Image) (dzShort : Nat) (s : GroundState) : GroundState :=
  removeSpikes w h dzShort (clampToDsm dsm s)

/-- `classifyGround`: labels, DTM and void mask on return; `gsd` is the ground
sample distance of the DSM, a `float`, and `maxCount` is the `long` made of the
single-precision quotient `10000 / (gsd * gsd)`.  `none` when a loop does not
come to an end. -/
def classifyGround (c : LabelConsts) (fill : VoidFill) (w h : Nat) (gsd : ℚ)
    (L dsm dtm : Image) (dhBins dzShort : Nat) : Option GroundState :=
  let maxCount := floatToInt 64 (floatAreaQuot 10000 gsd)
  ((List.range 5).foldl (groundIteration c fill w h maxCount dhBins dzShort)
      (some ⟨L, fill true dtm, fun _ _ => 0⟩)).map fun s =>
    let t := groundTail w h dsm dzShort s
    ⟨markVoids t.void, fill false (zeroVoids t), t.void⟩

/-- The largest sample of the `h` by `w` raster. -/
def rasterMax (w h : Nat) (img : Image) : Nat :=
  (List.range h).foldl (fun m j => (List.range w).foldl (fun m i => max m (img j i)) m) 0

/-- A void fill that meets the contract: every void pixel takes the largest
sample of the raster, for either value of `noSmoothing`; the result is stored
as a table. -/
def fillWithMax (w h : Nat) : VoidFill :=
  fun _ img =>
    ofRows ((List.range h).map fun j => (List.range w).map fun i =>
      if img j i = 0 then rasterMax w h img else img j i)

/-! ## Notions used to state the properties -/

/-- The in-raster pixels that carry value `v` in `L`. -/
def pixelsWith (w h : Nat) (L : Image) (v : Nat) : Finset (Nat × Nat) :=
  (Finset.range h ×ˢ Finset.range w).filter fun p => L p.1 p.2 = v

/-- Two pixels are 8-adjacent (or equal): rows and columns differ by at most 1. -/
def Adj8 (p q : Nat × Nat) : Prop :=
  p.1 ≤ q.1 + 1 ∧ q.1 ≤ p.1 + 1 ∧ p.2 ≤ q.2 + 1 ∧ q.2 ≤ p.2 + 1

/-- A step from `p` to an 8-adjacent in-raster pixel `q` that carries `v`. -/
def Link (w h : Nat) (L : Image) (v : Nat) (p q : Nat × Nat) : Prop :=
  q.1 < h ∧ q.2 < w ∧ L q.1 q.2 = v ∧ Adj8 p q

/-- Pixel `q` is joined to `p` by a chain of 8-adjacent in-raster pixels that all
carry `v`. -/
def Connected (w h : Nat) (L : Image) (v : Nat) (p q : Nat × Nat) : Prop :=
  Relation.ReflTransGen (Link w h L v) p q

/-- The scratch label encoding used for the concrete runs. -/
def sampleConsts : LabelConsts := ⟨4294967294, 4294967293, 4294967295, 1⟩

/-- The number of in-raster pixels whose label is at most 1 (not yet grouped). -/
def freeCount (w h : Nat) (L : Image) : Nat :=
  ((Finset.range h ×ˢ Finset.range w).filter fun p => L p.1 p.2 ≤ 1).card

/-- The invariant behind termination: frontier and accepted pixels are in the
raster with a label of at least 2, and every accepted pixel used up one free pixel. -/
def TermInv (w h n0 : Nat) (nb : List PixelType) (st : GrowState) : Prop :=
  (∀ p ∈ nb, p.j < h ∧ p.i < w ∧ 2 ≤ st.L p.j p.i) ∧
  (∀ p ∈ st.newNeighbors, p.j < h ∧ p.i < w ∧ 2 ≤ st.L p.j p.i) ∧
  freeCount w h st.L + st.newNeighbors.length = n0

/-- The descriptor `obj` is exact for the raster `L`: its count is the number of
in-raster pixels that carry its label, its bounding box encloses them and each
bound is attained, and (for rasters whose sides fit an `unsigned int`) each of
them is joined to the pixel `seed` by a chain of pixels carrying the label. -/
structure ObjAt (w h : Nat) (L : Image) (obj : ObjectType) (seed : Nat × Nat) : Prop where
  count_eq : obj.count = (pixelsWith w h L obj.label).card
  count_pos : 1 ≤ obj.count
  bbox : ∀ j i, j < h → i < w → L j i = obj.label →
    obj.ymin ≤ j ∧ j ≤ obj.ymax ∧ obj.xmin ≤ i ∧ i ≤ obj.xmax
  xmin_att : ∃ j i, j < h ∧ i < w ∧ L j i = obj.label ∧ i = obj.xmin
  xmax_att : ∃ j i, j < h ∧ i < w ∧ L j i = obj.label ∧ i = obj.xmax
  ymin_att : ∃ j i, j < h ∧ i < w ∧ L j i = obj.label ∧ j = obj.ymin
  ymax_att : ∃ j i, j < h ∧ i < w ∧ L j i = obj.label ∧ j = obj.ymax
  seed_in : seed.1 < h ∧ seed.2 < w ∧ L seed.1 seed.2 = obj.label
  conn : w < 4294967296 → h < 4294967296 → ∀ j i, j < h → i < w → L j i = obj.label →
    Connected w h L obj.label seed (j, i)

/-- The raster `L` differs from `L0` only at in-raster pixels that held at most 1
in `L0` and now hold `v`. -/
def Frame (w h : Nat) (L0 : Image) (v : Nat) (L : Image) : Prop :=
  ∀ j i, L j i = L0 j i ∨ (j < h ∧ i < w ∧ L0 j i ≤ 1 ∧ L j i = v)

/-- The invariant of a growth wave of the object labelled `v` seeded at `seed`. -/
def GrowP (w h : Nat) (L0 : Image) (v : Nat) (seed : Nat × Nat) (nb : List PixelType)
    (st : GrowState) : Prop :=
  2 ≤ v ∧ st.obj.label = v ∧
  (∀ q ∈ nb, q.j < h ∧ q.i < w ∧ st.L q.j q.i = v) ∧
  (∀ q ∈ st.newNeighbors, q.j < h ∧ q.i < w ∧ st.L q.j q.i = v) ∧
  ObjAt w h st.L st.obj seed ∧ Frame w h L0 v st.L

/-- The invariant of the sweep of `groupObjects`, relative to the raster `Lin` on
entry: labels never exceed the counter, every listed object is exact, every
label of 2 or more belongs to a listed object, and the raster changed only where
an entry value of at most 1 was replaced by a label of 2 or more. -/
structure ScanInv (w h : Nat) (Lin : Image) (s : GroupState) : Prop where
  label_pos : 1 ≤ s.label
  bounded : ∀ j i, j < h → i < w → s.L j i ≤ s.label
  objs : ∀ obj ∈ s.objects, 2 ≤ obj.label ∧ obj.label ≤ s.label ∧ ∃ seed, ObjAt w h s.L obj seed
  owned : ∀ j i, j < h → i < w → 2 ≤ s.L j i → ∃ obj ∈ s.objects, obj.label = s.L j i
  frame : ∀ j i, s.L j i = Lin j i ∨ (j < h ∧ i < w ∧ Lin j i ≤ 1 ∧ 2 ≤ s.L j i)

/-- Every 8-connected component of pixels labelled 1 in `L` satisfies `bound`:
for every in-raster pixel labelled 1 and every finite set `S` made of exactly
the pixels joined to it by chains of pixels labelled 1, `bound S` holds. -/
def EveryComponent (w h : Nat) (L : Image) (bound : Finset (Nat × Nat) → Prop) : Prop :=
  ∀ j, j < h → ∀ i, i < w → L j i = 1 →
    ∀ S : Finset (Nat × Nat), (∀ q, q ∈ S ↔ Connected w h L 1 (j, i) q) → bound S

/-- The clamp of section 4.1 as the spec words it: `clamp(x, 0, n - 1)`, a
coordinate below 0 yields 0 and one above the last index yields the last index. -/
def clampSpec (n : Nat) (x : Int) : Nat :=
  if x < 0 then 0 else if x > ((n : Int) - 1) then n - 1 else x.toNat

/-- The label of pixel `(j,i)` as the spec words `labelObjectBoundaries`: 1 when
some offset `(dj,di)` out of `{-dh, 0, +dh}` squared has a non-void neighbour `q`
at the clamped position with `H[p] - 2 H[q] + H[q2] > dz`, where `q2` is the
clamped position at twice the offset; `LABEL_GROUND` otherwise. -/
def labelBoundarySpec (w h : Nat) (H : Image) (dh dz j i : Nat) : Nat :=
  if ([-(dh : Int), 0, (dh : Int)].any fun dj => [-(dh : Int), 0, (dh : Int)].any fun di =>
      decide (H (clampSpec h ((j : Int) + dj)) (clampSpec w ((i : Int) + di)) ≠ 0 ∧
        (H j i : Int) - 2 * (H (clampSpec h ((j : Int) + dj)) (clampSpec w ((i : Int) + di)) : Int)
          + (H (clampSpec h ((j : Int) + 2 * dj)) (clampSpec w ((i : Int) + 2 * di)) : Int)
          > (dz : Int)))
  then 1 else LABEL_GROUND

/-- Pixel `(j,i)` sits on a step edge: some in-raster 8-neighbour lies more than
`dz / 2` below it. -/
def StepEdgeAt (w h : Nat) (H : Image) (dz j i : Nat) : Prop :=
  ∃ jj ii, jj < h ∧ ii < w ∧ Adj8 (j, i) (jj, ii) ∧ (jj, ii) ≠ (j, i) ∧
    2 * ((H j i : Int) - (H jj ii : Int)) > (dz : Int)

/-- The invariant of the passes of `extendObjectBoundaries` relative to the
labels `L0` on entry: an in-raster pixel is 1 only if it was 1 on entry or sits
on a step edge, a pixel that was 1 stays 1, and only `LABEL_GROUND`, 1 and
`LABEL_TEMP` occur. -/
def ExtendInv (c : LabelConsts) (w h : Nat) (H : Image) (dz : Nat) (L0 L : Image) : Prop :=
  ∀ j, j < h → ∀ i, i < w →
    (L j i = 1 → L0 j i = 1 ∨ StepEdgeAt w h H dz j i) ∧ (L0 j i = 1 → L j i = 1) ∧
    (L j i = LABEL_GROUND ∨ L j i = 1 ∨ L j i = c.LABEL_TEMP)

/-- A 4x4 height raster with a step of 40 between columns 2 and 3, for the
concrete runs. -/
def sampleStepHeights : Image :=
  ofRows [[50, 50, 50, 10], [50, 50, 50, 10], [50, 50, 50, 10], [50, 50, 50, 10]]

/-- A 4x4 label raster with the single pixel (1,1) labelled 1, for the concrete
runs. -/
def sampleStepLabels : Image :=
  ofRows [[0, 0, 0, 0], [0, 1, 0, 0], [0, 0, 0, 0], [0, 0, 0, 0]]

/-- The working state of `classifyGround` on flat ground of height `v`: inside
the raster the DTM is `v` and the void mask is clear. -/
def FlatState (w h v : Nat) (s : GroundState) : Prop :=
  ∀ j, j < h → ∀ i, i < w → s.dtm j i = v ∧ s.void j i = 0

/-- A step of a height-similar chain: from `p` to an 8-adjacent in-raster pixel
`q` that carries `v`, the two heights differing by at most `dz`. -/
def LinkH (w h : Nat) (L H : Image) (dz v : Nat) (p q : Nat × Nat) : Prop :=
  Link w h L v p q ∧ absDiff (H q.1 q.2) (H p.1 p.2) ≤ dz

/-- Pixel `q` is joined to `p` by a chain of 8-adjacent in-raster pixels that all
carry `v` and whose consecutive heights differ by at most `dz`. -/
def ConnectedH (w h : Nat) (L H : Image) (dz v : Nat) (p q : Nat × Nat) : Prop :=
  Relation.ReflTransGen (LinkH w h L H dz v) p q

/-- The invariant of a growth wave for the height-similar chains of the object
labelled `v` seeded at `seed`. -/
def GrowH (w h : Nat) (H : Image) (dz v : Nat) (seed : Nat × Nat) (nb : List PixelType)
    (st : GrowState) : Prop :=
  (∀ q ∈ nb, q.j < h ∧ q.i < w ∧ st.L q.j q.i = v) ∧
  (∀ q ∈ st.newNeighbors, q.j < h ∧ q.i < w ∧ st.L q.j q.i = v) ∧
  (∀ j i, j < h → i < w → st.L j i = v → ConnectedH w h st.L H dz v seed (j, i))

/-- Every listed object has a seed pixel, labelled 1 in `Lin`, to which each
pixel carrying the object's label is joined by a height-similar chain. -/
def ScanH (w h : Nat) (Lin H : Image) (dz : Nat) (s : GroupState) : Prop :=
  ∀ obj ∈ s.objects, ∃ seed : Nat × Nat, seed.1 < h ∧ seed.2 < w ∧ Lin seed.1 seed.2 = 1 ∧
    s.L seed.1 seed.2 = obj.label ∧
    ∀ j, j < h → ∀ i, i < w → s.L j i = obj.label →
      ConnectedH w h s.L H dz obj.label seed (j, i)

/-- The `while (keepSearching)` loop of `groupObjects` with a ghost counter: the
third component is the number of calls of `addNeighbors` (growth waves). -/
def growLoopWaves (w h : Nat) (H : Image) (dzShort : Nat) (maxCount : Int) :
    Nat → List PixelType → Image → ObjectType → Option (Image × ObjectType × Nat)
  | 0, _, _, _ => none
  | fuel + 1, neighbors, L, obj =>
    let r := addNeighbors w h H dzShort neighbors L obj
    if (r.obj.count : Int) > maxCount then some (r.L, r.obj, 1)
    else if r.keep then
      (growLoopWaves w h H dzShort maxCount fuel r.neighbors r.L r.obj).map
        fun x => (x.1, x.2.1, x.2.2 + 1)
    else some (r.L, r.obj, 1)

/-- Body of the scan of `groupObjects` with the ghost counter of growth waves. -/
def groupStepWaves (w h : Nat) (H : Image) (maxCount : Int) (dzShort : Nat)
    (st : Option (GroupState × Nat)) (p : Nat × Nat) : Option (GroupState × Nat) :=
  st.bind fun s =>
    if s.1.L p.1 p.2 = LABEL_GROUND then some s
    else if s.1.L p.1 p.2 > 1 then some s
    else
      (growLoopWaves w h H dzShort maxCount (w * h + 1) [⟨p.2, p.1⟩]
          (setPx s.1.L p.1 p.2 (s.1.label + 1)) ⟨s.1.label + 1, p.2, p.2, p.1, p.1, 1⟩).map
        fun r => (⟨r.1, s.1.objects ++ [r.2.1], s.1.label + 1⟩, s.2 + r.2.2)

/-- `groupObjects` with the ghost counter: its result and the number of growth
waves over all seeds. -/
def groupObjectsWaves (w h : Nat) (L H : Image) (maxCount : Int) (dzShort : Nat) :
    Option (GroupState × Nat) :=
  (scanOrder w h).foldl (groupStepWaves w h H maxCount dzShort) (some (⟨L, [], 1⟩, 0))

/-- The raster `L` arose from `L0` by relabelling: a pixel either kept its value
or went from a value of at most 1 to a label of at least 2. -/
def Relabelled (L0 L : Image) : Prop :=
  ∀ j i, L j i = L0 j i ∨ (L0 j i ≤ 1 ∧ 2 ≤ L j i)

/-- The invariant of a growth wave started on the raster `L0`: the termination
invariant, the raster only relabelled, and every accepted pixel in-raster with
a value of at most 1 in `L0`. -/
def WaveInv (w h : Nat) (L0 : Image) (nb : List PixelType) (st : GrowState) : Prop :=
  TermInv w h (freeCount w h L0) nb st ∧ Relabelled L0 st.L ∧
  ∀ q ∈ st.newNeighbors, L0 q.j q.i ≤ 1

/-- The set `E` of the erode-then-dilate step: pixel `(j,i)` is non-ground and
so is every in-raster pixel of its 3x3 window. -/
def FullWindow (w h : Nat) (L : Image) (j i : Nat) : Prop :=
  L j i ≠ LABEL_GROUND ∧
    ∀ jj ii, jj < h → ii < w → Adj8 (j, i) (jj, ii) → L jj ii ≠ LABEL_GROUND

/-- A 3-wide, 4-high label raster with a wall one pixel wide in column 1, for
the concrete runs. -/
def sampleWall : Image := ofRows [[0, 1, 0], [0, 1, 0], [0, 1, 0], [0, 1, 0]]

/-- The value `minDiff` as the spec words the spike test: the minimum over the 8
neighbours `n`, taken at the clamped coordinates of section 4.1, of
`max(0, DTM[p] - DTM[n])`. -/
def spikeMinDiffSpec (w h : Nat) (dtm : Image) (j i : Nat) : Nat :=
  ((spikeOffsets.map fun d =>
      dtm j i - dtm (clampSpec h ((j : Int) + d.1)) (clampSpec w ((i : Int) + d.2))).min?).getD 0

/-- A 3x3 height raster with the single raised pixel (0,1) in the top row, for
the concrete runs. -/
def sampleTopSpike : Image := ofRows [[10, 25, 10], [10, 10, 10], [10, 10, 10]]

/-- The row scan and the column scan of `fillObjectBounds` (its first two
loops): the label raster as it stands before the erosion loop; `none` as for
`fillRow`. -/
def fillScans (c : LabelConsts) (w h : Nat) (L H : Image) (obj : ObjectType) : Option Image :=
  let rows := loopRange (obj.ymin - 1) (MIN (obj.ymax + 1) (usub h 1))
  let cols := loopRange (obj.xmin - 1) (MIN (obj.xmax + 1) (usub w 1))
  (rows.foldl (fun acc j => acc.bind fun L => fillRow c w H obj L j) (some L)).bind fun L1 =>
    cols.foldl (fun acc i => acc.bind fun L => fillCol c h H obj L i) (some L1)

/-- The loops of `fillObjectBounds` after the two scans, from the label raster
`L2` the scans leave: the erosion loop, the update of the object bounds, the
promotion of `LABEL_TEMP` and the finishing loop. -/
def fillFinish (c : LabelConsts) (w h : Nat) (obj : ObjectType) (edgeResolution : Nat)
    (L2 : Image) : Image × ObjectType :=
  let rows := loopRange (obj.ymin - 1) (MIN (obj.ymax + 1) (usub h 1))
  let cols := loopRange (obj.xmin - 1) (MIN (obj.xmax + 1) (usub w 1))
  let L3 := rows.foldl (fun L j => cols.foldl (fun L i => erodeAt c w h edgeResolution L j i) L) L2
  let obj1 : ObjectType :=
    { label := obj.label
      xmin := obj.xmin - edgeResolution - 1
      ymin := obj.ymin - edgeResolution - 1
      xmax := MIN (obj.xmax + edgeResolution + 1) (usub w 1)
      ymax := MIN (obj.ymax + edgeResolution + 1) (usub h 1)
      count := obj.count }
  let L4 : Image := fun j i =>
    if obj1.ymin ≤ j ∧ j ≤ obj1.ymax ∧ obj1.xmin ≤ i ∧ i ≤ obj1.xmax ∧ L3 j i = c.LABEL_TEMP
    then c.LABEL_ACCEPTED else L3 j i
  let L5 : Image := fun j i =>
    if obj1.ymin - 1 ≤ j ∧ j ≤ MIN (obj1.ymax + 1) (usub h 1) ∧
        obj1.xmin - 1 ≤ i ∧ i ≤ MIN (obj1.xmax + 1) (usub w 1) then
      (if (if L4 j i = obj.label then LABEL_GROUND else L4 j i) = c.LABEL_ACCEPTED
        then c.LABEL_OBJECT
        else (if L4 j i = obj.label then LABEL_GROUND else L4 j i))
    else L4 j i
  (L5, obj1)

/-- A 5x5 height raster with the single raised pixel (2,0) in the left column,
for the concrete runs. -/
def sampleLeftHeights : Image :=
  ofRows [[10, 10, 10, 10, 10], [10, 10, 10, 10, 10], [50, 10, 10, 10, 10],
    [10, 10, 10, 10, 10], [10, 10, 10, 10, 10]]

/-- The 5x5 label raster with pixel (2,0) labelled 1. -/
def sampleLeftLabels : Image :=
  ofRows [[0, 0, 0, 0, 0], [0, 0, 0, 0, 0], [1, 0, 0, 0, 0], [0, 0, 0, 0, 0], [0, 0, 0, 0, 0]]

/-- A 5x5 height raster with the single raised pixel (2,2) in the middle. -/
def sampleMidHeights : Image :=
  ofRows [[10, 10, 10, 10, 10], [10, 10, 10, 10, 10], [10, 10, 50, 10, 10],
    [10, 10, 10, 10, 10], [10, 10, 10, 10, 10]]

/-- The 5x5 label raster with pixel (2,2) labelled 1. -/
def sampleMidLabels : Image :=
  ofRows [[0, 0, 0, 0, 0], [0, 0, 0, 0, 0], [0, 0, 1, 0, 0], [0, 0, 0, 0, 0], [0, 0, 0, 0, 0]]

/-- A 7x7 label raster for the concrete runs: a U-shaped candidate region (open
at the top, its left arm one pixel longer) and a three-pixel diagonal candidate
region inside the opening; pixel (2,3) between them is ground. -/
def sampleNestLabels : Image :=
  ofRows [[0, 0, 0, 0, 0, 0, 0],
          [0, 1, 0, 1, 0, 0, 0],
          [0, 1, 0, 0, 1, 1, 0],
          [0, 1, 0, 1, 0, 1, 0],
          [0, 1, 0, 0, 0, 1, 0],
          [0, 1, 1, 1, 1, 1, 0],
          [0, 0, 0, 0, 0, 0, 0]]

/-- The heights that go with `sampleNestLabels`: the U at 100, the diagonal
region at 40, pixel (2,3) at 80, two pixels left of the U at 60, ground at 10. -/
def sampleNestHeights : Image :=
  ofRows [[10, 10, 10, 10, 10, 10, 10],
          [10, 100, 10, 40, 10, 10, 10],
          [60, 100, 10, 80, 40, 100, 10],
          [60, 100, 10, 40, 10, 100, 10],
          [10, 100, 10, 10, 10, 100, 10],
          [10, 100, 100, 100, 100, 100, 10],
          [10, 10, 10, 10, 10, 10, 10]]

/-- The label raster `fillObjectBounds` returns for the U-shaped object (label
2) of `sampleNestLabels`, as a table. -/
def sampleNestAfterFirst : Image :=
  ofRows [[1, 1, 1, 0, 0, 0, 0],
          [1, 1, 1, 3, 1, 1, 1],
          [1, 1, 1, 4294967293, 1, 1, 1],
          [1, 1, 1, 3, 1, 1, 1],
          [1, 1, 1, 1, 1, 1, 1],
          [1, 1, 1, 1, 1, 1, 1],
          [1, 1, 1, 1, 1, 1, 1]]

/-- Pixel `(j,i)` lies in the interior of the raster: not in its first or last
row or column. -/
def Interior (w h j i : Nat) : Prop := 1 ≤ j ∧ j + 1 < h ∧ 1 ≤ i ∧ i + 1 < w

/-- Pixel `n = (jj,ii)` has a marking centre in `L`: an interior pixel `c`
labelled 1 that is 8-adjacent to `n` with `H[c] - H[n] < dz / 2`. -/
def MarkCentre (w h : Nat) (H L : Image) (dz jj ii : Nat) : Prop :=
  ∃ j i, Interior w h j i ∧ L j i = 1 ∧ Adj8 (j, i) (jj, ii) ∧
    2 * ((H j i : Int) - (H jj ii : Int)) < (dz : Int)

/-- The invariant of the marking pass of `extendObjectBoundaries` relative to
the labels `L` at its start: the pixels labelled 1 are the same, and a pixel
that holds `LABEL_TEMP` held it at the start or has a marking centre. -/
def MarkInv (c : LabelConsts) (w h : Nat) (H : Image) (dz : Nat) (L L' : Image) : Prop :=
  (∀ j i, L' j i = 1 ↔ L j i = 1) ∧
  ∀ jj ii, L' jj ii = c.LABEL_TEMP → L jj ii = c.LABEL_TEMP ∨ MarkCentre w h H L dz jj ii

/-- The invariant of the passes of `extendObjectBoundaries` relative to the
labels `L` on entry: a pixel labelled 1 on entry stays 1, and a pixel that holds
`LABEL_TEMP` or 1 held one of the two on entry or has a marking centre. -/
def PassInv (c : LabelConsts) (w h : Nat) (H : Image) (dz : Nat) (L L' : Image) : Prop :=
  (∀ j i, L j i = 1 → L' j i = 1) ∧
  ∀ jj ii, L' jj ii = c.LABEL_TEMP ∨ L' jj ii = 1 →
    L jj ii = c.LABEL_TEMP ∨ L jj ii = 1 ∨ MarkCentre w h H L' dz jj ii

/-- A 3x3 height raster whose pixel (1,2) rises 40 above the rest. -/
def sampleRiseHeights : Image := ofRows [[10, 10, 10], [10, 10, 50], [10, 10, 10]]

/-- The 3x3 label raster with the centre pixel (1,1) labelled 1. -/
def sampleRiseLabels : Image := ofRows [[0, 0, 0], [0, 1, 0], [0, 0, 0]]

/-- The contribution of one pair as the code computes it, in whole numbers:
`max(0, max(0, p - n) - max(0, n - n2))`. -/
def termClamped (p n n2 : Nat) : Nat :=
  (max 0 (max 0 ((p : Int) - (n : Int)) - max 0 ((n : Int) - (n2 : Int)))).toNat

/-- The contribution of one pair as the spec words it:
`max(0, (p - n) - (n - n2))`. -/
def termPlain (p n n2 : Nat) : Nat :=
  (max 0 (((p : Int) - (n : Int)) - ((n : Int) - (n2 : Int)))).toNat

/-- The contributions to the mean boundary gradient of an object as the spec
words them, one for each pair of a pixel `p` of the bounding box that carries
the label and an offset out of `{-1, 0, 1}` squared whose neighbour `n`, at the
clamped coordinates of section 4.1, is `LABEL_GROUND`; `n2` is the clamped pixel
at twice the offset and `term` the contribution of one pair. -/
def boundaryTermsSpec (term : Nat → Nat → Nat → Nat) (w h : Nat) (dsm L : Image)
    (obj : ObjectType) : List Nat :=
  (loopRange obj.ymin obj.ymax).flatMap fun j =>
    (loopRange obj.xmin obj.xmax).flatMap fun i =>
      if L j i = obj.label then
        ([-1, 0, 1] : List Int).flatMap fun jj =>
          ([-1, 0, 1] : List Int).flatMap fun ii =>
            if L (clampSpec h ((j : Int) + jj)) (clampSpec w ((i : Int) + ii)) = LABEL_GROUND then
              [term (dsm j i) (dsm (clampSpec h ((j : Int) + jj)) (clampSpec w ((i : Int) + ii)))
                (dsm (clampSpec h ((j : Int) + jj * 2)) (clampSpec w ((i : Int) + ii * 2)))]
            else []
      else []

/-- The arithmetic mean of a list of contributions. -/
def meanOf (ts : List Nat) : ℚ := (ts.sum : ℚ) / (ts.length : ℚ)

/-- The mean of a list of contributions as single-precision arithmetic yields
it: the sum is accumulated in the order of the list, every partial sum rounded
to a `float`, and is divided by the count converted to a `float`, the quotient
rounded. -/
def meanF32 (ts : List Nat) : ℚ :=
  roundF32 (ts.foldl addF32 0 / roundF32 (ts.length : ℚ))

/-- A 5x5 height raster with a pit: the centre at 10, the ring around it at 40,
the border at 75. -/
def samplePitHeights : Image :=
  ofRows [[75, 75, 75, 75, 75], [75, 40, 40, 40, 75], [75, 40, 10, 40, 75],
    [75, 40, 40, 40, 75], [75, 75, 75, 75, 75]]

/-- A 5x5 height raster with a mound: the centre at 50, the ring around it at
20, the border at 5. -/
def sampleMoundHeights : Image :=
  ofRows [[5, 5, 5, 5, 5], [5, 20, 20, 20, 5], [5, 20, 50, 20, 5], [5, 20, 20, 20, 5],
    [5, 5, 5, 5, 5]]

/-- The scratch labels, the sentinel `LABEL_OBJECT`, `LABEL_GROUND` and the
label of the object at hand do not collide: neither `LABEL_IN_ONE`,
`LABEL_GROUND` nor `LABEL_OBJECT` is one of `LABEL_TEMP`, `LABEL_ACCEPTED` and
the object label, and those three differ from one another. -/
structure ScratchDistinct (c : LabelConsts) (label : Nat) : Prop where
  inOne_temp : c.LABEL_IN_ONE ≠ c.LABEL_TEMP
  inOne_acc : c.LABEL_IN_ONE ≠ c.LABEL_ACCEPTED
  inOne_label : c.LABEL_IN_ONE ≠ label
  ground_temp : LABEL_GROUND ≠ c.LABEL_TEMP
  ground_acc : LABEL_GROUND ≠ c.LABEL_ACCEPTED
  ground_label : LABEL_GROUND ≠ label
  object_temp : c.LABEL_OBJECT ≠ c.LABEL_TEMP
  object_acc : c.LABEL_OBJECT ≠ c.LABEL_ACCEPTED
  object_label : c.LABEL_OBJECT ≠ label
  acc_temp : c.LABEL_ACCEPTED ≠ c.LABEL_TEMP
  acc_label : c.LABEL_ACCEPTED ≠ label
  temp_label : c.LABEL_TEMP ≠ label

/-- Pixel `(j,i)` lies in the box of rows `y0 .. y1` and columns `x0 .. x1`. -/
def InBox (y0 y1 x0 x1 j i : Nat) : Prop := y0 ≤ j ∧ j ≤ y1 ∧ x0 ≤ i ∧ i ≤ x1

/-- The state of the label raster during `fillObjectBounds`, for in-raster
pixels: `LABEL_TEMP` occurs only in the box `ty0 .. ty1` by `tx0 .. tx1`,
`LABEL_ACCEPTED` only in the box `ay0 .. ay1` by `ax0 .. ax1`, and the object
label only in the bounding box of the object. -/
def ScratchIn (c : LabelConsts) (w h : Nat) (obj : ObjectType)
    (ty0 ty1 tx0 tx1 ay0 ay1 ax0 ax1 : Nat) (L : Image) : Prop :=
  ∀ j, j < h → ∀ i, i < w →
    (L j i = c.LABEL_TEMP → InBox ty0 ty1 tx0 tx1 j i) ∧
    (L j i = c.LABEL_ACCEPTED → InBox ay0 ay1 ax0 ax1 j i) ∧
    (L j i = obj.label → InBox obj.ymin obj.ymax obj.xmin obj.xmax j i)

/-! ## `fillObjectBounds` with checked raster accesses -/

/-- The read `img.data[j][i]` with a bounds check: `none` when the index lies
outside the `h` by `w` raster. -/
def readPx (w h : Nat) (img : Image) (j i : Nat) : Option Nat :=
  if j < h ∧ i < w then some (img j i) else none

/-- The write `img.data[j][i] = v` with a bounds check. -/
def writePx (w h : Nat) (img : Image) (j i v : Nat) : Option Image :=
  if j < h ∧ i < w then some (setPx img j i v) else none

/-- A search loop of `fillObjectBounds` over the indices `idxs` in the order
given, with checked reads: the first index whose cell holds the label, if any. -/
def searchLabel (cell : Nat → Option Nat) (label : Nat) : List Nat → Option (Option Nat)
  | [] => some none
  | k :: ks =>
    (cell k).bind fun v => if v = label then some (some k) else searchLabel cell label ks

/-- The ground level of a scan line with checked reads of the height raster. -/
def groundLevelChecked (hcell : Nat → Option Nat) (n start stop : Nat) : Option Nat :=
  if start = 0 then hcell (stop + 1)
  else if stop = usub n 1 then hcell (start - 1)
  else (hcell (start - 1)).bind fun a => (hcell (stop + 1)).bind fun b => some (MAX a b)

/-- Body of the fill loop of the row scan at pixel `(j,i)`, with checked
accesses. -/
def rowFillStep (c : LabelConsts) (w h : Nat) (H : Image) (obj : ObjectType) (g : Nat)
    (L : Image) (j i : Nat) : Option Image :=
  (readPx w h H j i).bind fun hv =>
    if hv > g then
      (readPx w h L j i).bind fun lv =>
        if lv ≠ obj.label then writePx w h L j i c.LABEL_IN_ONE else some L
    else
      (readPx w h L j i).bind fun lv =>
        if lv = obj.label then writePx w h L j i LABEL_GROUND else some L

/-- One row of the row scan of `fillObjectBounds` with checked accesses.  The
backward search counts down from the last index of the padded box; when it finds
no label the counter of the C loop wraps below 0 (or the fill loop runs to
4294967295), which leaves every raster: `none`. -/
def fillRowChecked (c : LabelConsts) (w h : Nat) (H : Image) (obj : ObjectType) (L : Image)
    (j : Nat) : Option Image :=
  let idxs := loopRange (obj.xmin - 1) (MIN (obj.xmax + 1) (usub w 1))
  (searchLabel (readPx w h L j) obj.label idxs).bind fun r =>
    match r with
    | none => some L
    | some start =>
      (searchLabel (readPx w h L j) obj.label idxs.reverse).bind fun r2 =>
        match r2 with
        | none => none
        | some stop =>
          if start = 0 ∧ stop = usub w 1 then some L
          else
            (groundLevelChecked (readPx w h H j) w start stop).bind fun g =>
              (loopRange start stop).foldl
                (fun acc i => acc.bind fun L => rowFillStep c w h H obj g L j i) (some L)

/-- Body of the fill loop of the column scan at pixel `(j,i)`, with checked
accesses. -/
def colFillStep (c : LabelConsts) (w h : Nat) (H : Image) (obj : ObjectType) (g : Nat)
    (L : Image) (i j : Nat) : Option Image :=
  (readPx w h H j i).bind fun hv =>
    if hv > g then
      (readPx w h L j i).bind fun lv =>
        if lv = obj.label ∨ lv = c.LABEL_IN_ONE then writePx w h L j i c.LABEL_ACCEPTED
        else some L
    else some L

/-- One column of the column scan of `fillObjectBounds` with checked accesses. -/
def fillColChecked (c : LabelConsts) (w h : Nat) (H : Image) (obj : ObjectType) (L : Image)
    (i : Nat) : Option Image :=
  let idxs := loopRange (obj.ymin - 1) (MIN (obj.ymax + 1) (usub h 1))
  (searchLabel (fun j => readPx w h L j i) obj.label idxs).bind fun r =>
    match r with
    | none => some L
    | some start =>
      (searchLabel (fun j => readPx w h L j i) obj.label idxs.reverse).bind fun r2 =>
        match r2 with
        | none => none
        | some stop =>
          if start = 0 ∧ stop = usub h 1 then some L
          else
            (groundLevelChecked (fun j => readPx w h H j i) h start stop).bind fun g =>
              (loopRange start stop).foldl
                (fun acc j => acc.bind fun L => colFillStep c w h H obj g L i j) (some L)

/-- Body of the innermost erosion loop at pixel `(jj,ii)`, with checked
accesses. -/
def erodeStep (c : LabelConsts) (w h : Nat) (L : Image) (jj ii : Nat) : Option Image :=
  (readPx w h L jj ii).bind fun v =>
    if v ≠ c.LABEL_ACCEPTED then writePx w h L jj ii c.LABEL_TEMP else some L

/-- Body of the erosion loop of `fillObjectBounds` at pixel `(j,i)`, with
checked accesses. -/
def erodeAtChecked (c : LabelConsts) (w h rad : Nat) (L : Image) (j i : Nat) : Option Image :=
  (readPx w h L j i).bind fun v =>
    if v = c.LABEL_ACCEPTED then
      (loopRange (MAX (usub j rad) 0) (MIN ((j + rad) % 4294967296) (usub h 1))).foldl
        (fun acc jj =>
          (loopRange (MAX (usub i rad) 0) (MIN ((i + rad) % 4294967296) (usub w 1))).foldl
            (fun acc ii => acc.bind fun L => erodeStep c w h L jj ii) acc) (some L)
    else some L

/-- Body of the promotion loop at pixel `(j,i)`, with checked accesses. -/
def promoteStep (c : LabelConsts) (w h : Nat) (L : Image) (j i : Nat) : Option Image :=
  (readPx w h L j i).bind fun v =>
    if v = c.LABEL_TEMP then writePx w h L j i c.LABEL_ACCEPTED else some L

/-- Body of the finishing loop at pixel `(j,i)`, with checked accesses: the two
tests one after the other. -/
def finishStep (c : LabelConsts) (w h : Nat) (obj : ObjectType) (L : Image) (j i : Nat) :
    Option Image :=
  (readPx w h L j i).bind fun v =>
    (if v = obj.label then writePx w h L j i LABEL_GROUND else some L).bind fun L1 =>
      (readPx w h L1 j i).bind fun v1 =>
        if v1 = c.LABEL_ACCEPTED then writePx w h L1 j i c.LABEL_OBJECT else some L1

/-- `fillObjectBounds` with every access to the label raster and the height
raster checked against the bounds of the raster: `none` when an access lies
outside (or a search runs off), else the label raster and the object on return. -/
def fillObjectBoundsChecked (c : LabelConsts) (w h : Nat) (L H : Image) (obj : ObjectType)
    (edgeResolution _dzShort : Nat) : Option (Image × ObjectType) :=
  let rows := loopRange (obj.ymin - 1) (MIN (obj.ymax + 1) (usub h 1))
  let cols := loopRange (obj.xmin - 1) (MIN (obj.xmax + 1) (usub w 1))
  (rows.foldl (fun acc j => acc.bind fun L => fillRowChecked c w h H obj L j) (some L)).bind
    fun L1 =>
  (cols.foldl (fun acc i => acc.bind fun L => fillColChecked c w h H obj L i) (some L1)).bind
    fun L2 =>
  (rows.foldl (fun acc j => cols.foldl
      (fun acc i => acc.bind fun L => erodeAtChecked c w h edgeResolution L j i) acc)
    (some L2)).bind fun L3 =>
  let obj1 : ObjectType :=
    { label := obj.label
      xmin := obj.xmin - edgeResolution - 1
      ymin := obj.ymin - edgeResolution - 1
      xmax := MIN (obj.xmax + edgeResolution + 1) (usub w 1)
      ymax := MIN (obj.ymax + edgeResolution + 1) (usub h 1)
      count := obj.count }
  ((loopRange obj1.ymin obj1.ymax).foldl (fun acc j => (loopRange obj1.xmin obj1.xmax).foldl
      (fun acc i => acc.bind fun L => promoteStep c w h L j i) acc) (some L3)).bind fun L4 =>
  ((loopRange (obj1.ymin - 1) (MIN (obj1.ymax + 1) (usub h 1))).foldl
      (fun acc j => (loopRange (obj1.xmin - 1) (MIN (obj1.xmax + 1) (usub w 1))).foldl
        (fun acc i => acc.bind fun L => finishStep c w h obj L j i) acc) (some L4)).map
    fun L5 => (L5, obj1)

/-! ## The value of `LABEL_GROUND` as a parameter

The header that defines `LABEL_GROUND` is not among the sources.  Section 3 of
the spec gives the value 0, which the definitions above take.  The comment in
`addNeighbors`, "Skip if pixel is already labeled or if it is LABEL_GROUND",
stands over the test `label > 1`, which skips `LABEL_GROUND` only if its value is
above 1.  The definitions of this section are `groupObjects` and
`classifyNonGround` once more, line by line, with the value of `LABEL_GROUND` as
a parameter `g` (and, for `classifyNonGround`, with the `int` `minPointCount`
computed in its first statement as a parameter); at `g = LABEL_GROUND` they are
the definitions above.  `addNeighbors` does not mention `LABEL_GROUND`.
-/

/-- Body of the scan of `groupObjects` at pixel `p = (j,i)`, for the value `g`
of `LABEL_GROUND`. -/
def groupStepAt (g w h : Nat) (H : Image) (maxCount : Int) (dzShort : Nat)
    (st : Option GroupState) (p : Nat × Nat) : Option GroupState :=
  st.bind fun s =>
    if s.L p.1 p.2 = g then some s
    else if s.L p.1 p.2 > 1 then some s
    else
      (growLoop w h H dzShort maxCount (w * h + 1) [⟨p.2, p.1⟩]
          (setPx s.L p.1 p.2 (s.label + 1)) ⟨s.label + 1, p.2, p.2, p.1, p.1, 1⟩).map
        fun r => ⟨r.1, s.objects ++ [r.2], s.label + 1⟩

/-- `groupObjects` for the value `g` of `LABEL_GROUND`. -/
def groupObjectsAt (g w h : Nat) (L H : Image) (maxCount : Int) (dzShort : Nat) :
    Option GroupState :=
  (scanOrder w h).foldl (groupStepAt g w h H maxCount dzShort) (some ⟨L, [], 1⟩)

/-- The pointwise loop `if (label != LABEL_GROUND) label = 1`, for the value `g`
of `LABEL_GROUND`. -/
def finishLabelImageAt (g : Nat) (L : Image) : Image :=
  fun j i => if L j i ≠ g then 1 else L j i

/-- The AGL threshold loop of `classifyNonGround`, for the value `g` of
`LABEL_GROUND`. -/
def aglCullAt (g : Nat) (dsm dtm L : Image) (aglShort : Nat) : Image :=
  fun j i =>
    if L j i ≠ g then
      if dsm j i = 0 then g
      else if (dsm j i : Int) - (dtm j i : Int) < (aglShort : Int) then g
      else L j i
    else L j i

/-- The accumulation of `meanGradient` and `count` over the bounding box of an
object, for the value `g` of `LABEL_GROUND`. -/
def boundaryStatsAt (g w h : Nat) (dsm L : Image) (obj : ObjectType) : ℚ × Nat :=
  (loopRange obj.ymin obj.ymax).foldl
    (fun acc j => (loopRange obj.xmin obj.xmax).foldl
      (fun acc i =>
        if L j i = obj.label then
          ([-1, 0, 1] : List Int).foldl
            (fun acc jj => ([-1, 0, 1] : List Int).foldl
              (fun acc ii =>
                if L (clampIdx h j jj) (clampIdx w i ii) = g then
                  (addF32 acc.1 (gradTerm (dsm j i) (dsm (clampIdx h j jj) (clampIdx w i ii))
                      (dsm (clampIdx h j (jj * 2)) (clampIdx w i (ii * 2)))),
                    acc.2 + 1)
                else acc) acc) acc
        else acc) acc) (0, 0)

/-- The loop that relabels every pixel of an object inside its bounding box to
`LABEL_GROUND`, for the value `g` of `LABEL_GROUND`. -/
def rejectObjectAt (g : Nat) (L : Image) (obj : ObjectType) : Image :=
  fun j i =>
    if obj.ymin ≤ j ∧ j ≤ obj.ymax ∧ obj.xmin ≤ i ∧ i ≤ obj.xmax ∧ L j i = obj.label then g
    else L j i

/-- Body of the flat-boundary rejection loop over the objects, for the value `g`
of `LABEL_GROUND`. -/
def gradientRejectStepAt (g w h : Nat) (dsm : Image) (dzShort : Nat) (L : Image)
    (obj : ObjectType) : Image :=
  let s := boundaryStatsAt g w h dsm L obj
  if flatBoundary s.1 s.2 dzShort then rejectObjectAt g L obj else L

/-- The erosion into `tempImage`, for the value `g` of `LABEL_GROUND`. -/
def erodeTempAt (g w h : Nat) (L : Image) : Image :=
  fun j i =>
    if L j i ≠ g ∧ anyWindow w h (fun jj ii => L jj ii = g) j i then g else L j i

/-- The dilation test against the eroded `tempImage`, for the value `g` of
`LABEL_GROUND`. -/
def dilateFromTempAt (g w h : Nat) (L T : Image) : Image :=
  fun j i =>
    if L j i ≠ g ∧ ¬ anyWindow w h (fun jj ii => T jj ii ≠ g) j i then g else L j i

/-- Body of the small-object rejection loop over the objects, for the value `g`
of `LABEL_GROUND`. -/
def areaRejectStepAt (g : Nat) (minPointCount : Int) (L : Image) (obj : ObjectType) : Image :=
  if (obj.count : Int) < minPointCount then rejectObjectAt g L obj else L

/-- `classifyNonGround` after its first statement, for the value `g` of
`LABEL_GROUND` and the value `minPointCount` that statement computes. -/
def classifyNonGroundAt (g w h : Nat) (minPointCount : Int) (dsm dtm L : Image)
    (dzShort aglShort : Nat) : Option Image :=
  let L1 := aglCullAt g dsm dtm L aglShort
  (groupObjectsAt g w h L1 dsm LONG_MAX (dzShort / 2)).bind fun g1 =>
    let L2 := g1.objects.foldl (gradientRejectStepAt g w h dsm dzShort) g1.L
    let L3 := dilateFromTempAt g w h L2 (erodeTempAt g w h L2)
    let L4 := finishLabelImageAt g L3
    (groupObjectsAt g w h L4 dsm LONG_MAX INT_MAX).map fun g2 =>
      finishLabelImageAt g (g2.objects.foldl (areaRejectStepAt g minPointCount) g2.L)

/-- The invariant of the sweep of `groupObjectsAt`, relative to the raster `Lin`
on entry: a label is at most the counter or is `g`, every listed object is exact,
the labels of the listed objects increase along the list, every label of 2 or
more other than `g` belongs to a listed object, and the raster changed only where
an entry value of at most 1 was replaced by a label of 2 or more other than `g`. -/
structure ScanInvAt (g w h : Nat) (Lin : Image) (s : GroupState) : Prop where
  label_pos : 1 ≤ s.label
  bounded : ∀ j i, j < h → i < w → s.L j i ≤ s.label ∨ s.L j i = g
  objs : ∀ obj ∈ s.objects, 2 ≤ obj.label ∧ obj.label ≤ s.label ∧ ∃ seed, ObjAt w h s.L obj seed
  sorted : s.objects.Pairwise fun a b => a.label < b.label
  owned : ∀ j i, j < h → i < w → 2 ≤ s.L j i → s.L j i ≠ g →
    ∃ obj ∈ s.objects, obj.label = s.L j i
  frame : ∀ j i, s.L j i = Lin j i ∨ (j < h ∧ i < w ∧ Lin j i ≤ 1 ∧ 2 ≤ s.L j i ∧ s.L j i ≠ g)

/-! ## Basic facts about ranges, writes and folds -/

theorem mem_loopRange {lo hi x : Nat} : x ∈ loopRange lo hi ↔ lo ≤ x ∧ x ≤ hi := by
  simp only [loopRange, List.mem_map, List.mem_range]
  constructor
  · rintro ⟨k, hk, rfl⟩
    omega
  · rintro ⟨h1, h2⟩
    exact ⟨x - lo, by omega, by omega⟩

theorem mem_scanOrder {w h : Nat} {p : Nat × Nat} : p ∈ scanOrder w h ↔ p.1 < h ∧ p.2 < w := by
  obtain ⟨j, i⟩ := p
  simp [scanOrder, List.mem_product]

theorem mem_nbrRangeU_lt {j n x : Nat} (hj : j < n) (hx : x ∈ nbrRangeU j n) : x < n := by
  simp only [nbrRangeU, mem_loopRange, MIN, MAX, usub] at hx
  split_ifs at hx <;> omega

theorem mem_nbrRangeU_adj {j n x : Nat} (hj : j < 4294967296) (hx : x ∈ nbrRangeU j n) :
    x ≤ j + 1 ∧ j ≤ x + 1 := by
  simp only [nbrRangeU, mem_loopRange, MIN, MAX, usub] at hx
  split_ifs at hx <;> omega

theorem setPx_same (L : Image) (j i v : Nat) : setPx L j i v j i = v := by
  simp [setPx]

theorem setPx_other (L : Image) {j i j' i' : Nat} (v : Nat) (hne : ¬ (j' = j ∧ i' = i)) :
    setPx L j i v j' i' = L j' i' := by
  simp [setPx, hne]

theorem foldl_inv {σ α : Type} (P : σ → Prop) (f : σ → α → σ) (l : List α) (s : σ)
    (h0 : P s) (hstep : ∀ s a, a ∈ l → P s → P (f s a)) : P (l.foldl f s) := by
  induction l generalizing s with
  | nil => exact h0
  | cons a t ih =>
    simp only [List.foldl_cons]
    exact ih (f s a) (hstep s a (List.mem_cons_self a t) h0)
      (fun s b hb hs => hstep s b (List.mem_cons_of_mem a hb) hs)

theorem freeCount_setPx {w h : Nat} (L : Image) {jj ii v : Nat} (hj : jj < h) (hi : ii < w)
    (hle : L jj ii ≤ 1) (hv : 2 ≤ v) : freeCount w h (setPx L jj ii v) + 1 = freeCount w h L := by
  unfold freeCount
  have hins : ((Finset.range h ×ˢ Finset.range w).filter fun p => L p.1 p.2 ≤ 1) =
      insert (jj, ii)
        ((Finset.range h ×ˢ Finset.range w).filter fun p => setPx L jj ii v p.1 p.2 ≤ 1) := by
    ext ⟨a, b⟩
    simp only [Finset.mem_filter, Finset.mem_product, Finset.mem_range, Finset.mem_insert,
      Prod.mk.injEq, setPx]
    by_cases hab : a = jj ∧ b = ii
    · obtain ⟨rfl, rfl⟩ := hab
      simp [hj, hi, hle]
    · simp [hab]
  have hnot : (jj, ii) ∉
      ((Finset.range h ×ˢ Finset.range w).filter fun p => setPx L jj ii v p.1 p.2 ≤ 1) := by
    simp only [Finset.mem_filter, setPx, and_self, if_true, not_and, not_le]
    intro _
    omega
  rw [hins, Finset.card_insert_of_not_mem hnot]

theorem freeCount_le (w h : Nat) (L : Image) : freeCount w h L ≤ w * h := by
  unfold freeCount
  calc ((Finset.range h ×ˢ Finset.range w).filter fun p => L p.1 p.2 ≤ 1).card
      ≤ (Finset.range h ×ˢ Finset.range w).card := Finset.card_filter_le _ _
    _ = w * h := by simp [Finset.card_product, Nat.mul_comm]

/-! ## Growth waves: generic invariant rule and termination -/

/-- An invariant of the loop state that every accepted neighbour preserves is
preserved by the whole sweep of `addNeighbors`. -/
theorem addNeighborsSweep_inv (w h : Nat) (H : Image) (dz : Nat) (nb : List PixelType)
    (P : GrowState → Prop) (L : Image) (obj : ObjectType)
    (h0 : P ⟨L, obj, []⟩)
    (hstep : ∀ st p jj ii, p ∈ nb → jj ∈ nbrRangeU p.j h → ii ∈ nbrRangeU p.i w → P st →
      P (addNeighborStep H dz p.j p.i jj st ii)) :
    P (addNeighborsSweep w h H dz nb L obj) := by
  unfold addNeighborsSweep
  refine foldl_inv P _ nb _ h0 ?_
  intro st p hp hst
  unfold addNeighborsPixel
  refine foldl_inv P _ _ st hst ?_
  intro st jj hjj hst
  refine foldl_inv P _ _ st hst ?_
  intro st ii hii hst
  exact hstep st p jj ii hp hjj hii hst

theorem termInv_step (w h n0 : Nat) (H : Image) (dz : Nat) (nb : List PixelType)
    (st : GrowState) (p : PixelType) (jj ii : Nat) (hp : p ∈ nb)
    (hjj : jj ∈ nbrRangeU p.j h) (hii : ii ∈ nbrRangeU p.i w) (hst : TermInv w h n0 nb st) :
    TermInv w h n0 nb (addNeighborStep H dz p.j p.i jj st ii) := by
  obtain ⟨hnb, hnew, hcnt⟩ := hst
  obtain ⟨hpj, hpi, hpl⟩ := hnb p hp
  have hjj' := mem_nbrRangeU_lt hpj hjj
  have hii' := mem_nbrRangeU_lt hpi hii
  unfold addNeighborStep
  split_ifs with h1 h2
  · exact ⟨hnb, hnew, hcnt⟩
  · exact ⟨hnb, hnew, hcnt⟩
  · have hle : st.L jj ii ≤ 1 := by omega
    have keep : ∀ a b, 2 ≤ st.L a b → 2 ≤ setPx st.L jj ii (st.L p.j p.i) a b := by
      intro a b hab
      unfold setPx
      split_ifs <;> assumption
    refine ⟨?_, ?_, ?_⟩
    · intro q hq
      obtain ⟨a, b, c⟩ := hnb q hq
      exact ⟨a, b, keep _ _ c⟩
    · intro q hq
      simp only [List.mem_append, List.mem_singleton] at hq
      rcases hq with hq | rfl
      · obtain ⟨a, b, c⟩ := hnew q hq
        exact ⟨a, b, keep _ _ c⟩
      · exact ⟨hjj', hii', by simp [setPx]; exact hpl⟩
    · simp only [List.length_append, List.length_singleton]
      have := freeCount_setPx st.L hjj' hii' hle hpl (w := w) (h := h)
      omega

theorem growLoop_isSome (w h : Nat) (H : Image) (dz : Nat) (maxCount : Int) :
    ∀ (fuel : Nat) (nb : List PixelType) (L : Image) (obj : ObjectType),
      (∀ p ∈ nb, p.j < h ∧ p.i < w ∧ 2 ≤ L p.j p.i) → freeCount w h L < fuel →
      ∃ r, growLoop w h H dz maxCount fuel nb L obj = some r := by
  intro fuel
  induction fuel with
  | zero => intro nb L obj _ hlt; omega
  | succ n ih =>
    intro nb L obj hnb hlt
    have hinv : TermInv w h (freeCount w h L) nb (addNeighborsSweep w h H dz nb L obj) :=
      addNeighborsSweep_inv w h H dz nb (TermInv w h (freeCount w h L) nb) L obj
        ⟨hnb, by simp, by simp⟩
        (fun st p jj ii hp hjj hii hst => termInv_step w h _ H dz nb st p jj ii hp hjj hii hst)
    obtain ⟨_, hnew, hcnt⟩ := hinv
    unfold growLoop
    simp only [addNeighbors]
    split_ifs with hlen hmax hkeep hmax2 hkeep2
    · exact ⟨_, rfl⟩
    · exact ih _ _ _ hnew (by dsimp only; omega)
    · exact ⟨_, rfl⟩
    · exact ⟨_, rfl⟩
    · simp at hkeep2
    · exact ⟨_, rfl⟩

/-! ## Growth waves keep the object descriptor exact -/

theorem pixelsWith_setPx {w h : Nat} (L : Image) {jj ii v : Nat} (hj : jj < h) (hi : ii < w) :
    pixelsWith w h (setPx L jj ii v) v = insert (jj, ii) (pixelsWith w h L v) := by
  ext ⟨a, b⟩
  simp only [pixelsWith, Finset.mem_filter, Finset.mem_product, Finset.mem_range,
    Finset.mem_insert, Prod.mk.injEq, setPx]
  by_cases hab : a = jj ∧ b = ii
  · obtain ⟨rfl, rfl⟩ := hab
    simp [hj, hi]
  · simp [hab]

theorem mem_pixelsWith {w h : Nat} {L : Image} {v : Nat} {p : Nat × Nat} :
    p ∈ pixelsWith w h L v ↔ p.1 < h ∧ p.2 < w ∧ L p.1 p.2 = v := by
  simp [pixelsWith, and_assoc]

theorem connected_mono {w h : Nat} {L L' : Image} {v : Nat}
    (hsub : ∀ j i, j < h → i < w → L j i = v → L' j i = v) {p q : Nat × Nat}
    (hc : Connected w h L v p q) : Connected w h L' v p q := by
  refine Relation.ReflTransGen.mono ?_ hc
  rintro a b ⟨h1, h2, h3, h4⟩
  exact ⟨h1, h2, hsub _ _ h1 h2 h3, h4⟩

theorem objAt_accept {w h : Nat} {L : Image} {obj : ObjectType} {seed : Nat × Nat}
    (hv : 2 ≤ obj.label) (hO : ObjAt w h L obj seed) {pj pi jj ii : Nat}
    (hpj : pj < h) (hpi : pi < w) (hpl : L pj pi = obj.label) (hjj : jj < h) (hii : ii < w)
    (hadj : w < 4294967296 → h < 4294967296 → Adj8 (pj, pi) (jj, ii)) (hle : L jj ii ≤ 1) :
    ObjAt w h (setPx L jj ii obj.label)
      ⟨obj.label, MIN obj.xmin ii, MAX obj.xmax ii, MIN obj.ymin jj, MAX obj.ymax jj,
        obj.count + 1⟩ seed := by
  have hkeep : ∀ a b, L a b = obj.label → setPx L jj ii obj.label a b = obj.label := by
    intro a b hab
    unfold setPx
    split_ifs
    · rfl
    · exact hab
  have hcases : ∀ a b, setPx L jj ii obj.label a b = obj.label →
      (a = jj ∧ b = ii) ∨ L a b = obj.label := by
    intro a b hab
    by_cases hx : a = jj ∧ b = ii
    · exact Or.inl hx
    · right
      rwa [setPx_other L _ hx] at hab
  have hnew : setPx L jj ii obj.label jj ii = obj.label := setPx_same L jj ii _
  refine
    { count_eq := ?_, count_pos := ?_, bbox := ?_, xmin_att := ?_, xmax_att := ?_,
      ymin_att := ?_, ymax_att := ?_, seed_in := ?_, conn := ?_ }
  · show obj.count + 1 = (pixelsWith w h (setPx L jj ii obj.label) obj.label).card
    rw [pixelsWith_setPx L hjj hii, Finset.card_insert_of_not_mem, hO.count_eq]
    rw [mem_pixelsWith]
    simp only [not_and]
    intro _ _
    omega
  · show 1 ≤ obj.count + 1
    omega
  · intro j i hj hi hl
    have hl' : setPx L jj ii obj.label j i = obj.label := hl
    show MIN obj.ymin jj ≤ j ∧ j ≤ MAX obj.ymax jj ∧ MIN obj.xmin ii ≤ i ∧ i ≤ MAX obj.xmax ii
    rcases hcases j i hl' with ⟨rfl, rfl⟩ | hold
    · unfold MIN MAX
      split_ifs <;> omega
    · have := hO.bbox j i hj hi hold
      unfold MIN MAX
      split_ifs <;> omega
  · show ∃ j i, j < h ∧ i < w ∧ setPx L jj ii obj.label j i = obj.label ∧ i = MIN obj.xmin ii
    obtain ⟨a, b, ha, hb, hab, hbx⟩ := hO.xmin_att
    unfold MIN
    split_ifs
    · exact ⟨a, b, ha, hb, hkeep a b hab, hbx⟩
    · exact ⟨jj, ii, hjj, hii, hnew, rfl⟩
  · show ∃ j i, j < h ∧ i < w ∧ setPx L jj ii obj.label j i = obj.label ∧ i = MAX obj.xmax ii
    obtain ⟨a, b, ha, hb, hab, hbx⟩ := hO.xmax_att
    unfold MAX
    split_ifs
    · exact ⟨a, b, ha, hb, hkeep a b hab, hbx⟩
    · exact ⟨jj, ii, hjj, hii, hnew, rfl⟩
  · show ∃ j i, j < h ∧ i < w ∧ setPx L jj ii obj.label j i = obj.label ∧ j = MIN obj.ymin jj
    obtain ⟨a, b, ha, hb, hab, hbx⟩ := hO.ymin_att
    unfold MIN
    split_ifs
    · exact ⟨a, b, ha, hb, hkeep a b hab, hbx⟩
    · exact ⟨jj, ii, hjj, hii, hnew, rfl⟩
  · show ∃ j i, j < h ∧ i < w ∧ setPx L jj ii obj.label j i = obj.label ∧ j = MAX obj.ymax jj
    obtain ⟨a, b, ha, hb, hab, hbx⟩ := hO.ymax_att
    unfold MAX
    split_ifs
    · exact ⟨a, b, ha, hb, hkeep a b hab, hbx⟩
    · exact ⟨jj, ii, hjj, hii, hnew, rfl⟩
  · exact ⟨hO.seed_in.1, hO.seed_in.2.1, hkeep _ _ hO.seed_in.2.2⟩
  · intro hw hh j i hj hi hl
    have hl' : setPx L jj ii obj.label j i = obj.label := hl
    show Connected w h (setPx L jj ii obj.label) obj.label seed (j, i)
    have hmono : ∀ a b, a < h → b < w → L a b = obj.label →
        setPx L jj ii obj.label a b = obj.label := fun a b _ _ hab => hkeep a b hab
    rcases hcases j i hl' with ⟨rfl, rfl⟩ | hold
    · have hc := connected_mono hmono (hO.conn hw hh pj pi hpj hpi hpl)
      exact Relation.ReflTransGen.tail hc ⟨hjj, hii, hnew, hadj hw hh⟩
    · exact connected_mono hmono (hO.conn hw hh j i hj hi hold)

theorem growP_step (w h : Nat) (L0 : Image) (v : Nat) (seed : Nat × Nat) (H : Image) (dz : Nat)
    (nb : List PixelType) (st : GrowState) (p : PixelType) (jj ii : Nat) (hp : p ∈ nb)
    (hjj : jj ∈ nbrRangeU p.j h) (hii : ii ∈ nbrRangeU p.i w) (hst : GrowP w h L0 v seed nb st) :
    GrowP w h L0 v seed nb (addNeighborStep H dz p.j p.i jj st ii) := by
  obtain ⟨hv, hlab, hnb, hnew, hO, hF⟩ := hst
  obtain ⟨hpj, hpi, hpl⟩ := hnb p hp
  have hjj' := mem_nbrRangeU_lt hpj hjj
  have hii' := mem_nbrRangeU_lt hpi hii
  unfold addNeighborStep
  split_ifs with h1 h2
  · exact ⟨hv, hlab, hnb, hnew, hO, hF⟩
  · exact ⟨hv, hlab, hnb, hnew, hO, hF⟩
  · have hle : st.L jj ii ≤ 1 := by omega
    have hkeep : ∀ a b, st.L a b = v → setPx st.L jj ii (st.L p.j p.i) a b = v := by
      intro a b hab
      unfold setPx
      split_ifs
      · exact hpl
      · exact hab
    have hadj : w < 4294967296 → h < 4294967296 → Adj8 (p.j, p.i) (jj, ii) := by
      intro hw hh
      have a1 := mem_nbrRangeU_adj (by omega : p.j < 4294967296) hjj
      have a2 := mem_nbrRangeU_adj (by omega : p.i < 4294967296) hii
      exact ⟨by simp; omega, by simp; omega, by simp; omega, by simp; omega⟩
    refine ⟨hv, hlab, ?_, ?_, ?_, ?_⟩
    · intro q hq
      obtain ⟨a, b, c⟩ := hnb q hq
      exact ⟨a, b, hkeep _ _ c⟩
    · intro q hq
      simp only [List.mem_append, List.mem_singleton] at hq
      rcases hq with hq | rfl
      · obtain ⟨a, b, c⟩ := hnew q hq
        exact ⟨a, b, hkeep _ _ c⟩
      · exact ⟨hjj', hii', by simp [setPx]; exact hpl⟩
    · have hpl' : st.L p.j p.i = st.obj.label := by rw [hpl, hlab]
      have := objAt_accept (by rw [hlab]; exact hv) hO hpj hpi hpl' hjj' hii' hadj hle
      simp only [hpl']
      exact this
    · intro a b
      by_cases hx : a = jj ∧ b = ii
      · obtain ⟨rfl, rfl⟩ := hx
        right
        rcases hF a b with h0 | ⟨_, _, h0, h0'⟩
        · refine ⟨hjj', hii', by omega, ?_⟩
          simp [setPx]
          exact hpl
        · omega
      · show setPx st.L jj ii (st.L p.j p.i) a b = L0 a b ∨
            (a < h ∧ b < w ∧ L0 a b ≤ 1 ∧ setPx st.L jj ii (st.L p.j p.i) a b = v)
        rw [setPx_other st.L _ hx]
        exact hF a b

theorem growLoop_growP (w h : Nat) (L0 : Image) (v : Nat) (seed : Nat × Nat) (H : Image)
    (dz : Nat) (maxCount : Int) :
    ∀ (fuel : Nat) (nb : List PixelType) (L : Image) (obj : ObjectType) (r : Image × ObjectType),
      GrowP w h L0 v seed nb ⟨L, obj, []⟩ →
      growLoop w h H dz maxCount fuel nb L obj = some r →
      ∃ nb', GrowP w h L0 v seed nb' ⟨r.1, r.2, []⟩ := by
  intro fuel
  induction fuel with
  | zero => intro nb L obj r _ hr; simp [growLoop] at hr
  | succ n ih =>
    intro nb L obj r hP hr
    have hinv : GrowP w h L0 v seed nb (addNeighborsSweep w h H dz nb L obj) :=
      addNeighborsSweep_inv w h H dz nb (GrowP w h L0 v seed nb) L obj hP
        (fun st p jj ii hp hjj hii hst => growP_step w h L0 v seed H dz nb st p jj ii hp hjj hii hst)
    obtain ⟨hv, hlab, hnb, hnew, hO, hF⟩ := hinv
    have hstop : GrowP w h L0 v seed nb
        ⟨(addNeighborsSweep w h H dz nb L obj).L, (addNeighborsSweep w h H dz nb L obj).obj, []⟩ :=
      ⟨hv, hlab, hnb, by simp, hO, hF⟩
    have hgo : GrowP w h L0 v seed (addNeighborsSweep w h H dz nb L obj).newNeighbors
        ⟨(addNeighborsSweep w h H dz nb L obj).L, (addNeighborsSweep w h H dz nb L obj).obj, []⟩ :=
      ⟨hv, hlab, hnew, by simp, hO, hF⟩
    unfold growLoop at hr
    simp only [addNeighbors] at hr
    split_ifs at hr with hlen hmax hkeep hmax2 hkeep2
    · simp only [Option.some.injEq] at hr
      subst hr
      exact ⟨_, hstop⟩
    · exact ih _ _ _ r hgo hr
    · simp only [Option.some.injEq] at hr
      subst hr
      exact ⟨_, hstop⟩
    · simp only [Option.some.injEq] at hr
      subst hr
      exact ⟨_, hstop⟩
    · simp at hkeep2
    · simp only [Option.some.injEq] at hr
      subst hr
      exact ⟨_, hstop⟩

theorem objAt_congr {w h : Nat} {L L' : Image} {obj : ObjectType} {seed : Nat × Nat}
    (hiff : ∀ j i, j < h → i < w → (L j i = obj.label ↔ L' j i = obj.label))
    (hO : ObjAt w h L obj seed) : ObjAt w h L' obj seed := by
  have hset : pixelsWith w h L' obj.label = pixelsWith w h L obj.label := by
    ext ⟨a, b⟩
    simp only [mem_pixelsWith]
    constructor
    · rintro ⟨h1, h2, h3⟩
      exact ⟨h1, h2, (hiff a b h1 h2).2 h3⟩
    · rintro ⟨h1, h2, h3⟩
      exact ⟨h1, h2, (hiff a b h1 h2).1 h3⟩
  refine
    { count_eq := by rw [hset]; exact hO.count_eq
      count_pos := hO.count_pos
      bbox := fun j i hj hi hl => hO.bbox j i hj hi ((hiff j i hj hi).2 hl)
      xmin_att := ?_, xmax_att := ?_, ymin_att := ?_, ymax_att := ?_
      seed_in := ⟨hO.seed_in.1, hO.seed_in.2.1, (hiff _ _ hO.seed_in.1 hO.seed_in.2.1).1 hO.seed_in.2.2⟩
      conn := fun hw hh j i hj hi hl =>
        connected_mono (fun a b ha hb hab => (hiff a b ha hb).1 hab)
          (hO.conn hw hh j i hj hi ((hiff j i hj hi).2 hl)) }
  · obtain ⟨a, b, ha, hb, hab, hx⟩ := hO.xmin_att
    exact ⟨a, b, ha, hb, (hiff a b ha hb).1 hab, hx⟩
  · obtain ⟨a, b, ha, hb, hab, hx⟩ := hO.xmax_att
    exact ⟨a, b, ha, hb, (hiff a b ha hb).1 hab, hx⟩
  · obtain ⟨a, b, ha, hb, hab, hx⟩ := hO.ymin_att
    exact ⟨a, b, ha, hb, (hiff a b ha hb).1 hab, hx⟩
  · obtain ⟨a, b, ha, hb, hab, hx⟩ := hO.ymax_att
    exact ⟨a, b, ha, hb, (hiff a b ha hb).1 hab, hx⟩

/-- The freshly seeded object: one pixel, exact. -/
theorem objAt_seed {w h : Nat} {L : Image} {v j i : Nat} (hj : j < h) (hi : i < w)
    (hfresh : ∀ a b, a < h → b < w → L a b ≠ v) :
    ObjAt w h (setPx L j i v) ⟨v, i, i, j, j, 1⟩ (j, i) := by
  have honly : ∀ a b, a < h → b < w → setPx L j i v a b = v → a = j ∧ b = i := by
    intro a b ha hb hab
    by_contra hx
    rw [setPx_other L _ hx] at hab
    exact hfresh a b ha hb hab
  have hnew : setPx L j i v j i = v := setPx_same L j i v
  refine
    { count_eq := ?_, count_pos := le_refl 1, bbox := ?_
      xmin_att := ⟨j, i, hj, hi, hnew, rfl⟩, xmax_att := ⟨j, i, hj, hi, hnew, rfl⟩
      ymin_att := ⟨j, i, hj, hi, hnew, rfl⟩, ymax_att := ⟨j, i, hj, hi, hnew, rfl⟩
      seed_in := ⟨hj, hi, hnew⟩, conn := ?_ }
  · show 1 = (pixelsWith w h (setPx L j i v) v).card
    have hempty : pixelsWith w h L v = ∅ := by
      ext ⟨a, b⟩
      simp only [mem_pixelsWith, Finset.not_mem_empty, iff_false, not_and]
      exact fun ha hb => hfresh a b ha hb
    rw [pixelsWith_setPx L hj hi, hempty]
    simp
  · intro a b ha hb hab
    obtain ⟨rfl, rfl⟩ := honly a b ha hb hab
    exact ⟨le_refl _, le_refl _, le_refl _, le_refl _⟩
  · intro _ _ a b ha hb hab
    obtain ⟨rfl, rfl⟩ := honly a b ha hb hab
    exact Relation.ReflTransGen.refl

/-- One step of the sweep of `groupObjects` returns, keeps the invariant, leaves
the visited pixel different from 1 and never turns a pixel into 1. -/
theorem groupStep_scanInv (w h : Nat) (Lin H : Image) (maxCount : Int) (dz : Nat)
    (s : GroupState) (p : Nat × Nat) (hp : p.1 < h ∧ p.2 < w) (hs : ScanInv w h Lin s) :
    ∃ s', groupStep w h H maxCount dz (some s) p = some s' ∧ ScanInv w h Lin s' ∧
      s'.L p.1 p.2 ≠ 1 ∧ (∀ a b, s.L a b ≠ 1 → s'.L a b ≠ 1) := by
  obtain ⟨j, i⟩ := p
  obtain ⟨hj, hi⟩ := hp
  simp only at hj hi
  simp only [groupStep, Option.some_bind, LABEL_GROUND]
  split_ifs with h0 h1
  · exact ⟨s, rfl, hs, by omega, fun a b hab => hab⟩
  · exact ⟨s, rfl, hs, by omega, fun a b hab => hab⟩
  · have h1' : s.L j i = 1 := by omega
    have hfresh : ∀ a b, a < h → b < w → s.L a b ≠ s.label + 1 := by
      intro a b ha hb
      have := hs.bounded a b ha hb
      omega
    have hlp := hs.label_pos
    obtain ⟨r, hr⟩ := growLoop_isSome w h H dz maxCount (w * h + 1) [⟨i, j⟩]
      (setPx s.L j i (s.label + 1)) ⟨s.label + 1, i, i, j, j, 1⟩
      (by
        intro q hq
        simp only [List.mem_singleton] at hq
        subst hq
        exact ⟨hj, hi, by simp [setPx]; omega⟩)
      (by have := freeCount_le w h (setPx s.L j i (s.label + 1)); omega)
    have hP0 : GrowP w h s.L (s.label + 1) (j, i) [⟨i, j⟩]
        ⟨setPx s.L j i (s.label + 1), ⟨s.label + 1, i, i, j, j, 1⟩, []⟩ := by
      refine ⟨by omega, rfl, ?_, by simp, objAt_seed hj hi hfresh, ?_⟩
      · intro q hq
        simp only [List.mem_singleton] at hq
        subst hq
        exact ⟨hj, hi, setPx_same _ _ _ _⟩
      · intro a b
        by_cases hx : a = j ∧ b = i
        · obtain ⟨rfl, rfl⟩ := hx
          exact Or.inr ⟨hj, hi, by omega, setPx_same _ _ _ _⟩
        · exact Or.inl (setPx_other _ _ hx)
    obtain ⟨nb', hv, hlab, _, _, hO, hF⟩ :=
      growLoop_growP w h s.L (s.label + 1) (j, i) H dz maxCount _ _ _ _ r hP0 hr
    simp only at hlab hO hF
    rw [hr]
    refine ⟨⟨r.1, s.objects ++ [r.2], s.label + 1⟩, rfl, ?_, ?_, ?_⟩
    · refine
        { label_pos := by show 1 ≤ s.label + 1; omega
          bounded := ?_, objs := ?_, owned := ?_, frame := ?_ }
      · intro a b ha hb
        show r.1 a b ≤ s.label + 1
        rcases hF a b with e | ⟨_, _, _, e⟩
        · rw [e]
          have := hs.bounded a b ha hb
          omega
        · omega
      · intro obj hobj
        simp only [List.mem_append, List.mem_singleton] at hobj
        rcases hobj with hobj | rfl
        · obtain ⟨h2, hle, sd, hOld⟩ := hs.objs obj hobj
          refine ⟨h2, by show obj.label ≤ s.label + 1; omega, sd, ?_⟩
          refine objAt_congr ?_ hOld
          intro a b ha hb
          rcases hF a b with e | ⟨_, _, e0, e⟩
          · show s.L a b = obj.label ↔ r.1 a b = obj.label
            rw [e]
          · show s.L a b = obj.label ↔ r.1 a b = obj.label
            constructor
            · intro hx
              omega
            · intro hx
              omega
        · exact ⟨by rw [hlab]; omega, by rw [hlab], (j, i), hO⟩
      · intro a b ha hb hab
        have hab' : 2 ≤ r.1 a b := hab
        rcases hF a b with e | ⟨_, _, _, e⟩
        · obtain ⟨obj, hobj, hl⟩ := hs.owned a b ha hb (by rw [← e]; exact hab')
          exact ⟨obj, by simp [hobj], by show obj.label = r.1 a b; rw [hl, e]⟩
        · exact ⟨r.2, by simp, by show r.2.label = r.1 a b; rw [hlab, e]⟩
      · intro a b
        show r.1 a b = Lin a b ∨ (a < h ∧ b < w ∧ Lin a b ≤ 1 ∧ 2 ≤ r.1 a b)
        rcases hF a b with e | ⟨ha, hb, e0, e⟩
        · rw [e]
          exact hs.frame a b
        · rcases hs.frame a b with f | ⟨_, _, f0, f⟩
          · right
            exact ⟨ha, hb, by rw [← f]; exact e0, by omega⟩
          · omega
    · show r.1 j i ≠ 1
      rcases hF j i with e | ⟨_, _, _, e⟩
      · have := hO.seed_in.2.2
        simp only at this
        omega
      · omega
    · intro a b hab
      show r.1 a b ≠ 1
      rcases hF a b with e | ⟨_, _, _, e⟩
      · rw [e]
        exact hab
      · omega

/-! ## The sweep of `groupObjects` -/

/-- Invariant rule for a fold whose state may fail: the invariant is indexed by
the elements already visited. -/
theorem foldl_option_visited {σ α : Type} (f : Option σ → α → Option σ)
    (I : List α → σ → Prop) (l : List α)
    (hstep : ∀ pre a s, a ∈ l → I pre s → ∃ s', f (some s) a = some s' ∧ I (pre ++ [a]) s') :
    ∀ pre s, I pre s → ∃ s', l.foldl f (some s) = some s' ∧ I (pre ++ l) s' := by
  induction l with
  | nil =>
    intro pre s hs
    exact ⟨s, rfl, by simpa using hs⟩
  | cons a t ih =>
    intro pre s hs
    obtain ⟨s1, h1, hI1⟩ := hstep pre a s (List.mem_cons_self a t) hs
    obtain ⟨s2, h2, hI2⟩ :=
      ih (fun pre b s hb hI => hstep pre b s (List.mem_cons_of_mem a hb) hI) (pre ++ [a]) s1 hI1
    refine ⟨s2, ?_, ?_⟩
    · simp only [List.foldl_cons, h1, h2]
    · simpa using hI2

/-- `groupObjects` returns on every raster. -/
theorem groupObjects_isSome (w h : Nat) (L H : Image) (maxCount : Int) (dz : Nat) :
    ∃ s, groupObjects w h L H maxCount dz = some s := by
  have key := foldl_option_visited (groupStep w h H maxCount dz)
    (fun _ (s : GroupState) => 1 ≤ s.label) (scanOrder w h)
    (by
      intro pre p s hp hs
      rw [mem_scanOrder] at hp
      simp only [groupStep, Option.some_bind]
      split_ifs with h0 h1
      · exact ⟨s, rfl, hs⟩
      · exact ⟨s, rfl, hs⟩
      · obtain ⟨r, hr⟩ := growLoop_isSome w h H dz maxCount (w * h + 1) [⟨p.2, p.1⟩]
          (setPx s.L p.1 p.2 (s.label + 1)) ⟨s.label + 1, p.2, p.2, p.1, p.1, 1⟩
          (by
            intro q hq
            simp only [List.mem_singleton] at hq
            subst hq
            exact ⟨hp.1, hp.2, by simp [setPx]; exact hs⟩)
          (by have := freeCount_le w h (setPx s.L p.1 p.2 (s.label + 1)); omega)
        rw [hr]
        exact ⟨_, rfl, by show 1 ≤ s.label + 1; omega⟩)
    [] ⟨L, [], 1⟩ (le_refl 1)
  obtain ⟨s, hs, _⟩ := key
  exact ⟨s, hs⟩

/-- On a raster that holds only 0 and 1, `groupObjects` returns, the invariant
holds on return and no in-raster pixel is left at 1. -/
theorem groupObjects_scanInv (w h : Nat) (L H : Image) (maxCount : Int) (dz : Nat)
    (h01 : ∀ j, j < h → ∀ i, i < w → L j i ≤ 1) :
    ∃ s, groupObjects w h L H maxCount dz = some s ∧ ScanInv w h L s ∧
      ∀ j, j < h → ∀ i, i < w → s.L j i ≠ 1 := by
  have key := foldl_option_visited (groupStep w h H maxCount dz)
    (fun pre (s : GroupState) => ScanInv w h L s ∧ ∀ q ∈ pre, s.L q.1 q.2 ≠ 1) (scanOrder w h)
    (by
      intro pre p s hp hs
      rw [mem_scanOrder] at hp
      obtain ⟨s', e, hI, hp1, hstab⟩ := groupStep_scanInv w h L H maxCount dz s p hp hs.1
      refine ⟨s', e, hI, ?_⟩
      intro q hq
      simp only [List.mem_append, List.mem_singleton] at hq
      rcases hq with hq | rfl
      · exact hstab _ _ (hs.2 q hq)
      · exact hp1)
    [] ⟨L, [], 1⟩
    ⟨{ label_pos := le_refl 1
       bounded := fun j i hj hi => h01 j hj i hi
       objs := by intro obj hobj; simp at hobj
       owned := by
         intro j i hj hi h2
         have := h01 j hj i hi
         simp only at h2
         omega
       frame := fun j i => Or.inl rfl }, by simp⟩
  obtain ⟨s, hs, hI, hvis⟩ := key
  refine ⟨s, hs, hI, ?_⟩
  intro j hj i hi
  exact hvis (j, i) (by simp only [List.nil_append]; exact mem_scanOrder.2 ⟨hj, hi⟩)

/-! ## `groupObjects`: the claims -/

/-- The partition law needs a ground value that the test `label > 1` of
`addNeighbors` skips.  With the value 0 that section 3 gives for `LABEL_GROUND`,
on the 2x2 label raster `[[0,0],[0,1]]` over a flat height raster `groupObjects`
returns a single object, label 2 and count 4, whose label is carried by all four
pixels, although only pixel (1,1) held 1 on entry: the three ground neighbours
are accepted. -/
theorem groupObjects_absorbs_ground :
    (groupObjects 2 2 (ofRows [[0, 0], [0, 1]]) (ofRows [[5, 5], [5, 5]]) 100 3).map
      (fun s => (toRows s.L 2 2, s.objects)) =
        some ([[2, 2], [2, 2]], [⟨2, 0, 1, 0, 1, 4⟩]) := by
  decide!

/-- C6: on a label raster that holds only `LABEL_GROUND` and 1, `groupObjects`
returns, and every pixel that held 1 on entry either still holds 1 or holds a
label of at least 2 that is the label of one of the returned objects. -/
theorem groupObjects_entry_ones_owned (w h : Nat) (L H : Image) (maxCount : Int) (dzGroup : Nat)
    (h01 : ∀ j, j < h → ∀ i, i < w → L j i = LABEL_GROUND ∨ L j i = 1) :
    ∃ r, groupObjects w h L H maxCount dzGroup = some r ∧
      ∀ j, j < h → ∀ i, i < w → L j i = 1 →
        r.L j i = 1 ∨ (2 ≤ r.L j i ∧ ∃ obj ∈ r.objects, obj.label = r.L j i) := by
  obtain ⟨s, hs, hI, _⟩ := groupObjects_scanInv w h L H maxCount dzGroup
    (fun j hj i hi => by rcases h01 j hj i hi with e | e <;> simp [e, LABEL_GROUND])
  refine ⟨s, hs, ?_⟩
  intro j hj i hi h1
  rcases hI.frame j i with e | ⟨_, _, _, e⟩
  · left
    rw [e, h1]
  · exact Or.inr ⟨e, hI.owned j i hj hi e⟩

/-- C6, at a concrete raster. -/
theorem groupObjects_entry_ones_owned_witness :
    ∃ r, groupObjects 2 2 (ofRows [[0, 1], [1, 1]]) (ofRows [[5, 9], [5, 5]]) 100 3 = some r ∧
      ∀ j, j < 2 → ∀ i, i < 2 → ofRows [[0, 1], [1, 1]] j i = 1 →
        r.L j i = 1 ∨ (2 ≤ r.L j i ∧ ∃ obj ∈ r.objects, obj.label = r.L j i) :=
  groupObjects_entry_ones_owned 2 2 (ofRows [[0, 1], [1, 1]]) (ofRows [[5, 9], [5, 5]]) 100 3
    (by decide)

/-- C7: on a label raster that holds only `LABEL_GROUND` and 1, `groupObjects`
returns, and on return the bounding box of every returned object is inclusive
and tight: every in-raster pixel carrying the object's label lies inside it and
each of the four bounds is attained by a pixel carrying the label. -/
theorem groupObjects_bbox_tight (w h : Nat) (L H : Image) (maxCount : Int) (dzGroup : Nat)
    (h01 : ∀ j, j < h → ∀ i, i < w → L j i = LABEL_GROUND ∨ L j i = 1) :
    ∃ r, groupObjects w h L H maxCount dzGroup = some r ∧
      ∀ obj ∈ r.objects,
        (∀ j, j < h → ∀ i, i < w → r.L j i = obj.label →
          obj.xmin ≤ i ∧ i ≤ obj.xmax ∧ obj.ymin ≤ j ∧ j ≤ obj.ymax) ∧
        (∃ j i, j < h ∧ i < w ∧ r.L j i = obj.label ∧ i = obj.xmin) ∧
        (∃ j i, j < h ∧ i < w ∧ r.L j i = obj.label ∧ i = obj.xmax) ∧
        (∃ j i, j < h ∧ i < w ∧ r.L j i = obj.label ∧ j = obj.ymin) ∧
        (∃ j i, j < h ∧ i < w ∧ r.L j i = obj.label ∧ j = obj.ymax) := by
  obtain ⟨s, hs, hI, _⟩ := groupObjects_scanInv w h L H maxCount dzGroup
    (fun j hj i hi => by rcases h01 j hj i hi with e | e <;> simp [e, LABEL_GROUND])
  refine ⟨s, hs, ?_⟩
  intro obj hobj
  obtain ⟨_, _, seed, hO⟩ := hI.objs obj hobj
  refine ⟨?_, hO.xmin_att, hO.xmax_att, hO.ymin_att, hO.ymax_att⟩
  intro j hj i hi hl
  obtain ⟨a, b, c, d⟩ := hO.bbox j i hj hi hl
  exact ⟨c, d, a, b⟩

/-- C7, at a concrete raster. -/
theorem groupObjects_bbox_tight_witness :
    ∃ r, groupObjects 3 2 (ofRows [[0, 1, 1], [1, 1, 0]]) (ofRows [[5, 9, 9], [5, 5, 5]]) 100 3 =
        some r ∧
      ∀ obj ∈ r.objects,
        (∀ j, j < 2 → ∀ i, i < 3 → r.L j i = obj.label →
          obj.xmin ≤ i ∧ i ≤ obj.xmax ∧ obj.ymin ≤ j ∧ j ≤ obj.ymax) ∧
        (∃ j i, j < 2 ∧ i < 3 ∧ r.L j i = obj.label ∧ i = obj.xmin) ∧
        (∃ j i, j < 2 ∧ i < 3 ∧ r.L j i = obj.label ∧ i = obj.xmax) ∧
        (∃ j i, j < 2 ∧ i < 3 ∧ r.L j i = obj.label ∧ j = obj.ymin) ∧
        (∃ j i, j < 2 ∧ i < 3 ∧ r.L j i = obj.label ∧ j = obj.ymax) :=
  groupObjects_bbox_tight 3 2 (ofRows [[0, 1, 1], [1, 1, 0]]) (ofRows [[5, 9, 9], [5, 5, 5]]) 100 3
    (by decide)

/-- C8: on a label raster that holds only `LABEL_GROUND` and 1, `groupObjects`
returns, and the count of every returned object is at least 1 and equals the
number of in-raster pixels that carry the object's label on return. -/
theorem groupObjects_count_exact (w h : Nat) (L H : Image) (maxCount : Int) (dzGroup : Nat)
    (h01 : ∀ j, j < h → ∀ i, i < w → L j i = LABEL_GROUND ∨ L j i = 1) :
    ∃ r, groupObjects w h L H maxCount dzGroup = some r ∧
      ∀ obj ∈ r.objects, 1 ≤ obj.count ∧ obj.count = (pixelsWith w h r.L obj.label).card := by
  obtain ⟨s, hs, hI, _⟩ := groupObjects_scanInv w h L H maxCount dzGroup
    (fun j hj i hi => by rcases h01 j hj i hi with e | e <;> simp [e, LABEL_GROUND])
  refine ⟨s, hs, ?_⟩
  intro obj hobj
  obtain ⟨_, _, seed, hO⟩ := hI.objs obj hobj
  exact ⟨hO.count_pos, hO.count_eq⟩

/-- C8, at a concrete raster. -/
theorem groupObjects_count_exact_witness :
    ∃ r, groupObjects 2 3 (ofRows [[1, 1], [0, 0], [1, 0]]) (ofRows [[5, 9], [5, 5], [7, 7]]) 2 1 =
        some r ∧
      ∀ obj ∈ r.objects, 1 ≤ obj.count ∧ obj.count = (pixelsWith 2 3 r.L obj.label).card :=
  groupObjects_count_exact 2 3 (ofRows [[1, 1], [0, 0], [1, 0]]) (ofRows [[5, 9], [5, 5], [7, 7]])
    2 1 (by decide)

/-! ## `fillInsideBuildings`: the claims -/

/-- C9 (code defect): on the one-row class raster `[LAS_TREE, LAS_TREE]` the two
pixels form one 8-connected tree component all of whose in-raster neighbours lie
in the component, yet `fillInsideBuildings` returns `[LAS_TREE, LAS_BUILDING]`:
the group seeded at (0,0) does not grow (the neighbour loop of
`addClassNeighbors` starts at the wrapped index `0 - 1`), sees the unvisited tree
pixel (0,1) and is left unchanged. -/
theorem fillInsideBuildings_splits_border_component :
    (fillInsideBuildings 2 1 (ofRows [[LAS_TREE, LAS_TREE]])).map (fun c => toRows c 2 1) =
      some [[LAS_TREE, LAS_BUILDING]] := by
  decide!

/-- C10 (code defect): `fillInsideBuildings` is not idempotent.  On the one-row
class raster `[LAS_TREE, LAS_TREE]` the first application returns
`[LAS_TREE, LAS_BUILDING]` and the second returns `[LAS_BUILDING, LAS_BUILDING]`. -/
theorem fillInsideBuildings_second_pass_changes :
    (fillInsideBuildings 2 1 (ofRows [[LAS_TREE, LAS_TREE]])).bind (fun c1 =>
      (fillInsideBuildings 2 1 c1).map fun c2 => (toRows c1 2 1, toRows c2 2 1)) =
      some ([[LAS_TREE, LAS_BUILDING]], [[LAS_BUILDING, LAS_BUILDING]]) := by
  decide!

/-! ## `classifyGround` -/

theorem stencilOffsets_pos {dh : Nat} (hdh : 1 ≤ dh) :
    stencilOffsets dh = some [-(dh : Int), 0, (dh : Int)] := by
  have h1 : (-(dh : Int)) ≤ (dh : Int) := by omega
  have h2 : (-(dh : Int)) + (dh : Int) = 0 := by omega
  have h3 : (0 : Int) ≤ (dh : Int) := by omega
  have h4 : ¬ ((dh : Int) + (dh : Int) ≤ (dh : Int)) := by omega
  simp [stencilOffsets, stencilLoop, h1, h2, h3, h4]

theorem labelObjectBoundaries_isSome (w h : Nat) (H L : Image) {dh : Nat} (dz : Nat)
    (hdh : 1 ≤ dh) : ∃ L1, labelObjectBoundaries w h H L dh dz = some L1 := by
  unfold labelObjectBoundaries
  split_ifs
  · exact ⟨_, rfl⟩
  · rw [stencilOffsets_pos hdh]
    exact ⟨_, rfl⟩

theorem findStop_of_findStart {cell : Nat → Nat} {label : Nat} {idxs : List Nat} {s : Nat}
    (hs : findStart cell label idxs = some s) : ∃ t, findStop cell label idxs = some t := by
  unfold findStart at hs
  unfold findStop
  cases ht : List.find? (fun i => decide (cell i = label)) idxs.reverse with
  | some t => exact ⟨t, rfl⟩
  | none =>
    exfalso
    rw [List.find?_eq_none] at ht
    have hp : (fun i => decide (cell i = label)) s = true :=
      @List.find?_some Nat (fun i => decide (cell i = label)) s idxs hs
    exact ht s (List.mem_reverse.2 (List.mem_of_find?_eq_some hs)) hp

theorem fillRow_isSome (c : LabelConsts) (w : Nat) (H : Image) (obj : ObjectType) (L : Image)
    (j : Nat) : ∃ L', fillRow c w H obj L j = some L' := by
  simp only [fillRow]
  cases hs : findStart (L j) obj.label
      (loopRange (obj.xmin - 1) (MIN (obj.xmax + 1) (usub w 1))) with
  | none => exact ⟨_, rfl⟩
  | some s =>
    obtain ⟨t, ht⟩ := findStop_of_findStart hs
    simp only [ht]
    split_ifs
    · exact ⟨_, rfl⟩
    · exact ⟨_, rfl⟩

theorem fillCol_isSome (c : LabelConsts) (h : Nat) (H : Image) (obj : ObjectType) (L : Image)
    (i : Nat) : ∃ L', fillCol c h H obj L i = some L' := by
  simp only [fillCol]
  cases hs : findStart (fun j => L j i) obj.label
      (loopRange (obj.ymin - 1) (MIN (obj.ymax + 1) (usub h 1))) with
  | none => exact ⟨_, rfl⟩
  | some s =>
    obtain ⟨t, ht⟩ := findStop_of_findStart hs
    simp only [ht]
    split_ifs
    · exact ⟨_, rfl⟩
    · exact ⟨_, rfl⟩

/-- A fold of steps that always succeed succeeds. -/
theorem foldl_bind_isSome {σ α : Type} (f : σ → α → Option σ)
    (hf : ∀ s a, ∃ s', f s a = some s') (l : List α) (s : σ) :
    ∃ s', l.foldl (fun acc a => acc.bind fun x => f x a) (some s) = some s' := by
  obtain ⟨s', hs', _⟩ := foldl_option_visited (fun acc a => acc.bind fun x => f x a)
    (fun _ _ => True) l
    (by
      intro pre a s _ _
      obtain ⟨s', hs'⟩ := hf s a
      exact ⟨s', by simp [hs'], trivial⟩)
    [] s trivial
  exact ⟨s', hs'⟩

theorem fillObjectBounds_isSome (c : LabelConsts) (w h : Nat) (L H : Image) (obj : ObjectType)
    (dh dz : Nat) : ∃ r, fillObjectBounds c w h L H obj dh dz = some r := by
  unfold fillObjectBounds
  obtain ⟨L1, h1⟩ := foldl_bind_isSome (fun L j => fillRow c w H obj L j)
    (fun L j => fillRow_isSome c w H obj L j)
    (loopRange (obj.ymin - 1) (MIN (obj.ymax + 1) (usub h 1))) L
  obtain ⟨L2, h2⟩ := foldl_bind_isSome (fun L i => fillCol c h H obj L i)
    (fun L i => fillCol_isSome c h H obj L i)
    (loopRange (obj.xmin - 1) (MIN (obj.xmax + 1) (usub w 1))) L1
  dsimp only
  rw [h1, Option.some_bind, h2, Option.map_some']
  exact ⟨_, rfl⟩

theorem fillAllObjects_isSome (c : LabelConsts) (w h : Nat) (L H : Image)
    (objects : List ObjectType) (dh dz : Nat) :
    ∃ L', fillAllObjects c w h L H objects dh dz = some L' := by
  unfold fillAllObjects
  exact foldl_bind_isSome (fun L obj => (fillObjectBounds c w h L H obj dh dz).map (·.1))
    (fun L obj => by
      obtain ⟨r, hr⟩ := fillObjectBounds_isSome c w h L H obj dh dz
      exact ⟨r.1, by simp [hr]⟩)
    objects L

theorem groundIteration_isSome (c : LabelConsts) (fill : VoidFill) (w h : Nat) (maxCount : Int)
    {dh : Nat} (dz : Nat) (hdh : 1 ≤ dh) (s : GroundState) (k : Nat) :
    ∃ s', groundIteration c fill w h maxCount dh dz (some s) k = some s' := by
  obtain ⟨L1, h1⟩ := labelObjectBoundaries_isSome w h s.dtm s.L dz hdh
  obtain ⟨g, hg⟩ := groupObjects_isSome w h (extendObjectBoundaries c w h s.dtm L1 dh dz) s.dtm
    maxCount dz
  obtain ⟨L3, h3⟩ := fillAllObjects_isSome c w h g.L s.dtm g.objects dh dz
  simp only [groundIteration, Option.some_bind, h1, hg, h3, Option.map_some']
  exact ⟨_, rfl⟩

/-- For an edge resolution of at least 1 the iterations of `classifyGround` all
return. -/
theorem groundIterations_isSome (c : LabelConsts) (fill : VoidFill) (w h : Nat) (maxCount : Int)
    {dh : Nat} (dz : Nat) (hdh : 1 ≤ dh) (s : GroundState) (ks : List Nat) :
    ∃ s', ks.foldl (groundIteration c fill w h maxCount dh dz) (some s) = some s' := by
  obtain ⟨s', hs', _⟩ := foldl_option_visited (groundIteration c fill w h maxCount dh dz)
    (fun _ _ => True) ks
    (by
      intro pre k s _ _
      obtain ⟨s', hs'⟩ := groundIteration_isSome c fill w h maxCount dz hdh s k
      exact ⟨s', hs', trivial⟩)
    [] s trivial
  exact ⟨s', hs'⟩

theorem removeSpikes_dtm_le (w h : Nat) (dsm : Image) (dz : Nat) (s : GroundState)
    (hs : ∀ j i, s.dtm j i ≤ dsm j i) : ∀ j i, (removeSpikes w h dz s).dtm j i ≤ dsm j i := by
  unfold removeSpikes
  refine foldl_inv (fun s : GroundState => ∀ j i, s.dtm j i ≤ dsm j i) _ _ s hs ?_
  intro s p _ hs j i
  unfold spikeStep
  split_ifs
  · show setPx s.dtm p.1 p.2 0 j i ≤ dsm j i
    unfold setPx
    split_ifs
    · exact Nat.zero_le _
    · exact hs j i
  · exact hs j i

theorem zeroVoids_groundTail_le (w h : Nat) (dsm : Image) (dz : Nat) (s : GroundState) :
    ∀ j i, zeroVoids (groundTail w h dsm dz s) j i ≤ dsm j i := by
  intro j i
  have hclamp : ∀ j i, (clampToDsm dsm s).dtm j i ≤ dsm j i := by
    intro j i
    show (if s.dtm j i ≥ dsm j i then dsm j i else s.dtm j i) ≤ dsm j i
    split_ifs <;> omega
  have := removeSpikes_dtm_le w h dsm dz (clampToDsm dsm s) hclamp j i
  unfold zeroVoids groundTail
  split_ifs
  · exact Nat.zero_le _
  · exact this

theorem fillWithMax_contract_2_1 : FillContract 2 1 (fillWithMax 2 1) := by
  have hmax : ∀ img : Image, rasterMax 2 1 img = max (max 0 (img 0 0)) (img 0 1) := by
    intro img
    simp [rasterMax, List.range_succ]
  have h00 : ∀ (b : Bool) (img : Image),
      fillWithMax 2 1 b img 0 0 = if img 0 0 = 0 then rasterMax 2 1 img else img 0 0 := by
    intro b img
    simp [fillWithMax, ofRows, List.range_succ]
  have h01 : ∀ (b : Bool) (img : Image),
      fillWithMax 2 1 b img 0 1 = if img 0 1 = 0 then rasterMax 2 1 img else img 0 1 := by
    intro b img
    simp [fillWithMax, ofRows, List.range_succ]
  have hcase : ∀ j i, j < 1 → i < 2 → (j = 0 ∧ i = 0) ∨ (j = 0 ∧ i = 1) := by
    intro j i hj hi
    omega
  refine ⟨?_, ?_, ?_⟩
  · intro img j i hj hi hne
    rcases hcase j i hj hi with ⟨rfl, rfl⟩ | ⟨rfl, rfl⟩
    · rw [h00, if_neg hne]
    · rw [h01, if_neg hne]
  · rintro b img ⟨j0, i0, hj0, hi0, hne⟩ j i hj hi
    have hpos : rasterMax 2 1 img ≠ 0 := by
      rw [hmax]
      rcases hcase j0 i0 hj0 hi0 with ⟨rfl, rfl⟩ | ⟨rfl, rfl⟩
      · have : 0 < img 0 0 := Nat.pos_of_ne_zero hne
        omega
      · have : 0 < img 0 1 := Nat.pos_of_ne_zero hne
        omega
    rcases hcase j i hj hi with ⟨rfl, rfl⟩ | ⟨rfl, rfl⟩
    · rw [h00]
      split_ifs with hz
      · exact hpos
      · exact hz
    · rw [h01]
      split_ifs with hz
      · exact hpos
      · exact hz
  · intro b img j i hj hi
    have hle0 : img 0 0 ≤ rasterMax 2 1 img := by rw [hmax]; omega
    have hle1 : img 0 1 ≤ rasterMax 2 1 img := by rw [hmax]; omega
    have hatt : rasterMax 2 1 img = img 0 0 ∨ rasterMax 2 1 img = img 0 1 := by
      rw [hmax]
      omega
    rcases hcase j i hj hi with ⟨rfl, rfl⟩ | ⟨rfl, rfl⟩
    · rw [h00]
      split_ifs with hz
      · refine ⟨⟨0, 0, by omega, by omega, hle0⟩, ?_⟩
        rcases hatt with e | e
        · exact ⟨0, 0, by omega, by omega, by rw [e]⟩
        · exact ⟨0, 1, by omega, by omega, by rw [e]⟩
      · exact ⟨⟨0, 0, by omega, by omega, le_refl _⟩, ⟨0, 0, by omega, by omega, le_refl _⟩⟩
    · rw [h01]
      split_ifs with hz
      · refine ⟨⟨0, 1, by omega, by omega, hle1⟩, ?_⟩
        rcases hatt with e | e
        · exact ⟨0, 0, by omega, by omega, by rw [e]⟩
        · exact ⟨0, 1, by omega, by omega, by rw [e]⟩
      · exact ⟨⟨0, 1, by omega, by omega, le_refl _⟩, ⟨0, 1, by omega, by omega, le_refl _⟩⟩

/-- C1 (as stated, refuted): a DSM with one void pixel.  The void fill
`fillWithMax` meets the contract of section 4.2; on the 1-row DSM `[0, 5]` with
the DTM starting as a copy, `dh = 3` and `dz = 20`, `classifyGround` returns a
DTM whose pixel (0,0) is 5, above the DSM value 0: the consistency clamp writes
the DSM value 0 there and the last `fillVoidsPyramid(false)` fills it again. -/
theorem classifyGround_dtm_above_void_dsm :
    FillContract 2 1 (fillWithMax 2 1) ∧ 1 ≤ 3 ∧
    ∃ r, classifyGround sampleConsts (fillWithMax 2 1) 2 1 1 (ofRows [[0, 0]])
        (ofRows [[0, 5]]) (ofRows [[0, 5]]) 3 20 = some r ∧
      r.dtm 0 0 = 5 ∧ ofRows [[0, 5]] 0 0 = 0 ∧ ¬ (r.dtm 0 0 ≤ ofRows [[0, 5]] 0 0) := by
  refine ⟨fillWithMax_contract_2_1, by decide, ?_⟩
  have e : (classifyGround sampleConsts (fillWithMax 2 1) 2 1 1 (ofRows [[0, 0]])
      (ofRows [[0, 5]]) (ofRows [[0, 5]]) 3 20).map (fun r => r.dtm 0 0) = some 5 := by
    decide!
  cases hr : classifyGround sampleConsts (fillWithMax 2 1) 2 1 1 (ofRows [[0, 0]])
      (ofRows [[0, 5]]) (ofRows [[0, 5]]) 3 20 with
  | none => rw [hr] at e; simp at e
  | some r =>
    rw [hr] at e
    simp only [Option.map_some', Option.some.injEq] at e
    refine ⟨r, rfl, e, by decide, ?_⟩
    rw [e]
    decide

/-- C1 (amended): for every non-empty raster, every `dh >= 1` and `dz`, and
every void fill that meets the contract of section 4.2, the five iterations of
`classifyGround` come to an end in a state `s` and `classifyGround` returns; the
DTM it returns is the output of the last `fillVoidsPyramid(false)`, the raster
handed to that call is `zeroVoids (groundTail w h dsm dz s)` (the DTM after the
consistency clamp, the spike loop and the zeroing of the void pixels), that
raster is nowhere above the DSM, and every returned DTM sample of the raster is
at most some DSM sample of the raster. -/
theorem classifyGround_dtm_le_dsm_before_last_fill (c : LabelConsts) (fill : VoidFill)
    (w h : Nat) (gsd : ℚ) (L dsm dtm : Image) (dh dz : Nat) (hw : 0 < w) (hh : 0 < h)
    (hdh : 1 ≤ dh) (hfill : FillContract w h fill) :
    ∃ s, (List.range 5).foldl
        (groundIteration c fill w h (floatToInt 64 (floatAreaQuot 10000 gsd)) dh dz)
        (some ⟨L, fill true dtm, fun _ _ => 0⟩) = some s ∧
      classifyGround c fill w h gsd L dsm dtm dh dz =
        some ⟨markVoids (groundTail w h dsm dz s).void,
          fill false (zeroVoids (groundTail w h dsm dz s)), (groundTail w h dsm dz s).void⟩ ∧
      (∀ j i, zeroVoids (groundTail w h dsm dz s) j i ≤ dsm j i) ∧
      (∀ j i, j < h → i < w → ∃ j2 i2, j2 < h ∧ i2 < w ∧
        fill false (zeroVoids (groundTail w h dsm dz s)) j i ≤ dsm j2 i2) := by
  have _ : 0 < w * h := Nat.mul_pos hw hh
  obtain ⟨s, hs⟩ := groundIterations_isSome c fill w h (floatToInt 64 (floatAreaQuot 10000 gsd))
    dz hdh ⟨L, fill true dtm, fun _ _ => 0⟩ (List.range 5)
  refine ⟨s, hs, ?_, zeroVoids_groundTail_le w h dsm dz s, ?_⟩
  · simp only [classifyGround, hs, Option.map_some']
  · intro j i hj hi
    obtain ⟨_, j2, i2, hj2, hi2, hle⟩ :=
      hfill.bounded false (zeroVoids (groundTail w h dsm dz s)) j i hj hi
    exact ⟨j2, i2, hj2, hi2, le_trans hle (zeroVoids_groundTail_le w h dsm dz s j2 i2)⟩

/-- C1 (amended), at the 1-row DSM `[0, 5]` with the void fill `fillWithMax`. -/
theorem classifyGround_dtm_le_dsm_before_last_fill_witness :
    (0 < 2 ∧ 0 < 1 ∧ 1 ≤ 3 ∧ FillContract 2 1 (fillWithMax 2 1)) ∧
    ∃ s, (List.range 5).foldl
        (groundIteration sampleConsts (fillWithMax 2 1) 2 1
          (floatToInt 64 (floatAreaQuot 10000 1)) 3 20)
        (some ⟨ofRows [[0, 0]], fillWithMax 2 1 true (ofRows [[0, 5]]), fun _ _ => 0⟩) = some s ∧
      classifyGround sampleConsts (fillWithMax 2 1) 2 1 1 (ofRows [[0, 0]])
          (ofRows [[0, 5]]) (ofRows [[0, 5]]) 3 20 =
        some ⟨markVoids (groundTail 2 1 (ofRows [[0, 5]]) 20 s).void,
          fillWithMax 2 1 false (zeroVoids (groundTail 2 1 (ofRows [[0, 5]]) 20 s)),
          (groundTail 2 1 (ofRows [[0, 5]]) 20 s).void⟩ ∧
      (∀ j i, zeroVoids (groundTail 2 1 (ofRows [[0, 5]]) 20 s) j i ≤ ofRows [[0, 5]] j i) ∧
      (∀ j i, j < 1 → i < 2 → ∃ j2 i2, j2 < 1 ∧ i2 < 2 ∧
        fillWithMax 2 1 false (zeroVoids (groundTail 2 1 (ofRows [[0, 5]]) 20 s)) j i ≤
          ofRows [[0, 5]] j2 i2) :=
  ⟨⟨by decide, by decide, by decide, fillWithMax_contract_2_1⟩,
    classifyGround_dtm_le_dsm_before_last_fill sampleConsts (fillWithMax 2 1) 2 1 1
      (ofRows [[0, 0]]) (ofRows [[0, 5]]) (ofRows [[0, 5]]) 3 20 (by decide) (by decide)
      (by decide) fillWithMax_contract_2_1⟩

/-- C2: whenever `classifyGround` returns, every pixel of the label raster holds
`LABEL_GROUND` (0) or 1, and it holds 1 exactly where the void mask is 1; and
for an edge resolution of at least 1 it does return. -/
theorem classifyGround_labels_mark_voids (c : LabelConsts) (fill : VoidFill)
    (w h : Nat) (gsd : ℚ) (L dsm dtm : Image) (dh dz : Nat) :
    (∀ r, classifyGround c fill w h gsd L dsm dtm dh dz = some r →
      ∀ j i, (r.L j i = LABEL_GROUND ∨ r.L j i = 1) ∧ (r.L j i = 1 ↔ r.void j i = 1)) ∧
    (1 ≤ dh → ∃ r, classifyGround c fill w h gsd L dsm dtm dh dz = some r) := by
  constructor
  · intro r hr j i
    simp only [classifyGround, Option.map_eq_some'] at hr
    obtain ⟨s, _, rfl⟩ := hr
    simp only [markVoids, LABEL_GROUND]
    split_ifs with hv
    · exact ⟨Or.inr rfl, by simp [hv]⟩
    · exact ⟨Or.inl rfl, by simp [hv]⟩
  · intro hdh
    obtain ⟨s, hs⟩ := groundIterations_isSome c fill w h (floatToInt 64 (floatAreaQuot 10000 gsd)) dz hdh
      ⟨L, fill true dtm, fun _ _ => 0⟩ (List.range 5)
    refine ⟨⟨markVoids (groundTail w h dsm dz s).void,
      fill false (zeroVoids (groundTail w h dsm dz s)), (groundTail w h dsm dz s).void⟩, ?_⟩
    simp only [classifyGround, hs, Option.map_some']

/-- C2, at a concrete raster. -/
theorem classifyGround_labels_mark_voids_witness :
    ∃ r, classifyGround sampleConsts (fillWithMax 2 1) 2 1 1 (ofRows [[0, 0]])
        (ofRows [[0, 5]]) (ofRows [[0, 5]]) 3 20 = some r ∧
      ∀ j i, (r.L j i = LABEL_GROUND ∨ r.L j i = 1) ∧ (r.L j i = 1 ↔ r.void j i = 1) := by
  have key := classifyGround_labels_mark_voids sampleConsts (fillWithMax 2 1) 2 1 1
    (ofRows [[0, 0]]) (ofRows [[0, 5]]) (ofRows [[0, 5]]) 3 20
  obtain ⟨r, hr⟩ := key.2 (by decide)
  exact ⟨r, hr, key.1 r hr⟩

/-! ## `classifyNonGround` -/

theorem connected_map {w h : Nat} {L L' : Image} {v v' : Nat}
    (hsub : ∀ j i, j < h → i < w → L j i = v → L' j i = v') {p q : Nat × Nat}
    (hc : Connected w h L v p q) : Connected w h L' v' p q := by
  refine Relation.ReflTransGen.mono ?_ hc
  rintro a b ⟨h1, h2, h3, h4⟩
  exact ⟨h1, h2, hsub _ _ h1 h2 h3, h4⟩

theorem connected_target {w h : Nat} {L : Image} {v : Nat} {p q : Nat × Nat}
    (hp : p.1 < h ∧ p.2 < w ∧ L p.1 p.2 = v) (hc : Connected w h L v p q) :
    q.1 < h ∧ q.2 < w ∧ L q.1 q.2 = v := by
  cases hc with
  | refl => exact hp
  | tail _ hl => exact ⟨hl.1, hl.2.1, hl.2.2.1⟩

theorem connected_symm {w h : Nat} {L : Image} {v : Nat} {p q : Nat × Nat}
    (hp : p.1 < h ∧ p.2 < w ∧ L p.1 p.2 = v) (hc : Connected w h L v p q) :
    Connected w h L v q p := by
  induction hc with
  | refl => exact Relation.ReflTransGen.refl
  | tail hpb hbc ih =>
    have hb := connected_target hp hpb
    obtain ⟨_, _, _, a1, a2, a3, a4⟩ := hbc
    exact Relation.ReflTransGen.head ⟨hb.1, hb.2.1, hb.2.2, a2, a1, a4, a3⟩ ih

theorem areaRejectStep_apply (m : Int) (L : Image) (o : ObjectType) (a b : Nat) :
    areaRejectStep m L o a b =
      if (o.count : Int) < m ∧ o.ymin ≤ a ∧ a ≤ o.ymax ∧ o.xmin ≤ b ∧ b ≤ o.xmax ∧
          L a b = o.label then 0 else L a b := by
  unfold areaRejectStep
  by_cases hrej : (o.count : Int) < m
  · rw [if_pos hrej]
    show (if o.ymin ≤ a ∧ a ≤ o.ymax ∧ o.xmin ≤ b ∧ b ≤ o.xmax ∧ L a b = o.label
      then LABEL_GROUND else L a b) = _
    by_cases hc : o.ymin ≤ a ∧ a ≤ o.ymax ∧ o.xmin ≤ b ∧ b ≤ o.xmax ∧ L a b = o.label
    · rw [if_pos hc, if_pos ⟨hrej, hc⟩]
      rfl
    · rw [if_neg hc, if_neg (fun hx => hc hx.2)]
  · rw [if_neg hrej, if_neg (fun hx => hrej hx.1)]

theorem rejectFold_cases (m : Int) (objs : List ObjectType) (L : Image) (a b : Nat) :
    (objs.foldl (areaRejectStep m) L) a b = L a b ∨ (objs.foldl (areaRejectStep m) L) a b = 0 := by
  refine foldl_inv (fun L' : Image => L' a b = L a b ∨ L' a b = 0) _ objs L (Or.inl rfl) ?_
  intro L' o _ hL'
  show areaRejectStep m L' o a b = L a b ∨ areaRejectStep m L' o a b = 0
  rw [areaRejectStep_apply]
  split_ifs
  · exact Or.inr rfl
  · exact hL'

theorem rejectFold_zero (m : Int) (objs : List ObjectType) (L : Image) (a b : Nat)
    (hz : L a b = 0) : (objs.foldl (areaRejectStep m) L) a b = 0 := by
  rcases rejectFold_cases m objs L a b with e | e
  · rw [e, hz]
  · exact e

theorem rejectFold_rejected (m : Int) (a b : Nat) (obj : ObjectType) (hrej : (obj.count : Int) < m)
    (hbox : obj.ymin ≤ a ∧ a ≤ obj.ymax ∧ obj.xmin ≤ b ∧ b ≤ obj.xmax) :
    ∀ (objs : List ObjectType) (L : Image), obj ∈ objs → (L a b = obj.label ∨ L a b = 0) →
      (objs.foldl (areaRejectStep m) L) a b = 0 := by
  intro objs
  induction objs with
  | nil => intro L hmem; simp at hmem
  | cons o t ih =>
    intro L hmem hL
    simp only [List.foldl_cons]
    have hstep : areaRejectStep m L o a b = L a b ∨ areaRejectStep m L o a b = 0 := by
      rw [areaRejectStep_apply]
      split_ifs
      · exact Or.inr rfl
      · exact Or.inl rfl
    rcases List.mem_cons.1 hmem with rfl | hin
    · apply rejectFold_zero
      rcases hL with e | e
      · rw [areaRejectStep_apply,
          if_pos ⟨hrej, hbox.1, hbox.2.1, hbox.2.2.1, hbox.2.2.2, e⟩]
      · rcases hstep with s | s
        · rw [s, e]
        · exact s
    · apply ih _ hin
      rcases hstep with s | s
      · rw [s]
        exact hL
      · exact Or.inr s

theorem rejectFold_keep (m : Int) (objs : List ObjectType) (L : Image) (a b : Nat)
    (hno : ∀ o ∈ objs, (o.count : Int) < m → o.label ≠ L a b) :
    (objs.foldl (areaRejectStep m) L) a b = L a b := by
  refine foldl_inv (fun L' : Image => L' a b = L a b) _ objs L rfl ?_
  intro L' o ho hL'
  show areaRejectStep m L' o a b = L a b
  rw [areaRejectStep_apply]
  split_ifs with h1
  · exfalso
    exact hno o ho h1.1 (by rw [← hL']; exact h1.2.2.2.2.2.symm)
  · exact hL'

/-- After the small-object loop and the last normalisation, every component of
pixels labelled 1 holds at least `m` pixels, when the loop ran on the result of
`groupObjects` for a raster of zeros and ones. -/
theorem areaCull_components (w h : Nat) (hw : w < 4294967296) (hh : h < 4294967296)
    (L4 : Image) (g : GroupState) (m : Int) (hI : ScanInv w h L4 g)
    (hno1 : ∀ j, j < h → ∀ i, i < w → g.L j i ≠ 1) :
    EveryComponent w h (finishLabelImage (g.objects.foldl (areaRejectStep m) g.L))
      (fun S => m ≤ (S.card : Int)) := by
  intro j hj i hi hfin S hS
  have hLr : (g.objects.foldl (areaRejectStep m) g.L) j i ≠ 0 := by
    intro hz
    simp [finishLabelImage, LABEL_GROUND, hz] at hfin
  have hsame : (g.objects.foldl (areaRejectStep m) g.L) j i = g.L j i := by
    rcases rejectFold_cases m g.objects g.L j i with e | e
    · exact e
    · exact absurd e hLr
  have hv2 : 2 ≤ g.L j i := by
    have h0 : g.L j i ≠ 0 := by rw [← hsame]; exact hLr
    have h1 := hno1 j hj i hi
    omega
  obtain ⟨obj, hobj, hlab⟩ := hI.owned j i hj hi hv2
  have hnorej : ∀ o ∈ g.objects, o.label = g.L j i → ¬ ((o.count : Int) < m) := by
    intro o ho hl hrej
    obtain ⟨_, _, sd, hO⟩ := hI.objs o ho
    have hbox := hO.bbox j i hj hi hl.symm
    exact hLr (rejectFold_rejected m j i o hrej hbox g.objects g.L ho (Or.inl hl.symm))
  have hfinal : ∀ a b, a < h → b < w → g.L a b = obj.label →
      finishLabelImage (g.objects.foldl (areaRejectStep m) g.L) a b = 1 := by
    intro a b _ _ hab
    have hk : (g.objects.foldl (areaRejectStep m) g.L) a b = g.L a b := by
      apply rejectFold_keep
      intro o ho hrej hl
      exact hnorej o ho (by rw [hl, hab, hlab]) hrej
    have : g.L a b ≠ 0 := by rw [hab, hlab]; omega
    simp [finishLabelImage, LABEL_GROUND, hk, this]
  obtain ⟨_, _, seed, hO⟩ := hI.objs obj hobj
  have hseed1 := hfinal seed.1 seed.2 hO.seed_in.1 hO.seed_in.2.1 hO.seed_in.2.2
  have hpseed : Connected w h (finishLabelImage (g.objects.foldl (areaRejectStep m) g.L)) 1
      (j, i) seed :=
    connected_symm ⟨hO.seed_in.1, hO.seed_in.2.1, hseed1⟩
      (connected_map hfinal (hO.conn hw hh j i hj hi hlab.symm))
  have hsub : pixelsWith w h g.L obj.label ⊆ S := by
    intro q hq
    rw [mem_pixelsWith] at hq
    rw [hS q]
    exact Relation.ReflTransGen.trans hpseed
      (connected_map hfinal (hO.conn hw hh q.1 q.2 hq.1 hq.2.1 hq.2.2))
  have hcard := Finset.card_le_card hsub
  have hcnt := hO.count_eq
  have := hnorej obj hobj hlab
  simp only [ge_iff_le]
  omega

theorem finishLabelImage_le_one (L : Image) (j i : Nat) : finishLabelImage L j i ≤ 1 := by
  unfold finishLabelImage LABEL_GROUND
  split_ifs with hz
  · exact le_refl 1
  · simp only [ne_eq, not_not] at hz
    omega

/-- C3 (as stated, refuted): with `gsd = 1` and `minAreaMeters = 3/2` the
1-by-1 raster with DSM 10, DTM 0 and label 1 (`dz = 2`, `agl = 5`) keeps its
pixel labelled 1: the threshold is `int(1.5) = 1` pixel.  The component is one
pixel, of area 1, below `minAreaMeters`. -/
theorem classifyNonGround_keeps_component_below_minArea :
    ∃ r, classifyNonGround 1 1 1 (ofRows [[10]]) (ofRows [[0]]) (ofRows [[1]]) 2 5 (3 / 2) =
        some r ∧
      ¬ EveryComponent 1 1 r (fun S => (3 / 2 : ℚ) ≤ (S.card : ℚ) * (1 * 1)) := by
  have e : (classifyNonGround 1 1 1 (ofRows [[10]]) (ofRows [[0]]) (ofRows [[1]]) 2 5
      (3 / 2)).map (fun r => r 0 0) = some 1 := by
    decide!
  cases hr : classifyNonGround 1 1 1 (ofRows [[10]]) (ofRows [[0]]) (ofRows [[1]]) 2 5
      (3 / 2) with
  | none => rw [hr] at e; simp at e
  | some r =>
    rw [hr] at e
    simp only [Option.map_some', Option.some.injEq] at e
    refine ⟨r, rfl, ?_⟩
    intro hall
    have hS : ∀ q, q ∈ ({(0, 0)} : Finset (Nat × Nat)) ↔ Connected 1 1 r 1 (0, 0) q := by
      intro q
      constructor
      · intro hq
        rw [Finset.mem_singleton] at hq
        subst hq
        exact Relation.ReflTransGen.refl
      · intro hc
        have := connected_target (p := (0, 0)) ⟨by decide, by decide, e⟩ hc
        rw [Finset.mem_singleton]
        ext <;> simp <;> omega
    have := hall 0 (by decide) 0 (by decide) e {(0, 0)} hS
    norm_num at this

/-- At `g = LABEL_GROUND` the sweep with the ground value as a parameter is
`groupObjects`. -/
theorem groupObjectsAt_ground (w h : Nat) (L H : Image) (maxCount : Int) (dz : Nat) :
    groupObjectsAt LABEL_GROUND w h L H maxCount dz = groupObjects w h L H maxCount dz := rfl

/-- At `g = LABEL_GROUND` the passes of `classifyNonGroundAt` are those of
`classifyNonGround`. -/
theorem classifyNonGroundAt_ground (w h : Nat) (m : Int) (dsm dtm L : Image) (dz agl : Nat) :
    classifyNonGroundAt LABEL_GROUND w h m dsm dtm L dz agl =
      (groupObjects w h (aglCull dsm dtm L agl) dsm LONG_MAX (dz / 2)).bind fun g1 =>
        (groupObjects w h (finishLabelImage (dilateFromTemp w h
            (g1.objects.foldl (gradientRejectStep w h dsm dz) g1.L)
            (erodeTemp w h (g1.objects.foldl (gradientRejectStep w h dsm dz) g1.L))))
          dsm LONG_MAX INT_MAX).map fun g2 =>
            finishLabelImage (g2.objects.foldl (areaRejectStep m) g2.L) := rfl

/-- `classifyNonGround` is `classifyNonGroundAt` at `g = LABEL_GROUND` and at the
`minPointCount` its first statement computes. -/
theorem classifyNonGround_eq_at (w h : Nat) (gsd : ℚ) (dsm dtm L : Image) (dz agl : Nat)
    (minAreaMeters : ℚ) :
    classifyNonGround w h gsd dsm dtm L dz agl minAreaMeters =
      classifyNonGroundAt LABEL_GROUND w h (floatToInt 32 (floatAreaQuot minAreaMeters gsd))
        dsm dtm L dz agl := rfl

/-- The single-precision quotient can fall short of the exact one by a whole
pixel: for `gsd = 11587/16384` and `minAreaMeters = 14684531/4194304`, both
`float` values, the exact quotient truncates to 7 and the computed
`minPointCount` is 6. -/
theorem minPointCount_below_exact_quotient :
    truncQ ((14684531 / 4194304 : ℚ) / ((11587 / 16384 : ℚ) * (11587 / 16384 : ℚ))) = 7 ∧
    floatToInt 32 (floatAreaQuot (14684531 / 4194304) (11587 / 16384)) = 6 := by
  constructor <;> decide!

/-- The AGL property needs a ground value that the test `label > 1` of
`addNeighbors` skips.  With the value 0 that section 3 gives for `LABEL_GROUND`,
on the 3x3 raster with DSM 10 everywhere, DTM 10 everywhere except 4 at the
centre, and only the centre labelled 1 (`dz = 2`, `agl = 5`,
`minAreaMeters = 0`, `gsd = 1`), `classifyNonGround` returns a raster that is 1
everywhere, although every pixel but the centre has `DSM - DTM = 0`, below
`agl`: the ground pixels are accepted into the object grown from the centre. -/
theorem classifyNonGround_labels_pixels_below_agl :
    (classifyNonGround 3 3 1 (ofRows [[10, 10, 10], [10, 10, 10], [10, 10, 10]])
        (ofRows [[10, 10, 10], [10, 4, 10], [10, 10, 10]])
        (ofRows [[0, 0, 0], [0, 1, 0], [0, 0, 0]]) 2 5 0).map (fun r => toRows r 3 3) =
      some [[1, 1, 1], [1, 1, 1], [1, 1, 1]] := by
  decide!

/-! ## Boundary labelling and the final label map: the claims -/

theorem labelObjectBoundaries_apply (w h : Nat) (H L : Image) {dh : Nat} (dz : Nat)
    (hw : 0 < w) (hh : 0 < h) (hdh : 1 ≤ dh) :
    labelObjectBoundaries w h H L dh dz = some (fun j i =>
      if j < h ∧ i < w ∧ [-(dh : Int), 0, (dh : Int)].any (fun dj =>
          [-(dh : Int), 0, (dh : Int)].any fun di => stepEdge w h H dz j i dj di)
      then 1 else resetLabels w h L j i) := by
  unfold labelObjectBoundaries
  rw [if_neg (by omega), stencilOffsets_pos hdh]
  rfl

theorem stepEdge_mono {w h : Nat} {H : Image} {dz1 dz2 j i : Nat} {dj di : Int}
    (hdz : dz1 ≤ dz2) (hs : stepEdge w h H dz2 j i dj di = true) :
    stepEdge w h H dz1 j i dj di = true := by
  unfold stepEdge at hs ⊢
  simp only [decide_eq_true_eq] at hs ⊢
  refine ⟨hs.1, ?_⟩
  have := hs.2
  omega

/-- C11: `labelObjectBoundaries` is monotone in `dz`.  For `dh >= 1` and
`dz1 <= dz2` both calls return, whatever the label rasters held before, and
every in-raster pixel labelled 1 with threshold `dz2` is labelled 1 with
threshold `dz1`. -/
theorem labelObjectBoundaries_antitone_dz (w h : Nat) (H L L' : Image) (dh dz1 dz2 : Nat)
    (hdh : 1 ≤ dh) (hdz : dz1 ≤ dz2) :
    ∃ L1 L2, labelObjectBoundaries w h H L dh dz1 = some L1 ∧
      labelObjectBoundaries w h H L' dh dz2 = some L2 ∧
      ∀ j, j < h → ∀ i, i < w → L2 j i = 1 → L1 j i = 1 := by
  by_cases hwh : 0 < w ∧ 0 < h
  · rw [labelObjectBoundaries_apply w h H L dz1 hwh.1 hwh.2 hdh,
      labelObjectBoundaries_apply w h H L' dz2 hwh.1 hwh.2 hdh]
    refine ⟨_, _, rfl, rfl, ?_⟩
    intro j hj i hi h2
    split_ifs at h2 with hc
    · obtain ⟨_, _, hany⟩ := hc
      rw [if_pos]
      refine ⟨hj, hi, ?_⟩
      rw [List.any_eq_true] at hany ⊢
      obtain ⟨dj, hdj, hin⟩ := hany
      refine ⟨dj, hdj, ?_⟩
      rw [List.any_eq_true] at hin ⊢
      obtain ⟨di, hdi, hs⟩ := hin
      exact ⟨di, hdi, stepEdge_mono hdz hs⟩
    · simp [resetLabels, hj, hi, LABEL_GROUND] at h2
  · obtain ⟨L1, h1⟩ := labelObjectBoundaries_isSome w h H L dz1 hdh
    obtain ⟨L2, h2⟩ := labelObjectBoundaries_isSome w h H L' dz2 hdh
    refine ⟨L1, L2, h1, h2, ?_⟩
    intro j hj i hi
    omega

/-- C11, at a concrete raster. -/
theorem labelObjectBoundaries_antitone_dz_witness :
    (1 ≤ 1 ∧ 10 ≤ 30) ∧
    ∃ L1 L2, labelObjectBoundaries 3 1 (ofRows [[50, 10, 10]]) (ofRows [[7, 7, 7]]) 1 10 = some L1 ∧
      labelObjectBoundaries 3 1 (ofRows [[50, 10, 10]]) (ofRows [[0, 1, 0]]) 1 30 = some L2 ∧
      ∀ j, j < 1 → ∀ i, i < 3 → L2 j i = 1 → L1 j i = 1 :=
  ⟨by decide,
    labelObjectBoundaries_antitone_dz 3 1 (ofRows [[50, 10, 10]]) (ofRows [[7, 7, 7]])
      (ofRows [[0, 1, 0]]) 1 10 30 (by decide) (by decide)⟩

/-- C12: `finishLabelImage` maps every pixel that is not `LABEL_GROUND` to 1 and
leaves `LABEL_GROUND` pixels untouched, so its output holds only 0 and 1, and
applying it twice equals applying it once. -/
theorem finishLabelImage_idempotent (L : Image) :
    (∀ j i, (L j i ≠ LABEL_GROUND → finishLabelImage L j i = 1) ∧
      (L j i = LABEL_GROUND → finishLabelImage L j i = LABEL_GROUND) ∧
      (finishLabelImage L j i = 0 ∨ finishLabelImage L j i = 1)) ∧
    finishLabelImage (finishLabelImage L) = finishLabelImage L := by
  constructor
  · intro j i
    unfold finishLabelImage LABEL_GROUND
    by_cases hz : L j i = 0
    · simp [hz]
    · simp [hz]
  · funext j i
    unfold finishLabelImage LABEL_GROUND
    by_cases hz : L j i = 0
    · simp [hz]
    · simp [hz]

theorem stencilLoop_zero_none : ∀ (fuel : Nat) (d : Int), d ≤ 0 → stencilLoop 0 fuel d = none := by
  intro fuel
  induction fuel with
  | zero => intro d _; rfl
  | succ n ih =>
    intro d hd
    have hd' : d ≤ ((0 : Nat) : Int) := by simpa using hd
    have hnext : d + ((0 : Nat) : Int) ≤ 0 := by simpa using hd
    simp only [stencilLoop, if_pos hd', ih _ hnext, Option.map_none']

theorem labelObjectBoundaries_none_of_dh_zero {w h : Nat} (hw : 0 < w) (hh : 0 < h)
    (H L : Image) (dz : Nat) : labelObjectBoundaries w h H L 0 dz = none := by
  unfold labelObjectBoundaries stencilOffsets
  rw [if_neg (by omega), stencilLoop_zero_none 4 _ (by simp)]
  rfl

theorem groundIterations_none (c : LabelConsts) (fill : VoidFill) (w h : Nat) (maxCount : Int)
    (dh dz : Nat) (ks : List Nat) :
    ks.foldl (groundIteration c fill w h maxCount dh dz) none = none := by
  induction ks with
  | nil => rfl
  | cons k t ih => exact ih

theorem classifyGround_none_of_dh_zero (c : LabelConsts) (fill : VoidFill) {w h : Nat}
    (hw : 0 < w) (hh : 0 < h) (gsd : ℚ) (L dsm dtm : Image) (dz : Nat) :
    classifyGround c fill w h gsd L dsm dtm 0 dz = none := by
  have h5 : List.range 5 = [0, 1, 2, 3, 4] := by decide
  have h1 : groundIteration c fill w h (floatToInt 64 (floatAreaQuot 10000 gsd)) 0 dz
      (some ⟨L, fill true dtm, fun _ _ => 0⟩) 0 = none := by
    simp only [groundIteration, Option.some_bind, labelObjectBoundaries_none_of_dh_zero hw hh,
      Option.none_bind]
  have h0 : ∀ k,
      groundIteration c fill w h (floatToInt 64 (floatAreaQuot 10000 gsd)) 0 dz none k = none :=
    fun _ => rfl
  simp only [classifyGround, h5, List.foldl_cons, List.foldl_nil, h1, h0, Option.map_none']

/-- C14 (code defect): with edge resolution 0 the stencil loop
`for (dj = -0; dj <= 0; dj += 0)` of `labelObjectBoundaries` never ends: from
offset 0 it runs out of every amount of fuel, and on a 1-by-1 raster neither
`labelObjectBoundaries` nor `classifyGround` returns. -/
theorem labelObjectBoundaries_hangs_at_dh_zero :
    (∀ fuel : Nat, stencilLoop 0 fuel 0 = none) ∧
    labelObjectBoundaries 1 1 (ofRows [[5]]) (ofRows [[0]]) 0 20 = none ∧
    classifyGround sampleConsts (fillWithMax 1 1) 1 1 1 (ofRows [[0]]) (ofRows [[5]])
      (ofRows [[5]]) 0 20 = none :=
  ⟨fun fuel => stencilLoop_zero_none fuel 0 (le_refl 0),
    labelObjectBoundaries_none_of_dh_zero (by decide) (by decide) _ _ _,
    classifyGround_none_of_dh_zero _ _ (by decide) (by decide) _ _ _ _ _⟩

/-- C16 (code defect): a coordinate below 0 is not clamped to 0.  On the 1-row
height raster `[50, 50, 10]` with `dh = 1` and `dz = 20` the code labels pixel
(0,0) with 1: the column `0 - 1` is computed in unsigned arithmetic and
`MIN(MAX(0, i + di), width - 1)` yields the last column 2, where
`50 - 2 * 10 + 10 = 40 > 20`.  With the clamp to 0 that the claim words, no
offset passes the test and the pixel is `LABEL_GROUND`. -/
theorem labelObjectBoundaries_wraps_below_zero :
    (labelObjectBoundaries 3 1 (ofRows [[50, 50, 10]]) (ofRows [[0, 0, 0]]) 1 20).map
        (fun L => L 0 0) = some 1 ∧
    labelBoundarySpec 3 1 (ofRows [[50, 50, 10]]) 1 20 0 0 = LABEL_GROUND := by
  constructor
  · decide!
  · decide!

/-- That `classifyNonGround` only removes non-ground pixels needs a ground value
that the test `label > 1` of `addNeighbors` skips.  With the value 0 that
section 3 gives for `LABEL_GROUND`, on the 2x2 raster with DSM 10 everywhere, DTM
`[[10,10],[10,0]]` and labels `[[0,0],[0,1]]` (`dz = 2`, `agl = 5`,
`minAreaMeters = 0`, `gsd = 1`) it returns the raster `[[1,1],[1,1]]`: the three
pixels that were ground on entry are accepted into the object grown from (1,1)
and are then normalised to 1. -/
theorem classifyNonGround_turns_ground_into_object :
    (classifyNonGround 2 2 1 (ofRows [[10, 10], [10, 10]]) (ofRows [[10, 10], [10, 0]])
        (ofRows [[0, 0], [0, 1]]) 2 5 0).map (fun r => toRows r 2 2) =
      some [[1, 1], [1, 1]] := by
  decide!

/-- C18 (code defect): components are not maximal on row 0 and column 0.  On the
1-row label raster `[1, 1]` over the flat height raster `[5, 5]`, with
`maxCount = LONG_MAX` and `dzGroup = 3`, `groupObjects` returns two objects of
count 1 and the labels `[2, 3]`: two 8-adjacent pixels of equal height carry
different component labels, because for a frontier pixel on row 0 the neighbour
loop of `addNeighbors` starts at the wrapped index `0 - 1` and does not run. -/
theorem groupObjects_splits_row_zero :
    (groupObjects 2 1 (ofRows [[1, 1]]) (ofRows [[5, 5]]) LONG_MAX 3).map
      (fun s => (toRows s.L 2 1, s.objects)) =
        some ([[2, 3]], [⟨2, 0, 0, 0, 0, 1⟩, ⟨3, 1, 1, 0, 0, 1⟩]) := by
  decide!

/-! ## `extendObjectBoundaries` -/

theorem extendMarkStep_inv (c : LabelConsts) (w h : Nat) (H : Image) (dz : Nat) (L0 : Image)
    (hT1 : c.LABEL_TEMP ≠ 1) (j i jj : Nat) (L : Image) (ii : Nat)
    (hL : ExtendInv c w h H dz L0 L) : ExtendInv c w h H dz L0 (extendMarkStep c H dz j i jj L ii) := by
  unfold extendMarkStep
  split_ifs with h1 h2
  · exact hL
  · intro a ha b hb
    by_cases hx : a = jj ∧ b = ii
    · obtain ⟨rfl, rfl⟩ := hx
      rw [setPx_same]
      refine ⟨fun e => absurd e hT1, ?_, Or.inr (Or.inr rfl)⟩
      intro e0
      exact absurd ((hL a ha b hb).2.1 e0) h1
    · rw [setPx_other L _ hx]
      exact hL a ha b hb
  · exact hL

theorem extendMark_inv (c : LabelConsts) (w h : Nat) (H : Image) (dz : Nat) (L0 : Image)
    (hT1 : c.LABEL_TEMP ≠ 1) (L : Image) (hL : ExtendInv c w h H dz L0 L) :
    ExtendInv c w h H dz L0 (extendMark c w h H dz L) := by
  unfold extendMark
  refine foldl_inv (ExtendInv c w h H dz L0) _ _ L hL ?_
  intro L j _ hL
  refine foldl_inv (ExtendInv c w h H dz L0) _ _ L hL ?_
  intro L i _ hL
  split_ifs
  · refine foldl_inv (ExtendInv c w h H dz L0) _ _ L hL ?_
    intro L jj _ hL
    refine foldl_inv (ExtendInv c w h H dz L0) _ _ L hL ?_
    intro L ii _ hL
    exact extendMarkStep_inv c w h H dz L0 hT1 j i jj L ii hL
  · exact hL

theorem extendPromote_inv (c : LabelConsts) (w h : Nat) (H : Image) (dz : Nat) (L0 : Image)
    (hw : w < 4294967296) (hh : h < 4294967296) (L : Image)
    (hL : ExtendInv c w h H dz L0 L) : ExtendInv c w h H dz L0 (extendPromote c w h H dz L) := by
  intro j hj i hi
  obtain ⟨p1, p2, p3⟩ := hL j hj i hi
  unfold extendPromote
  split_ifs with hc
  · refine ⟨fun _ => Or.inr ?_, fun _ => rfl, Or.inr (Or.inl rfl)⟩
    obtain ⟨_, hany⟩ := hc
    rw [List.any_eq_true] at hany
    obtain ⟨jj, hjj, hin⟩ := hany
    rw [List.any_eq_true] at hin
    obtain ⟨ii, hii, hd⟩ := hin
    simp only [decide_eq_true_eq] at hd
    have a1 := mem_nbrRangeU_adj (by omega : j < 4294967296) hjj
    have a2 := mem_nbrRangeU_adj (by omega : i < 4294967296) hii
    refine ⟨jj, ii, mem_nbrRangeU_lt hj hjj, mem_nbrRangeU_lt hi hii,
      ⟨by simp; omega, by simp; omega, by simp; omega, by simp; omega⟩, ?_, hd⟩
    intro e
    simp only [Prod.mk.injEq] at e
    obtain ⟨rfl, rfl⟩ := e
    omega
  · exact ⟨p1, p2, p3⟩

theorem extendPasses_inv (c : LabelConsts) (w h : Nat) (H : Image) (dz : Nat) (L0 : Image)
    (hw : w < 4294967296) (hh : h < 4294967296) (hT1 : c.LABEL_TEMP ≠ 1) (n : Nat)
    (h01 : ∀ j, j < h → ∀ i, i < w → L0 j i = LABEL_GROUND ∨ L0 j i = 1) :
    ExtendInv c w h H dz L0
      ((List.range n).foldl (fun L _ => extendPromote c w h H dz (extendMark c w h H dz L)) L0) := by
  refine foldl_inv (ExtendInv c w h H dz L0) _ _ L0 ?_ ?_
  · intro j hj i hi
    refine ⟨fun e => Or.inl e, fun e => e, ?_⟩
    rcases h01 j hj i hi with e | e
    · exact Or.inl e
    · exact Or.inr (Or.inl e)
  · intro L _ _ hL
    exact extendPromote_inv c w h H dz L0 hw hh _ (extendMark_inv c w h H dz L0 hT1 L hL)

/-- C20: for rasters whose sides fit an `unsigned int`, a scratch value
`LABEL_TEMP` other than `LABEL_GROUND` and 1, and labels that hold only
`LABEL_GROUND` and 1 on entry: after `extendObjectBoundaries` every pixel that
was 1 is 1, every pixel holds `LABEL_GROUND` or 1 (no `LABEL_TEMP` remains), and
every pixel that was `LABEL_GROUND` and is now 1 has an 8-neighbour `n` with
`H[p] - H[n] > dz / 2` (more than half of `dz`, hence also more than the whole
number `dz / 2`). -/
theorem extendObjectBoundaries_adds_on_step_edges (c : LabelConsts) (w h : Nat) (H L : Image)
    (dh dz : Nat) (hw : w < 4294967296) (hh : h < 4294967296)
    (hT0 : c.LABEL_TEMP ≠ LABEL_GROUND) (hT1 : c.LABEL_TEMP ≠ 1)
    (h01 : ∀ j, j < h → ∀ i, i < w → L j i = LABEL_GROUND ∨ L j i = 1) :
    ∀ j, j < h → ∀ i, i < w →
      (L j i = 1 → extendObjectBoundaries c w h H L dh dz j i = 1) ∧
      (extendObjectBoundaries c w h H L dh dz j i = LABEL_GROUND ∨
        extendObjectBoundaries c w h H L dh dz j i = 1) ∧
      extendObjectBoundaries c w h H L dh dz j i ≠ c.LABEL_TEMP ∧
      (L j i = LABEL_GROUND → extendObjectBoundaries c w h H L dh dz j i = 1 →
        ∃ jj ii, jj < h ∧ ii < w ∧ Adj8 (j, i) (jj, ii) ∧ (jj, ii) ≠ (j, i) ∧
          2 * ((H j i : Int) - (H jj ii : Int)) > (dz : Int) ∧ dz / 2 < H j i - H jj ii) := by
  intro j hj i hi
  obtain ⟨p1, p2, p3⟩ := extendPasses_inv c w h H dz L hw hh hT1 dh h01 j hj i hi
  have hdef : extendObjectBoundaries c w h H L dh dz j i =
      if (List.range dh).foldl
          (fun L _ => extendPromote c w h H dz (extendMark c w h H dz L)) L j i = c.LABEL_TEMP
      then LABEL_GROUND
      else (List.range dh).foldl
          (fun L _ => extendPromote c w h H dz (extendMark c w h H dz L)) L j i := rfl
  rw [hdef]
  split_ifs with ht
  · refine ⟨?_, Or.inl rfl, fun e => hT0 e.symm, ?_⟩
    · intro e1
      have := p2 e1
      rw [ht] at this
      exact absurd this hT1
    · intro _ e
      simp [LABEL_GROUND] at e
  · refine ⟨p2, ?_, ht, ?_⟩
    · rcases p3 with e | e | e
      · exact Or.inl e
      · exact Or.inr e
      · exact absurd e ht
    · intro e0 e1
      rcases p1 e1 with e | ⟨jj, ii, a, b, c1, d, e⟩
      · rw [e0] at e
        simp [LABEL_GROUND] at e
      · exact ⟨jj, ii, a, b, c1, d, e, by omega⟩

/-- C20, at a concrete raster (pixel (1,2) is `LABEL_GROUND` on entry and 1 on
return). -/
theorem extendObjectBoundaries_adds_on_step_edges_witness :
    extendObjectBoundaries sampleConsts 4 4 sampleStepHeights sampleStepLabels 2 20 1 2 = 1 ∧
    ∀ j, j < 4 → ∀ i, i < 4 →
      (sampleStepLabels j i = 1 →
        extendObjectBoundaries sampleConsts 4 4 sampleStepHeights sampleStepLabels 2 20 j i = 1) ∧
      (extendObjectBoundaries sampleConsts 4 4 sampleStepHeights sampleStepLabels 2 20 j i =
          LABEL_GROUND ∨
        extendObjectBoundaries sampleConsts 4 4 sampleStepHeights sampleStepLabels 2 20 j i = 1) ∧
      extendObjectBoundaries sampleConsts 4 4 sampleStepHeights sampleStepLabels 2 20 j i ≠
        sampleConsts.LABEL_TEMP ∧
      (sampleStepLabels j i = LABEL_GROUND →
        extendObjectBoundaries sampleConsts 4 4 sampleStepHeights sampleStepLabels 2 20 j i = 1 →
        ∃ jj ii, jj < 4 ∧ ii < 4 ∧ Adj8 (j, i) (jj, ii) ∧ (jj, ii) ≠ (j, i) ∧
          2 * ((sampleStepHeights j i : Int) - (sampleStepHeights jj ii : Int)) >
            ((20 : Nat) : Int) ∧
          20 / 2 < sampleStepHeights j i - sampleStepHeights jj ii) :=
  ⟨by decide!,
    extendObjectBoundaries_adds_on_step_edges sampleConsts 4 4 sampleStepHeights sampleStepLabels
      2 20 (by decide) (by decide) (by decide) (by decide) (by decide)⟩

/-! ## Flat ground -/

theorem mem_loopRangeLt {lo hi x : Nat} : x ∈ loopRangeLt lo hi ↔ lo ≤ x ∧ x < hi := by
  simp only [loopRangeLt, List.mem_map, List.mem_range]
  constructor
  · rintro ⟨k, hk, rfl⟩
    omega
  · rintro ⟨h1, h2⟩
    exact ⟨x - lo, by omega, by omega⟩

theorem clampStencil_lt {n : Nat} (hn : 0 < n) (j : Nat) (d : Int) : clampStencil n j d < n := by
  unfold clampStencil MIN MAX usub
  split_ifs <;> omega

theorem clampIdx_lt {n : Nat} (hn : 0 < n) (j : Nat) (d : Int) : clampIdx n j d < n := by
  unfold clampIdx MIN MAX usub
  split_ifs <;> omega

theorem stepEdge_flat {w h : Nat} {H : Image} {v : Nat}
    (hH : ∀ j, j < h → ∀ i, i < w → H j i = v) (dz : Nat) {j i : Nat} (hj : j < h) (hi : i < w)
    (dj di : Int) : stepEdge w h H dz j i dj di = false := by
  have hh : 0 < h := by omega
  have hw : 0 < w := by omega
  unfold stepEdge
  rw [hH j hj i hi, hH _ (clampStencil_lt hh j dj) _ (clampStencil_lt hw i di),
    hH _ (clampStencil_lt hh j (dj * 2)) _ (clampStencil_lt hw i (di * 2))]
  simp only [decide_eq_false_iff_not, not_and]
  intro _
  omega

theorem labelObjectBoundaries_flat {w h : Nat} {H : Image} {v : Nat}
    (hH : ∀ j, j < h → ∀ i, i < w → H j i = v) (L : Image) {dh : Nat} (dz : Nat) (hdh : 1 ≤ dh) :
    ∃ L1, labelObjectBoundaries w h H L dh dz = some L1 ∧
      ∀ j, j < h → ∀ i, i < w → L1 j i = LABEL_GROUND := by
  obtain ⟨L1, h1⟩ := labelObjectBoundaries_isSome w h H L dz hdh
  refine ⟨L1, h1, ?_⟩
  intro j hj i hi
  rw [labelObjectBoundaries_apply w h H L dz (by omega) (by omega) hdh] at h1
  simp only [Option.some.injEq] at h1
  subst h1
  have hno : ([-(dh : Int), 0, (dh : Int)].any fun dj =>
      [-(dh : Int), 0, (dh : Int)].any fun di => stepEdge w h H dz j i dj di) = false := by
    simp [stepEdge_flat hH dz hj hi]
  simp only [hno, Bool.false_eq_true, and_false, if_false, resetLabels, hj, hi, and_self, if_true]

theorem extendMark_ground (c : LabelConsts) {w h : Nat} (hw : 0 < w) (hh : 0 < h) (H : Image)
    (dz : Nat) {L : Image}
    (hL : ∀ j, j < h → ∀ i, i < w → L j i = LABEL_GROUND) : extendMark c w h H dz L = L := by
  unfold extendMark
  refine foldl_inv (fun L' : Image => L' = L) _ _ L rfl ?_
  intro L' j hj e
  subst e
  refine foldl_inv (fun L'' : Image => L'' = L') _ _ L' rfl ?_
  intro L'' i hi e
  subst e
  rw [mem_loopRangeLt] at hj hi
  have hjh : j < h := by
    have := hj.2
    unfold usub at this
    omega
  have hiw : i < w := by
    have := hi.2
    unfold usub at this
    omega
  rw [if_neg]
  rw [hL j hjh i hiw]
  simp [LABEL_GROUND]

theorem extendPromote_ground (c : LabelConsts) {w h : Nat} {H : Image} {v : Nat} (dz : Nat)
    (hH : ∀ j, j < h → ∀ i, i < w → H j i = v) {L : Image}
    (hL : ∀ j, j < h → ∀ i, i < w → L j i = LABEL_GROUND) :
    ∀ j, j < h → ∀ i, i < w → extendPromote c w h H dz L j i = LABEL_GROUND := by
  intro j hj i hi
  unfold extendPromote
  rw [if_neg]
  · exact hL j hj i hi
  · rintro ⟨_, hany⟩
    rw [List.any_eq_true] at hany
    obtain ⟨jj, hjj, hin⟩ := hany
    rw [List.any_eq_true] at hin
    obtain ⟨ii, hii, hd⟩ := hin
    simp only [decide_eq_true_eq] at hd
    rw [hH j hj i hi, hH jj (mem_nbrRangeU_lt hj hjj) ii (mem_nbrRangeU_lt hi hii)] at hd
    omega

theorem extendObjectBoundaries_ground (c : LabelConsts) {w h : Nat} (hw : 0 < w) (hh : 0 < h)
    {H : Image} {v : Nat} (dh dz : Nat) (hH : ∀ j, j < h → ∀ i, i < w → H j i = v) {L : Image}
    (hL : ∀ j, j < h → ∀ i, i < w → L j i = LABEL_GROUND) :
    ∀ j, j < h → ∀ i, i < w → extendObjectBoundaries c w h H L dh dz j i = LABEL_GROUND := by
  have hpass : ∀ j, j < h → ∀ i, i < w → (List.range dh).foldl
      (fun L _ => extendPromote c w h H dz (extendMark c w h H dz L)) L j i = LABEL_GROUND := by
    refine foldl_inv (fun L' : Image => ∀ j, j < h → ∀ i, i < w → L' j i = LABEL_GROUND) _ _ L hL ?_
    intro L' _ _ hL'
    rw [extendMark_ground c hw hh H dz hL']
    exact extendPromote_ground c dz hH hL'
  intro j hj i hi
  show (if (List.range dh).foldl
      (fun L _ => extendPromote c w h H dz (extendMark c w h H dz L)) L j i = c.LABEL_TEMP
    then LABEL_GROUND
    else (List.range dh).foldl
      (fun L _ => extendPromote c w h H dz (extendMark c w h H dz L)) L j i) = LABEL_GROUND
  split_ifs
  · rfl
  · exact hpass j hj i hi

theorem groupObjects_ground {w h : Nat} {L : Image} (H : Image) (maxCount : Int) (dz : Nat)
    (hL : ∀ j, j < h → ∀ i, i < w → L j i = LABEL_GROUND) :
    groupObjects w h L H maxCount dz = some ⟨L, [], 1⟩ := by
  have key : ∀ l : List (Nat × Nat), (∀ p ∈ l, p.1 < h ∧ p.2 < w) →
      l.foldl (groupStep w h H maxCount dz) (some ⟨L, [], 1⟩) = some ⟨L, [], 1⟩ := by
    intro l
    induction l with
    | nil => intro _; rfl
    | cons a t ih =>
      intro hl
      have ha := hl a (List.mem_cons_self a t)
      have hstep : groupStep w h H maxCount dz (some ⟨L, [], 1⟩) a = some ⟨L, [], 1⟩ := by
        simp only [groupStep, Option.some_bind]
        rw [if_pos (hL a.1 ha.1 a.2 ha.2)]
      rw [List.foldl_cons, hstep]
      exact ih (fun p hp => hl p (List.mem_cons_of_mem a hp))
  unfold groupObjects
  exact key _ (fun p hp => mem_scanOrder.1 hp)

theorem fill_flat {w h : Nat} {fill : VoidFill} (hfill : FillContract w h fill) (b : Bool)
    {img : Image} {v : Nat} (himg : ∀ j, j < h → ∀ i, i < w → img j i = v) :
    ∀ j, j < h → ∀ i, i < w → fill b img j i = v := by
  intro j hj i hi
  obtain ⟨⟨j1, i1, hj1, hi1, hlo⟩, ⟨j2, i2, hj2, hi2, hhi⟩⟩ := hfill.bounded b img j i hj hi
  rw [himg j1 hj1 i1 hi1] at hlo
  rw [himg j2 hj2 i2 hi2] at hhi
  omega

theorem groundIteration_flat (c : LabelConsts) {fill : VoidFill} {w h : Nat}
    (hw : 0 < w) (hh : 0 < h) (hfill : FillContract w h fill) (maxCount : Int) {dh : Nat} (dz : Nat) (hdh : 1 ≤ dh)
    {v : Nat} (s : GroundState) (k : Nat) (hs : FlatState w h v s) :
    ∃ s', groundIteration c fill w h maxCount dh dz (some s) k = some s' ∧ FlatState w h v s' := by
  have hdtm : ∀ j, j < h → ∀ i, i < w → s.dtm j i = v := fun j hj i hi => (hs j hj i hi).1
  obtain ⟨L1, h1, hL1⟩ := labelObjectBoundaries_flat hdtm s.L dz hdh
  have hL2 := extendObjectBoundaries_ground c hw hh dh dz hdtm hL1
  have hg := groupObjects_ground s.dtm maxCount dz hL2
  simp only [groundIteration, Option.some_bind, h1, hg, fillAllObjects, List.foldl_nil,
    Option.map_some']
  refine ⟨_, rfl, ?_⟩
  have hL4 : ∀ j, j < h → ∀ i, i < w →
      finishLabelImage (extendObjectBoundaries c w h s.dtm L1 dh dz) j i ≠ 1 := by
    intro j hj i hi
    simp [finishLabelImage, hL2 j hj i hi, LABEL_GROUND]
  have hD : ∀ j, j < h → ∀ i, i < w →
      (fun j i => if (if finishLabelImage (extendObjectBoundaries c w h s.dtm L1 dh dz) j i = 1
        then 1 else s.void j i) = 1 then 0 else s.dtm j i) j i = v := by
    intro j hj i hi
    simp only [if_neg (hL4 j hj i hi), (hs j hj i hi).2, (hs j hj i hi).1]
    simp
  intro j hj i hi
  refine ⟨fill_flat hfill _ hD j hj i hi, ?_⟩
  show (if finishLabelImage (extendObjectBoundaries c w h s.dtm L1 dh dz) j i = 1
    then 1 else s.void j i) = 0
  rw [if_neg (hL4 j hj i hi)]
  exact (hs j hj i hi).2

theorem groundIterations_flat (c : LabelConsts) {fill : VoidFill} {w h : Nat}
    (hw : 0 < w) (hh : 0 < h) (hfill : FillContract w h fill) (maxCount : Int) {dh : Nat} (dz : Nat) (hdh : 1 ≤ dh)
    {v : Nat} (ks : List Nat) (s : GroundState) (hs : FlatState w h v s) :
    ∃ s', ks.foldl (groundIteration c fill w h maxCount dh dz) (some s) = some s' ∧
      FlatState w h v s' := by
  obtain ⟨s', hs', hI⟩ := foldl_option_visited (groundIteration c fill w h maxCount dh dz)
    (fun _ s => FlatState w h v s) ks
    (fun _ k s _ hI => groundIteration_flat c hw hh hfill maxCount dz hdh s k hI) [] s hs
  exact ⟨s', hs', hI⟩

theorem spikeMinDiff_flat {w h : Nat} {dtm : Image} {v : Nat}
    (hd : ∀ j, j < h → ∀ i, i < w → dtm j i = v) {j i : Nat} (hj : j < h) (hi : i < w) :
    spikeMinDiff w h dtm j i = 0 := by
  have hh : 0 < h := by omega
  have hw : 0 < w := by omega
  have hz : ∀ d1 d2 : Int, dtm j i - dtm (clampIdx h j d1) (clampIdx w i d2) = 0 := by
    intro d1 d2
    rw [hd j hj i hi, hd _ (clampIdx_lt hh j d1) _ (clampIdx_lt hw i d2)]
    omega
  have hmin : ∀ m : Nat, MIN m 0 = 0 := by
    intro m
    unfold MIN
    split_ifs <;> omega
  simp only [spikeMinDiff, spikeOffsets, List.foldl_cons, List.foldl_nil, hz, hmin]

theorem removeSpikes_flat {w h : Nat} (dz : Nat) {v : Nat} (s : GroundState)
    (hs : FlatState w h v s) : FlatState w h v (removeSpikes w h dz s) := by
  unfold removeSpikes
  refine foldl_inv (FlatState w h v) _ _ s hs ?_
  intro s p hp hs
  rw [mem_scanOrder] at hp
  unfold spikeStep
  rw [spikeMinDiff_flat (fun j hj i hi => (hs j hj i hi).1) hp.1 hp.2, if_neg (by omega)]
  exact hs

theorem groundTail_flat {w h : Nat} {dsm : Image} (dz : Nat) {v : Nat}
    (hdsm : ∀ j, j < h → ∀ i, i < w → dsm j i = v) (s : GroundState) (hs : FlatState w h v s) :
    FlatState w h v (groundTail w h dsm dz s) := by
  unfold groundTail
  apply removeSpikes_flat
  intro j hj i hi
  have hge : s.dtm j i ≥ dsm j i := by
    rw [(hs j hj i hi).1, hdsm j hj i hi]
  constructor
  · show (if s.dtm j i ≥ dsm j i then dsm j i else s.dtm j i) = v
    rw [if_pos hge, hdsm j hj i hi]
  · show (if s.dtm j i ≥ dsm j i then 0 else s.void j i) = 0
    rw [if_pos hge]

theorem finishLabelImage_ground {L : Image} {j i : Nat} (hz : L j i = LABEL_GROUND) :
    finishLabelImage L j i = LABEL_GROUND := by
  unfold finishLabelImage
  rw [if_neg (by rw [hz]; simp)]
  exact hz

/-- On labels that are `LABEL_GROUND` throughout the raster `classifyNonGround`
returns labels that are `LABEL_GROUND` throughout the raster. -/
theorem classifyNonGround_ground (w h : Nat) (gsd : ℚ) (dsm dtm : Image) {L : Image}
    (dz agl : Nat) (minAreaMeters : ℚ) (hL : ∀ j, j < h → ∀ i, i < w → L j i = LABEL_GROUND) :
    ∃ r, classifyNonGround w h gsd dsm dtm L dz agl minAreaMeters = some r ∧
      ∀ j, j < h → ∀ i, i < w → r j i = LABEL_GROUND := by
  have h1 : ∀ j, j < h → ∀ i, i < w → aglCull dsm dtm L agl j i = LABEL_GROUND := by
    intro j hj i hi
    unfold aglCull
    rw [if_neg (by rw [hL j hj i hi]; simp)]
    exact hL j hj i hi
  have hg1 := groupObjects_ground dsm LONG_MAX (dz / 2) h1
  have h4 : ∀ j, j < h → ∀ i, i < w →
      finishLabelImage (dilateFromTemp w h (aglCull dsm dtm L agl)
        (erodeTemp w h (aglCull dsm dtm L agl))) j i = LABEL_GROUND := by
    intro j hj i hi
    have hd : dilateFromTemp w h (aglCull dsm dtm L agl)
        (erodeTemp w h (aglCull dsm dtm L agl)) j i = LABEL_GROUND := by
      unfold dilateFromTemp
      split_ifs
      · rfl
      · exact h1 j hj i hi
    exact finishLabelImage_ground hd
  have hg2 := groupObjects_ground dsm LONG_MAX INT_MAX h4
  refine ⟨finishLabelImage (finishLabelImage (dilateFromTemp w h (aglCull dsm dtm L agl)
    (erodeTemp w h (aglCull dsm dtm L agl)))), by
    simp only [classifyNonGround, hg1, Option.some_bind, List.foldl_nil, hg2, Option.map_some'], ?_⟩
  intro j hj i hi
  exact finishLabelImage_ground (h4 j hj i hi)

/-- C13 (flat ground): for every non-empty raster whose DSM and initial DTM are
the same constant `v` (positive or not), every `dh >= 1` and `dz` and every void
fill that meets the contract of section 4.2, `classifyGround` returns a DTM equal to the DSM and
labels `LABEL_GROUND` at every pixel, and `classifyNonGround` on that result
returns labels `LABEL_GROUND` at every pixel. -/
theorem flat_ground_stays_ground (c : LabelConsts) (fill : VoidFill) (w h : Nat) (gsd : ℚ)
    (L dsm dtm : Image) (dh dz agl : Nat) (minAreaMeters : ℚ) (v : Nat)
    (hw : 0 < w) (hh : 0 < h) (hdh : 1 ≤ dh) (hfill : FillContract w h fill)
    (hdsm : ∀ j, j < h → ∀ i, i < w → dsm j i = v)
    (hdtm : ∀ j, j < h → ∀ i, i < w → dtm j i = v) :
    ∃ r, classifyGround c fill w h gsd L dsm dtm dh dz = some r ∧
      (∀ j, j < h → ∀ i, i < w → r.dtm j i = dsm j i ∧ r.L j i = LABEL_GROUND) ∧
      ∃ r2, classifyNonGround w h gsd dsm r.dtm r.L dz agl minAreaMeters = some r2 ∧
        ∀ j, j < h → ∀ i, i < w → r2 j i = LABEL_GROUND := by
  have h0 : FlatState w h v ⟨L, fill true dtm, fun _ _ => 0⟩ :=
    fun j hj i hi => ⟨fill_flat hfill true hdtm j hj i hi, rfl⟩
  obtain ⟨s, hs, hflat⟩ := groundIterations_flat c hw hh hfill
    (floatToInt 64 (floatAreaQuot 10000 gsd)) dz hdh (List.range 5) _ h0
  have ht := groundTail_flat dz hdsm s hflat
  have hzero : ∀ j, j < h → ∀ i, i < w → zeroVoids (groundTail w h dsm dz s) j i = v := by
    intro j hj i hi
    unfold zeroVoids
    rw [if_neg (by rw [(ht j hj i hi).2]; simp)]
    exact (ht j hj i hi).1
  have hlab : ∀ j, j < h → ∀ i, i < w →
      markVoids (groundTail w h dsm dz s).void j i = LABEL_GROUND := by
    intro j hj i hi
    unfold markVoids
    rw [if_neg (by rw [(ht j hj i hi).2]; simp)]
  refine ⟨⟨markVoids (groundTail w h dsm dz s).void,
    fill false (zeroVoids (groundTail w h dsm dz s)), (groundTail w h dsm dz s).void⟩, ?_, ?_, ?_⟩
  · simp only [classifyGround, hs, Option.map_some']
  · intro j hj i hi
    refine ⟨?_, hlab j hj i hi⟩
    show fill false (zeroVoids (groundTail w h dsm dz s)) j i = dsm j i
    rw [fill_flat hfill false hzero j hj i hi, hdsm j hj i hi]
  · exact classifyNonGround_ground w h gsd dsm _ dz agl minAreaMeters hlab

/-- C13, at a concrete raster. -/
theorem flat_ground_stays_ground_witness :
    ∃ r, classifyGround sampleConsts (fillWithMax 2 1) 2 1 1 (ofRows [[1, 0]]) (ofRows [[7, 7]])
        (ofRows [[7, 7]]) 3 20 = some r ∧
      (∀ j, j < 1 → ∀ i, i < 2 → r.dtm j i = ofRows [[7, 7]] j i ∧ r.L j i = LABEL_GROUND) ∧
      ∃ r2, classifyNonGround 2 1 1 (ofRows [[7, 7]]) r.dtm r.L 20 20 4 = some r2 ∧
        ∀ j, j < 1 → ∀ i, i < 2 → r2 j i = LABEL_GROUND :=
  flat_ground_stays_ground sampleConsts (fillWithMax 2 1) 2 1 1 (ofRows [[1, 0]])
    (ofRows [[7, 7]]) (ofRows [[7, 7]]) 3 20 20 4 7 (by decide) (by decide)
    (by decide) fillWithMax_contract_2_1 (by decide) (by decide)

/-! ## Components are height-similar chains -/

theorem connectedH_mono {w h : Nat} {L L' H : Image} {dz v : Nat}
    (hsub : ∀ j i, j < h → i < w → L j i = v → L' j i = v) {p q : Nat × Nat}
    (hc : ConnectedH w h L H dz v p q) : ConnectedH w h L' H dz v p q := by
  refine Relation.ReflTransGen.mono ?_ hc
  rintro a b ⟨⟨h1, h2, h3, h4⟩, h5⟩
  exact ⟨⟨h1, h2, hsub _ _ h1 h2 h3, h4⟩, h5⟩

/-- Invariant rule for the `while` loop of `groupObjects`: a property of the
wave state kept by every accepted neighbour, by handing the new frontier on and
by stopping, holds for the result. -/
theorem growLoop_inv (w h : Nat) (H : Image) (dz : Nat) (maxCount : Int)
    (P : List PixelType → GrowState → Prop)
    (hstep : ∀ nb st p jj ii, p ∈ nb → jj ∈ nbrRangeU p.j h → ii ∈ nbrRangeU p.i w → P nb st →
      P nb (addNeighborStep H dz p.j p.i jj st ii))
    (hnext : ∀ nb st, P nb st → P st.newNeighbors ⟨st.L, st.obj, []⟩)
    (hstop : ∀ nb st, P nb st → P nb ⟨st.L, st.obj, []⟩) :
    ∀ (fuel : Nat) (nb : List PixelType) (L : Image) (obj : ObjectType) (r : Image × ObjectType),
      P nb ⟨L, obj, []⟩ → growLoop w h H dz maxCount fuel nb L obj = some r →
      ∃ nb', P nb' ⟨r.1, r.2, []⟩ := by
  intro fuel
  induction fuel with
  | zero => intro nb L obj r _ hr; simp [growLoop] at hr
  | succ n ih =>
    intro nb L obj r hP hr
    have hinv : P nb (addNeighborsSweep w h H dz nb L obj) :=
      addNeighborsSweep_inv w h H dz nb (P nb) L obj hP
        (fun st p jj ii hp hjj hii hst => hstep nb st p jj ii hp hjj hii hst)
    unfold growLoop at hr
    simp only [addNeighbors] at hr
    split_ifs at hr with hlen hmax hkeep hmax2 hkeep2
    · simp only [Option.some.injEq] at hr
      subst hr
      exact ⟨_, hstop _ _ hinv⟩
    · exact ih _ _ _ r (hnext _ _ hinv) hr
    · simp only [Option.some.injEq] at hr
      subst hr
      exact ⟨_, hstop _ _ hinv⟩
    · simp only [Option.some.injEq] at hr
      subst hr
      exact ⟨_, hstop _ _ hinv⟩
    · simp at hkeep2
    · simp only [Option.some.injEq] at hr
      subst hr
      exact ⟨_, hstop _ _ hinv⟩

theorem growH_step (w h : Nat) (hw : w < 4294967296) (hh : h < 4294967296) (H : Image)
    (dz v : Nat) (seed : Nat × Nat) (nb : List PixelType) (st : GrowState) (p : PixelType)
    (jj ii : Nat) (hp : p ∈ nb) (hjj : jj ∈ nbrRangeU p.j h) (hii : ii ∈ nbrRangeU p.i w)
    (hst : GrowH w h H dz v seed nb st) :
    GrowH w h H dz v seed nb (addNeighborStep H dz p.j p.i jj st ii) := by
  obtain ⟨hnb, hnew, hconn⟩ := hst
  obtain ⟨hpj, hpi, hpl⟩ := hnb p hp
  have hjj' := mem_nbrRangeU_lt hpj hjj
  have hii' := mem_nbrRangeU_lt hpi hii
  unfold addNeighborStep
  split_ifs with h1 h2
  · exact ⟨hnb, hnew, hconn⟩
  · exact ⟨hnb, hnew, hconn⟩
  · have hkeep : ∀ a b, st.L a b = v → setPx st.L jj ii (st.L p.j p.i) a b = v := by
      intro a b hab
      unfold setPx
      split_ifs
      · exact hpl
      · exact hab
    have hnewv : setPx st.L jj ii (st.L p.j p.i) jj ii = v := by
      rw [setPx_same]
      exact hpl
    have a1 := mem_nbrRangeU_adj (by omega : p.j < 4294967296) hjj
    have a2 := mem_nbrRangeU_adj (by omega : p.i < 4294967296) hii
    refine ⟨?_, ?_, ?_⟩
    · intro q hq
      obtain ⟨a, b, c⟩ := hnb q hq
      exact ⟨a, b, hkeep _ _ c⟩
    · intro q hq
      simp only [List.mem_append, List.mem_singleton] at hq
      rcases hq with hq | rfl
      · obtain ⟨a, b, c⟩ := hnew q hq
        exact ⟨a, b, hkeep _ _ c⟩
      · exact ⟨hjj', hii', hnewv⟩
    · intro a b ha hb hab
      have hab' : setPx st.L jj ii (st.L p.j p.i) a b = v := hab
      show ConnectedH w h (setPx st.L jj ii (st.L p.j p.i)) H dz v seed (a, b)
      by_cases hx : a = jj ∧ b = ii
      · obtain ⟨rfl, rfl⟩ := hx
        have hc := connectedH_mono (fun x y _ _ e => hkeep x y e) (hconn p.j p.i hpj hpi hpl)
        refine Relation.ReflTransGen.tail hc ⟨⟨hjj', hii', hnewv, ?_⟩, ?_⟩
        · exact ⟨by simp; omega, by simp; omega, by simp; omega, by simp; omega⟩
        · show absDiff (H a b) (H p.j p.i) ≤ dz
          omega
      · rw [setPx_other st.L _ hx] at hab'
        exact connectedH_mono (fun x y _ _ e => hkeep x y e) (hconn a b ha hb hab')

theorem groupStep_cases (w h : Nat) (H : Image) (maxCount : Int) (dz : Nat) (s s' : GroupState)
    (p : Nat × Nat) (hs : groupStep w h H maxCount dz (some s) p = some s') :
    s' = s ∨ (s.L p.1 p.2 = 1 ∧ ∃ r,
      growLoop w h H dz maxCount (w * h + 1) [⟨p.2, p.1⟩] (setPx s.L p.1 p.2 (s.label + 1))
        ⟨s.label + 1, p.2, p.2, p.1, p.1, 1⟩ = some r ∧
      s' = ⟨r.1, s.objects ++ [r.2], s.label + 1⟩) := by
  simp only [groupStep, Option.some_bind, LABEL_GROUND] at hs
  split_ifs at hs with h0 h1
  · left
    simpa using hs.symm
  · left
    simpa using hs.symm
  · right
    refine ⟨by omega, ?_⟩
    rw [Option.map_eq_some'] at hs
    obtain ⟨r, hr, e⟩ := hs
    exact ⟨r, hr, e.symm⟩

theorem growP_seed {w h : Nat} {Lin : Image} {s : GroupState} (hs : ScanInv w h Lin s)
    {j i : Nat} (hj : j < h) (hi : i < w) (h1 : s.L j i = 1) :
    GrowP w h s.L (s.label + 1) (j, i) [⟨i, j⟩]
      ⟨setPx s.L j i (s.label + 1), ⟨s.label + 1, i, i, j, j, 1⟩, []⟩ := by
  have hfresh : ∀ a b, a < h → b < w → s.L a b ≠ s.label + 1 := by
    intro a b ha hb
    have := hs.bounded a b ha hb
    omega
  have hlp := hs.label_pos
  refine ⟨by omega, rfl, ?_, by simp, objAt_seed hj hi hfresh, ?_⟩
  · intro q hq
    simp only [List.mem_singleton] at hq
    subst hq
    exact ⟨hj, hi, setPx_same _ _ _ _⟩
  · intro a b
    by_cases hx : a = j ∧ b = i
    · obtain ⟨rfl, rfl⟩ := hx
      exact Or.inr ⟨hj, hi, by omega, setPx_same _ _ _ _⟩
    · exact Or.inl (setPx_other _ _ hx)

theorem groupStep_scanH (w h : Nat) (hw : w < 4294967296) (hh : h < 4294967296) (Lin H : Image)
    (maxCount : Int) (dz : Nat) (s : GroupState) (p : Nat × Nat) (hp : p.1 < h ∧ p.2 < w)
    (hs : ScanInv w h Lin s) (hH : ScanH w h Lin H dz s) :
    ∃ s', groupStep w h H maxCount dz (some s) p = some s' ∧ ScanInv w h Lin s' ∧
      ScanH w h Lin H dz s' := by
  obtain ⟨s', e, hI, _, _⟩ := groupStep_scanInv w h Lin H maxCount dz s p hp hs
  refine ⟨s', e, hI, ?_⟩
  rcases groupStep_cases w h H maxCount dz s s' p e with rfl | ⟨h1, r, hr, rfl⟩
  · exact hH
  · obtain ⟨j, i⟩ := p
    obtain ⟨hj, hi⟩ := hp
    simp only at hj hi h1 hr
    obtain ⟨nbP, _, hlab, _, _, hO, hF⟩ :=
      growLoop_growP w h s.L (s.label + 1) (j, i) H dz maxCount _ _ _ _ r
        (growP_seed hs hj hi h1) hr
    simp only at hlab hO hF
    have hfresh : ∀ a b, a < h → b < w → s.L a b ≠ s.label + 1 := by
      intro a b ha hb
      have := hs.bounded a b ha hb
      omega
    have hH0 : GrowH w h H dz (s.label + 1) (j, i) [⟨i, j⟩]
        ⟨setPx s.L j i (s.label + 1), ⟨s.label + 1, i, i, j, j, 1⟩, []⟩ := by
      refine ⟨?_, by simp, ?_⟩
      · intro q hq
        simp only [List.mem_singleton] at hq
        subst hq
        exact ⟨hj, hi, setPx_same _ _ _ _⟩
      · intro a b ha hb hab
        have hab' : setPx s.L j i (s.label + 1) a b = s.label + 1 := hab
        by_cases hx : a = j ∧ b = i
        · obtain ⟨rfl, rfl⟩ := hx
          exact Relation.ReflTransGen.refl
        · rw [setPx_other _ _ hx] at hab'
          exact absurd hab' (hfresh a b ha hb)
    obtain ⟨nbH, _, _, hconn⟩ := growLoop_inv w h H dz maxCount
      (GrowH w h H dz (s.label + 1) (j, i))
      (fun nb st q jj ii hq hjj hii hst =>
        growH_step w h hw hh H dz (s.label + 1) (j, i) nb st q jj ii hq hjj hii hst)
      (fun nb st hst => ⟨hst.2.1, by simp, hst.2.2⟩)
      (fun nb st hst => ⟨hst.1, by simp, hst.2.2⟩) _ _ _ _ r hH0 hr
    simp only at hconn
    intro obj hobj
    simp only [List.mem_append, List.mem_singleton] at hobj
    rcases hobj with hobj | rfl
    · obtain ⟨seed, a, b, c1, d, hc⟩ := hH obj hobj
      obtain ⟨h2, hle, _⟩ := hs.objs obj hobj
      have hkeepL : ∀ x y, x < h → y < w → s.L x y = obj.label → r.1 x y = obj.label := by
        intro x y _ _ exy
        rcases hF x y with f | ⟨_, _, f0, _⟩
        · rw [f, exy]
        · omega
      have hback : ∀ x y, r.1 x y = obj.label → s.L x y = obj.label := by
        intro x y exy
        rcases hF x y with f | ⟨_, _, _, f⟩
        · rw [← f, exy]
        · omega
      refine ⟨seed, a, b, c1, hkeepL _ _ a b d, ?_⟩
      intro x hx y hy exy
      exact connectedH_mono hkeepL (hc x hx y hy (hback x y exy))
    · refine ⟨(j, i), hj, hi, ?_, ?_, ?_⟩
      · rcases hs.frame j i with f | ⟨_, _, _, f⟩
        · rw [← f, h1]
        · omega
      · show r.1 j i = r.2.label
        rw [hlab]
        exact hO.seed_in.2.2.trans hlab
      · intro x hx y hy exy
        have exy' : r.1 x y = s.label + 1 := by
          have : r.1 x y = r.2.label := exy
          rw [this, hlab]
        show ConnectedH w h r.1 H dz r.2.label (j, i) (x, y)
        rw [hlab]
        exact hconn x y hx hy exy'

/-- C17: for rasters whose sides fit an `unsigned int` and labels that hold only
`LABEL_GROUND` and 1 on entry, `groupObjects` returns, and every returned
object has a seed pixel (labelled 1 on entry, carrying the object's label on
return) to which every pixel carrying the label is joined by a chain of
8-adjacent pixels that all carry the label and whose consecutive heights differ
by at most `dzGroup`. -/
theorem groupObjects_height_similar_chains (w h : Nat) (L H : Image) (maxCount : Int)
    (dzGroup : Nat) (hw : w < 4294967296) (hh : h < 4294967296)
    (h01 : ∀ j, j < h → ∀ i, i < w → L j i = LABEL_GROUND ∨ L j i = 1) :
    ∃ r, groupObjects w h L H maxCount dzGroup = some r ∧
      ∀ obj ∈ r.objects, ∃ seed : Nat × Nat, seed.1 < h ∧ seed.2 < w ∧ L seed.1 seed.2 = 1 ∧
        r.L seed.1 seed.2 = obj.label ∧
        ∀ j, j < h → ∀ i, i < w → r.L j i = obj.label →
          ConnectedH w h r.L H dzGroup obj.label seed (j, i) := by
  have key := foldl_option_visited (groupStep w h H maxCount dzGroup)
    (fun _ (s : GroupState) => ScanInv w h L s ∧ ScanH w h L H dzGroup s) (scanOrder w h)
    (by
      intro pre p s hp hs
      rw [mem_scanOrder] at hp
      exact groupStep_scanH w h hw hh L H maxCount dzGroup s p hp hs.1 hs.2)
    [] ⟨L, [], 1⟩
    ⟨{ label_pos := le_refl 1
       bounded := fun j i hj hi => by
         rcases h01 j hj i hi with e | e <;> simp [e, LABEL_GROUND]
       objs := by intro obj hobj; simp at hobj
       owned := by
         intro j i hj hi h2
         simp only at h2
         rcases h01 j hj i hi with e | e <;> simp [e, LABEL_GROUND] at h2
       frame := fun j i => Or.inl rfl }, by intro obj hobj; simp at hobj⟩
  obtain ⟨s, hs, _, hH⟩ := key
  exact ⟨s, hs, hH⟩

/-- C17, at a concrete raster. -/
theorem groupObjects_height_similar_chains_witness :
    ∃ r, groupObjects 3 3 (ofRows [[0, 0, 0], [0, 1, 1], [0, 1, 0]])
        (ofRows [[5, 5, 5], [5, 30, 32], [5, 29, 5]]) 100 3 = some r ∧
      ∀ obj ∈ r.objects, ∃ seed : Nat × Nat, seed.1 < 3 ∧ seed.2 < 3 ∧
        ofRows [[0, 0, 0], [0, 1, 1], [0, 1, 0]] seed.1 seed.2 = 1 ∧
        r.L seed.1 seed.2 = obj.label ∧
        ∀ j, j < 3 → ∀ i, i < 3 → r.L j i = obj.label →
          ConnectedH 3 3 r.L (ofRows [[5, 5, 5], [5, 30, 32], [5, 29, 5]]) 3 obj.label seed
            (j, i) :=
  groupObjects_height_similar_chains 3 3 (ofRows [[0, 0, 0], [0, 1, 1], [0, 1, 0]])
    (ofRows [[5, 5, 5], [5, 30, 32], [5, 29, 5]]) 100 3 (by decide) (by decide) (by decide)

/-! ## Termination of `groupObjects` with a count of the growth waves -/

theorem waveInv_step (w h : Nat) (L0 H : Image) (dz : Nat) (nb : List PixelType) (st : GrowState)
    (p : PixelType) (jj ii : Nat) (hp : p ∈ nb) (hjj : jj ∈ nbrRangeU p.j h)
    (hii : ii ∈ nbrRangeU p.i w) (hst : WaveInv w h L0 nb st) :
    WaveInv w h L0 nb (addNeighborStep H dz p.j p.i jj st ii) := by
  obtain ⟨hT, hR, hN⟩ := hst
  refine ⟨termInv_step w h _ H dz nb st p jj ii hp hjj hii hT, ?_, ?_⟩
  · obtain ⟨hnb, _, _⟩ := hT
    obtain ⟨_, _, hpl⟩ := hnb p hp
    unfold addNeighborStep
    split_ifs with h1 h2
    · exact hR
    · exact hR
    · intro a b
      show setPx st.L jj ii (st.L p.j p.i) a b = L0 a b ∨
        (L0 a b ≤ 1 ∧ 2 ≤ setPx st.L jj ii (st.L p.j p.i) a b)
      by_cases hx : a = jj ∧ b = ii
      · obtain ⟨rfl, rfl⟩ := hx
        rw [setPx_same]
        right
        rcases hR a b with e | ⟨e, e'⟩
        · exact ⟨by omega, hpl⟩
        · omega
      · rw [setPx_other st.L _ hx]
        exact hR a b
  · unfold addNeighborStep
    split_ifs with h1 h2
    · exact hN
    · exact hN
    · intro q hq
      simp only [List.mem_append, List.mem_singleton] at hq
      rcases hq with hq | rfl
      · exact hN q hq
      · show L0 jj ii ≤ 1
        rcases hR jj ii with e | ⟨e, _⟩
        · omega
        · exact e

theorem waveInv_sweep (w h : Nat) (H : Image) (dz : Nat) (nb : List PixelType) (L : Image)
    (obj : ObjectType) (hnb : ∀ p ∈ nb, p.j < h ∧ p.i < w ∧ 2 ≤ L p.j p.i) :
    WaveInv w h L nb (addNeighborsSweep w h H dz nb L obj) :=
  addNeighborsSweep_inv w h H dz nb (WaveInv w h L nb) L obj
    ⟨⟨hnb, by simp, by simp⟩, fun _ _ => Or.inl rfl, by simp⟩
    (fun st p jj ii hp hjj hii hst => waveInv_step w h L H dz nb st p jj ii hp hjj hii hst)

theorem relabelled_trans {L0 L1 L2 : Image} (h1 : Relabelled L0 L1) (h2 : Relabelled L1 L2) :
    Relabelled L0 L2 := by
  intro j i
  rcases h2 j i with e | ⟨e, e'⟩
  · rw [e]
    exact h1 j i
  · rcases h1 j i with f | ⟨f, f'⟩
    · right
      exact ⟨by omega, e'⟩
    · omega

/-- The ghost counter does not change the loop: dropping it gives `growLoop`. -/
theorem growLoopWaves_erase (w h : Nat) (H : Image) (dz : Nat) (maxCount : Int) :
    ∀ (fuel : Nat) (nb : List PixelType) (L : Image) (obj : ObjectType),
      (growLoopWaves w h H dz maxCount fuel nb L obj).map (fun x => (x.1, x.2.1)) =
        growLoop w h H dz maxCount fuel nb L obj := by
  intro fuel
  induction fuel with
  | zero => intro nb L obj; rfl
  | succ n ih =>
    intro nb L obj
    unfold growLoopWaves growLoop
    simp only
    split_ifs
    · rfl
    · rw [← ih, Option.map_map]
      rfl
    · rfl

/-- A seed's loop ends within the fuel, only relabels, and its number of waves
is at most one more than the number of free pixels it used up. -/
theorem growLoopWaves_bound (w h : Nat) (H : Image) (dz : Nat) (maxCount : Int) :
    ∀ (fuel : Nat) (nb : List PixelType) (L : Image) (obj : ObjectType),
      (∀ p ∈ nb, p.j < h ∧ p.i < w ∧ 2 ≤ L p.j p.i) → freeCount w h L < fuel →
      ∃ r, growLoopWaves w h H dz maxCount fuel nb L obj = some r ∧ Relabelled L r.1 ∧
        r.2.2 + freeCount w h r.1 ≤ freeCount w h L + 1 := by
  intro fuel
  induction fuel with
  | zero => intro nb L obj _ hlt; omega
  | succ n ih =>
    intro nb L obj hnb hlt
    obtain ⟨⟨_, hnew, hcnt⟩, hR, _⟩ := waveInv_sweep w h H dz nb L obj hnb
    have hstop : ∃ r, some ((addNeighborsSweep w h H dz nb L obj).L,
        (addNeighborsSweep w h H dz nb L obj).obj, 1) = some r ∧ Relabelled L r.1 ∧
        r.2.2 + freeCount w h r.1 ≤ freeCount w h L + 1 :=
      ⟨_, rfl, hR, by dsimp only; omega⟩
    unfold growLoopWaves
    simp only [addNeighbors]
    split_ifs with hlen hmax hkeep hmax2 hkeep2
    · exact hstop
    · obtain ⟨r, hr, hRr, hb⟩ := ih _ _ (addNeighborsSweep w h H dz nb L obj).obj hnew
        (by omega)
      rw [hr]
      refine ⟨_, rfl, relabelled_trans hR hRr, ?_⟩
      show r.2.2 + 1 + freeCount w h r.1 ≤ freeCount w h L + 1
      omega
    · exact hstop
    · exact hstop
    · simp at hkeep2
    · exact hstop

theorem groupStepWaves_erase (w h : Nat) (H : Image) (maxCount : Int) (dz : Nat)
    (st : Option (GroupState × Nat)) (p : Nat × Nat) :
    (groupStepWaves w h H maxCount dz st p).map Prod.fst =
      groupStep w h H maxCount dz (st.map Prod.fst) p := by
  cases st with
  | none => rfl
  | some s =>
    simp only [groupStepWaves, groupStep, Option.some_bind, Option.map_some']
    split_ifs
    · rfl
    · rfl
    · rw [← growLoopWaves_erase, Option.map_map, Option.map_map]
      rfl

/-- The ghost counter does not change the sweep: dropping it gives `groupObjects`. -/
theorem groupObjectsWaves_erase (w h : Nat) (L H : Image) (maxCount : Int) (dz : Nat) :
    (groupObjectsWaves w h L H maxCount dz).map Prod.fst = groupObjects w h L H maxCount dz := by
  have key : ∀ (l : List (Nat × Nat)) (st : Option (GroupState × Nat)),
      (l.foldl (groupStepWaves w h H maxCount dz) st).map Prod.fst =
        l.foldl (groupStep w h H maxCount dz) (st.map Prod.fst) := by
    intro l
    induction l with
    | nil => intro st; rfl
    | cons a t ih =>
      intro st
      rw [List.foldl_cons, List.foldl_cons, ih, groupStepWaves_erase]
  exact key _ _

theorem groupStepWaves_bound (w h : Nat) (Lin H : Image) (maxCount : Int) (dz : Nat)
    (s : GroupState × Nat) (p : Nat × Nat) (hp : p.1 < h ∧ p.2 < w)
    (hs : 1 ≤ s.1.label ∧ Relabelled Lin s.1.L ∧
      s.2 + freeCount w h s.1.L ≤ freeCount w h Lin) :
    ∃ s', groupStepWaves w h H maxCount dz (some s) p = some s' ∧
      (1 ≤ s'.1.label ∧ Relabelled Lin s'.1.L ∧
        s'.2 + freeCount w h s'.1.L ≤ freeCount w h Lin) := by
  obtain ⟨hlab, hR, hb⟩ := hs
  simp only [groupStepWaves, Option.some_bind, LABEL_GROUND]
  split_ifs with h0 h1
  · exact ⟨s, rfl, hlab, hR, hb⟩
  · exact ⟨s, rfl, hlab, hR, hb⟩
  · have hle : s.1.L p.1 p.2 ≤ 1 := by omega
    have hfree := freeCount_setPx s.1.L hp.1 hp.2 hle (by omega : 2 ≤ s.1.label + 1)
      (w := w) (h := h)
    obtain ⟨r, hr, hRr, hbr⟩ := growLoopWaves_bound w h H dz maxCount (w * h + 1) [⟨p.2, p.1⟩]
      (setPx s.1.L p.1 p.2 (s.1.label + 1)) ⟨s.1.label + 1, p.2, p.2, p.1, p.1, 1⟩
      (by
        intro q hq
        simp only [List.mem_singleton] at hq
        subst hq
        exact ⟨hp.1, hp.2, by simp [setPx]; exact hlab⟩)
      (by have := freeCount_le w h (setPx s.1.L p.1 p.2 (s.1.label + 1)); omega)
    have hseed : Relabelled s.1.L (setPx s.1.L p.1 p.2 (s.1.label + 1)) := by
      intro a b
      by_cases hx : a = p.1 ∧ b = p.2
      · obtain ⟨rfl, rfl⟩ := hx
        right
        rw [setPx_same]
        exact ⟨hle, by omega⟩
      · exact Or.inl (setPx_other _ _ hx)
    rw [hr]
    refine ⟨_, rfl, ?_, ?_, ?_⟩
    · show 1 ≤ s.1.label + 1
      omega
    · exact relabelled_trans hR (relabelled_trans hseed hRr)
    · show s.2 + r.2.2 + freeCount w h r.1 ≤ freeCount w h Lin
      omega

/-- C19: `groupObjects` terminates on every raster.  With a ghost counter of the
growth waves (calls of `addNeighbors`) the sweep returns, without the counter
it is `groupObjects`, the number of waves over all seeds is at most the number
of pixels `w * h`, and every pixel either keeps its value or is relabelled once,
from a value of at most 1 to a label of at least 2.  Each single wave on a
frontier of in-raster pixels labelled 2 or more only relabels in that way, and
when it continues the loop it relabels at least one in-raster pixel. -/
theorem groupObjects_waves_bounded_by_pixels (w h : Nat) (L H : Image) (maxCount : Int)
    (dzGroup : Nat) :
    (∃ r n, groupObjectsWaves w h L H maxCount dzGroup = some (r, n) ∧
      groupObjects w h L H maxCount dzGroup = some r ∧ n ≤ w * h ∧ Relabelled L r.L) ∧
    (∀ (nb : List PixelType) (L1 : Image) (obj : ObjectType),
      (∀ p ∈ nb, p.j < h ∧ p.i < w ∧ 2 ≤ L1 p.j p.i) →
      Relabelled L1 (addNeighbors w h H dzGroup nb L1 obj).L ∧
      ((addNeighbors w h H dzGroup nb L1 obj).keep = true →
        ∃ j i, j < h ∧ i < w ∧ L1 j i ≤ 1 ∧
          2 ≤ (addNeighbors w h H dzGroup nb L1 obj).L j i)) := by
  constructor
  · obtain ⟨s, hs, _, hR, hb⟩ := foldl_option_visited (groupStepWaves w h H maxCount dzGroup)
      (fun _ (s : GroupState × Nat) => 1 ≤ s.1.label ∧ Relabelled L s.1.L ∧
        s.2 + freeCount w h s.1.L ≤ freeCount w h L) (scanOrder w h)
      (fun _ p s hp hI =>
        groupStepWaves_bound w h L H maxCount dzGroup s p (mem_scanOrder.1 hp) hI)
      [] (⟨L, [], 1⟩, 0) ⟨le_refl 1, fun _ _ => Or.inl rfl, by simp⟩
    have hs' : groupObjectsWaves w h L H maxCount dzGroup = some (s.1, s.2) := hs
    refine ⟨s.1, s.2, hs', ?_, ?_, hR⟩
    · rw [← groupObjectsWaves_erase, hs']
      rfl
    · have := freeCount_le w h L
      omega
  · intro nb L1 obj hnb
    obtain ⟨⟨_, hnew, _⟩, hR, hN⟩ := waveInv_sweep w h H dzGroup nb L1 obj hnb
    have hL : (addNeighbors w h H dzGroup nb L1 obj).L =
        (addNeighborsSweep w h H dzGroup nb L1 obj).L := by
      unfold addNeighbors
      simp only
      split_ifs <;> rfl
    rw [hL]
    refine ⟨hR, ?_⟩
    intro hkeep
    have hlen : (addNeighborsSweep w h H dzGroup nb L1 obj).newNeighbors ≠ [] := by
      intro he
      unfold addNeighbors at hkeep
      simp [he] at hkeep
    obtain ⟨q, hq⟩ := List.exists_mem_of_ne_nil _ hlen
    obtain ⟨a, b, c⟩ := hnew q hq
    exact ⟨q.j, q.i, a, b, hN q hq, c⟩

/-! ## The erode-then-dilate step of `classifyNonGround` -/

theorem mem_nbrRangeS {j n x : Nat} (hj : j < n) (hn : n < 4294967296) :
    x ∈ nbrRangeS j n ↔ j ≤ x + 1 ∧ x ≤ j + 1 ∧ x < n := by
  simp only [nbrRangeS, mem_loopRange, MIN, usub]
  split_ifs <;> omega

theorem anyWindow_iff {w h : Nat} (hw : w < 4294967296) (hh : h < 4294967296)
    (p : Nat → Nat → Bool) {j i : Nat} (hj : j < h) (hi : i < w) :
    anyWindow w h p j i = true ↔
      ∃ jj ii, jj < h ∧ ii < w ∧ Adj8 (j, i) (jj, ii) ∧ p jj ii = true := by
  simp only [anyWindow, List.any_eq_true, mem_nbrRangeS hj hh, mem_nbrRangeS hi hw, Adj8]
  constructor
  · rintro ⟨jj, ⟨a1, a2, a3⟩, ii, ⟨b1, b2, b3⟩, hp⟩
    exact ⟨jj, ii, a3, b3, ⟨a1, a2, b1, b2⟩, hp⟩
  · rintro ⟨jj, ii, a3, b3, ⟨a1, a2, b1, b2⟩, hp⟩
    exact ⟨jj, ⟨a1, a2, a3⟩, ii, ⟨b1, b2, b3⟩, hp⟩

theorem erodeTemp_nonground_iff {w h : Nat} (hw : w < 4294967296) (hh : h < 4294967296)
    (L : Image) {j i : Nat} (hj : j < h) (hi : i < w) :
    erodeTemp w h L j i ≠ LABEL_GROUND ↔ FullWindow w h L j i := by
  unfold erodeTemp FullWindow
  by_cases hany : anyWindow w h (fun jj ii => decide (L jj ii = LABEL_GROUND)) j i = true
  · have hany2 := hany
    rw [anyWindow_iff hw hh _ hj hi] at hany2
    obtain ⟨jj, ii, a, b, c, d⟩ := hany2
    have d2 : L jj ii = LABEL_GROUND := by simpa using d
    by_cases h0 : L j i = LABEL_GROUND
    · simp [h0]
    · simp only [hany, h0, ne_eq, not_false_eq_true, and_self, if_true, not_true_eq_false,
        true_and, false_iff, not_forall]
      exact ⟨jj, ii, a, b, c, fun hne => hne d2⟩
  · have hnone : ∀ jj ii, jj < h → ii < w → Adj8 (j, i) (jj, ii) → L jj ii ≠ LABEL_GROUND := by
      intro jj ii a b c e
      apply hany
      rw [anyWindow_iff hw hh _ hj hi]
      exact ⟨jj, ii, a, b, c, by simpa using e⟩
    simp only [hany, Bool.false_eq_true, and_false, if_false]
    exact ⟨fun h0 => ⟨h0, hnone⟩, fun hf => hf.1⟩

theorem anyWindow_erodeTemp_iff {w h : Nat} (hw : w < 4294967296) (hh : h < 4294967296)
    (L : Image) {j i : Nat} (hj : j < h) (hi : i < w) :
    anyWindow w h (fun jj ii => decide (erodeTemp w h L jj ii ≠ LABEL_GROUND)) j i = true ↔
      ∃ jj ii, jj < h ∧ ii < w ∧ Adj8 (j, i) (jj, ii) ∧ FullWindow w h L jj ii := by
  rw [anyWindow_iff hw hh _ hj hi]
  constructor
  · rintro ⟨jj, ii, a, b, c, d⟩
    exact ⟨jj, ii, a, b, c, (erodeTemp_nonground_iff hw hh L a b).1 (by simpa using d)⟩
  · rintro ⟨jj, ii, a, b, c, d⟩
    exact ⟨jj, ii, a, b, c, by simpa using (erodeTemp_nonground_iff hw hh L a b).2 d⟩

/-- C27: the erode-then-dilate step of `classifyNonGround` on a raster whose
sides fit an `unsigned int`.  With `E` the set of non-ground pixels whose
in-raster 3x3 window is all non-ground (`FullWindow`), a pixel is non-ground
after the step exactly when it was non-ground before and some pixel of its
in-raster 3x3 window lies in `E`, and it then keeps its label; if `E` is empty
every pixel is `LABEL_GROUND` after the step; a ground pixel stays ground. -/
theorem erodeDilate_is_window_opening (w h : Nat) (hw : w < 4294967296) (hh : h < 4294967296)
    (L : Image) :
    (∀ j, j < h → ∀ i, i < w →
      ((dilateFromTemp w h L (erodeTemp w h L) j i ≠ LABEL_GROUND ↔
          L j i ≠ LABEL_GROUND ∧
            ∃ jj ii, jj < h ∧ ii < w ∧ Adj8 (j, i) (jj, ii) ∧ FullWindow w h L jj ii) ∧
        (dilateFromTemp w h L (erodeTemp w h L) j i ≠ LABEL_GROUND →
          dilateFromTemp w h L (erodeTemp w h L) j i = L j i) ∧
        (L j i = LABEL_GROUND → dilateFromTemp w h L (erodeTemp w h L) j i = LABEL_GROUND))) ∧
    ((∀ j, j < h → ∀ i, i < w → ¬ FullWindow w h L j i) →
      ∀ j, j < h → ∀ i, i < w → dilateFromTemp w h L (erodeTemp w h L) j i = LABEL_GROUND) := by
  have key : ∀ j, j < h → ∀ i, i < w →
      ((dilateFromTemp w h L (erodeTemp w h L) j i ≠ LABEL_GROUND ↔
          L j i ≠ LABEL_GROUND ∧
            ∃ jj ii, jj < h ∧ ii < w ∧ Adj8 (j, i) (jj, ii) ∧ FullWindow w h L jj ii) ∧
        (dilateFromTemp w h L (erodeTemp w h L) j i ≠ LABEL_GROUND →
          dilateFromTemp w h L (erodeTemp w h L) j i = L j i) ∧
        (L j i = LABEL_GROUND → dilateFromTemp w h L (erodeTemp w h L) j i = LABEL_GROUND)) := by
    intro j hj i hi
    have hiff := anyWindow_erodeTemp_iff hw hh L hj hi
    unfold dilateFromTemp
    by_cases h0 : L j i = LABEL_GROUND
    · simp [h0]
    · by_cases hany :
          anyWindow w h (fun jj ii => decide (erodeTemp w h L jj ii ≠ LABEL_GROUND)) j i = true
      · have hE := hiff.1 hany
        rw [if_neg (fun hc => hc.2 hany)]
        exact ⟨⟨fun _ => ⟨h0, hE⟩, fun _ => h0⟩, fun _ => rfl, fun e => absurd e h0⟩
      · have hE : ¬ ∃ jj ii, jj < h ∧ ii < w ∧ Adj8 (j, i) (jj, ii) ∧ FullWindow w h L jj ii :=
          fun e => hany (hiff.2 e)
        rw [if_pos ⟨h0, hany⟩]
        exact ⟨⟨fun e => absurd rfl e, fun e => absurd e.2 hE⟩, fun e => absurd rfl e,
          fun e => absurd e h0⟩
  refine ⟨key, ?_⟩
  intro hempty j hj i hi
  by_contra hne
  obtain ⟨_, jj, ii, a, b, _, d⟩ := (key j hj i hi).1.1 hne
  exact hempty jj a ii b d

/-- C27, at a wall one pixel wide: pixel (1,1) is labelled 1 before the step and
every pixel of the 3-wide, 4-high raster is `LABEL_GROUND` after it. -/
theorem erodeDilate_is_window_opening_witness :
    sampleWall 1 1 = 1 ∧
    ∀ j, j < 4 → ∀ i, i < 3 →
      dilateFromTemp 3 4 sampleWall (erodeTemp 3 4 sampleWall) j i = LABEL_GROUND :=
  ⟨rfl, (erodeDilate_is_window_opening 3 4 (by decide) (by decide) sampleWall).2 (by
    intro j hj i hi hf
    have hg : ∃ ii, ii < 3 ∧ (i ≤ ii + 1 ∧ ii ≤ i + 1) ∧ sampleWall j ii = LABEL_GROUND := by
      interval_cases j <;> interval_cases i <;>
        first
        | exact ⟨0, by decide, by decide, rfl⟩
        | exact ⟨2, by decide, by decide, rfl⟩
    obtain ⟨ii, a, b, c⟩ := hg
    exact hf.2 j ii hj a ⟨by omega, by omega, b.1, b.2⟩ c)⟩

/-! ## Spike removal in `classifyGround` -/

/-- C28 (code defect): a pixel of the top row is voided by the spike loop.  On
the 3x3 DSM with 25 at pixel (0,1) and 10 elsewhere, `dh = 1` and `dz = 20`, no
boundary is labelled in the five iterations, so the spike loop reads the DSM
values.  At pixel (0,1) the row `0 - 1` is computed in unsigned arithmetic and
`MAX(0, MIN(height - 1, j + jj))` yields the last row 2: all 8 neighbours read
10, `minDiff` is 15 > 10 and the pixel is marked void (label 1 on return).  With
the clamp to row 0 that the claim words, the neighbour at offset (-1, 0) is the
pixel itself and `minDiff` is 0. -/
theorem classifyGround_voids_top_row_spike :
    (classifyGround sampleConsts (fillWithMax 3 3) 3 3 1 (ofRows []) sampleTopSpike
        sampleTopSpike 1 20).map (fun s => (toRows s.L 3 3, toRows s.void 3 3)) =
      some ([[0, 1, 0], [0, 0, 0], [0, 0, 0]], [[0, 1, 0], [0, 0, 0], [0, 0, 0]]) ∧
    clampIdx 3 0 (-1) = 2 ∧
    spikeMinDiff 3 3 sampleTopSpike 0 1 = 15 ∧
    spikeMinDiffSpec 3 3 sampleTopSpike 0 1 = 0 ∧
    (removeSpikes 3 3 20 ⟨ofRows [], sampleTopSpike, ofRows []⟩).void 0 1 = 1 := by
  refine ⟨?_, ?_, ?_, ?_, ?_⟩
  · decide!
  · decide!
  · decide!
  · decide!
  · decide!

/-! ## `fillObjectBounds`: the scans and the loops after them -/

theorem fillObjectBounds_eq_scans (c : LabelConsts) (w h : Nat) (L H : Image) (obj : ObjectType)
    (dh dz : Nat) :
    fillObjectBounds c w h L H obj dh dz = (fillScans c w h L H obj).map (fillFinish c w h obj dh) := by
  unfold fillObjectBounds fillScans fillFinish
  dsimp only
  generalize (loopRange (obj.ymin - 1) (MIN (obj.ymax + 1) (usub h 1))).foldl
      (fun acc j => acc.bind fun L => fillRow c w H obj L j) (some L) = a
  cases a with
  | none => simp only [Option.none_bind, Option.map_none']
  | some L1 => simp only [Option.some_bind]

/-- C23 (code defect): an accepted pixel in column 0 is not widened.  On the
5x5 raster with the single raised pixel (2,0), grouped into the object with
label 2, the two scans mark exactly pixel (2,0) `LABEL_ACCEPTED`; with `dh = 1`
the erosion loop computes the first column of the square as `i - rad` in
unsigned arithmetic, `MAX(i - rad, 0)` is 4294967295 and the loops over the
square do not run, so on return pixel (2,0) alone is `LABEL_OBJECT` and its
in-raster neighbours within distance 1 are `LABEL_GROUND`.  For the same pixel
raised at (2,2) the 3x3 square around it is `LABEL_OBJECT`. -/
theorem fillObjectBounds_skips_square_at_left_border :
    (groupObjects 5 5 sampleLeftLabels sampleLeftHeights 10000 20).map
        (fun g => (toRows g.L 5 5, g.objects)) =
      some ([[0, 0, 0, 0, 0], [0, 0, 0, 0, 0], [2, 0, 0, 0, 0], [0, 0, 0, 0, 0], [0, 0, 0, 0, 0]],
        [⟨2, 0, 0, 2, 2, 1⟩]) ∧
    (fillScans sampleConsts 5 5 (setPx sampleLeftLabels 2 0 2) sampleLeftHeights
        ⟨2, 0, 0, 2, 2, 1⟩).map (fun L2 => toRows L2 5 5) =
      some [[0, 0, 0, 0, 0], [0, 0, 0, 0, 0], [sampleConsts.LABEL_ACCEPTED, 0, 0, 0, 0],
        [0, 0, 0, 0, 0], [0, 0, 0, 0, 0]] ∧
    (fillObjectBounds sampleConsts 5 5 (setPx sampleLeftLabels 2 0 2) sampleLeftHeights
        ⟨2, 0, 0, 2, 2, 1⟩ 1 20).map (fun r => toRows r.1 5 5) =
      some [[0, 0, 0, 0, 0], [0, 0, 0, 0, 0], [sampleConsts.LABEL_OBJECT, 0, 0, 0, 0],
        [0, 0, 0, 0, 0], [0, 0, 0, 0, 0]] ∧
    MAX (usub 0 1) 0 = 4294967295 ∧
    (fillObjectBounds sampleConsts 5 5 (setPx sampleMidLabels 2 2 2) sampleMidHeights
        ⟨2, 2, 2, 2, 2, 1⟩ 1 20).map (fun r => toRows r.1 5 5) =
      some [[0, 0, 0, 0, 0], [0, 1, 1, 1, 0], [0, 1, 1, 1, 0], [0, 1, 1, 1, 0], [0, 0, 0, 0, 0]] := by
  refine ⟨?_, ?_, ?_, ?_, ?_⟩
  · decide!
  · decide!
  · decide!
  · decide!
  · decide!

set_option maxRecDepth 100000 in
/-- C24 (code defect): a pixel is marked `LABEL_ACCEPTED` without having passed
the row scan of the call.  On the 7x7 sample with `dz = 20`, `groupObjects`
returns the U-shaped object (label 2) and the diagonal object (label 3).  The
call of `fillObjectBounds` for object 2 with `dh = 1` marks pixel (2,3)
`LABEL_IN_ONE` in its row scan (height 80 above the row's ground level 60), its
column scan does not accept it, and nothing resets it: the raster on return is
`sampleNestAfterFirst`, with `LABEL_IN_ONE` at (2,3).  In the next call, for
object 3, row 2 holds no pixel with label 3 inside the padded box, so the row
scan skips the row; the column scan of column 3 finds label 3 at rows 1 and 3
and marks pixel (2,3) `LABEL_ACCEPTED`, as it holds `LABEL_IN_ONE` and lies
above the column's ground level. -/
theorem fillObjectBounds_accepts_stale_in_one :
    ((groupObjects 7 7 sampleNestLabels sampleNestHeights 10000 20).bind fun g =>
      (fillObjectBounds sampleConsts 7 7 g.L sampleNestHeights ⟨2, 1, 5, 1, 5, 12⟩ 1 20).bind fun r =>
        (fillScans sampleConsts 7 7 r.1 sampleNestHeights ⟨3, 3, 4, 1, 3, 3⟩).map fun L2 =>
          (g.objects, r.1 2 3, toRows r.1 7 7, L2 2 3)) =
      some ([⟨2, 1, 5, 1, 5, 12⟩, ⟨3, 3, 4, 1, 3, 3⟩], sampleConsts.LABEL_IN_ONE,
        toRows sampleNestAfterFirst 7 7, sampleConsts.LABEL_ACCEPTED) ∧
    findStart (sampleNestAfterFirst 2) 3 (loopRange (3 - 1) (MIN (4 + 1) (usub 7 1))) = none ∧
    (fillScans sampleConsts 7 7 sampleNestAfterFirst sampleNestHeights ⟨3, 3, 4, 1, 3, 3⟩).map
        (fun L2 => L2 2 3) = some sampleConsts.LABEL_ACCEPTED := by
  refine ⟨?_, ?_, ?_⟩
  · decide!
  · decide!
  · decide!

/-! ## The marking pass of `extendObjectBoundaries` -/

theorem extendMarkStep_markInv (c : LabelConsts) (w h : Nat) (H : Image) (dz : Nat) (L : Image)
    (hT1 : c.LABEL_TEMP ≠ 1) {j i jj ii : Nat} (hc : Interior w h j i)
    (hadj : Adj8 (j, i) (jj, ii)) (L' : Image) (h1 : L' j i = 1)
    (hL : MarkInv c w h H dz L L') : MarkInv c w h H dz L (extendMarkStep c H dz j i jj L' ii) := by
  unfold extendMarkStep
  split_ifs with e1 e2
  · exact hL
  · refine ⟨?_, ?_⟩
    · intro a b
      by_cases hx : a = jj ∧ b = ii
      · obtain ⟨rfl, rfl⟩ := hx
        rw [setPx_same]
        constructor
        · intro e
          exact absurd e hT1
        · intro e
          exact absurd ((hL.1 a b).2 e) e1
      · rw [setPx_other L' _ hx]
        exact hL.1 a b
    · intro a b
      by_cases hx : a = jj ∧ b = ii
      · obtain ⟨rfl, rfl⟩ := hx
        intro _
        exact Or.inr ⟨j, i, hc, (hL.1 j i).1 h1, hadj, e2⟩
      · rw [setPx_other L' _ hx]
        exact hL.2 a b
  · exact hL

theorem extendMark_markInv (c : LabelConsts) (w h : Nat) (H : Image) (dz : Nat) (L : Image)
    (hw0 : 0 < w) (hh0 : 0 < h) (hw : w < 4294967296) (hh : h < 4294967296)
    (hT1 : c.LABEL_TEMP ≠ 1) : MarkInv c w h H dz L (extendMark c w h H dz L) := by
  have hstart : MarkInv c w h H dz L L := ⟨fun _ _ => Iff.rfl, fun _ _ e => Or.inl e⟩
  unfold extendMark
  refine foldl_inv (MarkInv c w h H dz L) _ _ L hstart ?_
  intro L1 j hj hL1
  refine foldl_inv (MarkInv c w h H dz L) _ _ L1 hL1 ?_
  intro L2 i hi hL2
  rw [mem_loopRangeLt] at hj hi
  have hint : Interior w h j i := by
    unfold usub at hj hi
    unfold Interior
    omega
  split_ifs with h1
  · have hone : ∀ L3 : Image, MarkInv c w h H dz L L3 → L3 j i = 1 :=
      fun L3 h3 => (h3.1 j i).2 ((hL2.1 j i).1 h1)
    refine foldl_inv (MarkInv c w h H dz L) _ _ L2 hL2 ?_
    intro L3 jj hjj hL3
    refine foldl_inv (MarkInv c w h H dz L) _ _ L3 hL3 ?_
    intro L4 ii hii hL4
    rw [mem_loopRange] at hjj hii
    have hadj : Adj8 (j, i) (jj, ii) := by
      unfold Adj8
      dsimp only
      omega
    exact extendMarkStep_markInv c w h H dz L hT1 hint hadj L4 (hone L4 hL4) hL4
  · exact hL2

theorem extendPromote_one_iff (c : LabelConsts) (w h : Nat) (H : Image) (dz : Nat) (L : Image)
    (j i : Nat) (h1 : extendPromote c w h H dz L j i = 1) : L j i = c.LABEL_TEMP ∨ L j i = 1 := by
  unfold extendPromote at h1
  split_ifs at h1 with hc
  · exact Or.inl hc.1
  · exact Or.inr h1

theorem extendPromote_keeps_one (c : LabelConsts) (w h : Nat) (H : Image) (dz : Nat) (L : Image)
    (j i : Nat) (h1 : L j i = 1) : extendPromote c w h H dz L j i = 1 := by
  unfold extendPromote
  split_ifs
  · rfl
  · exact h1

theorem extendPromote_temp (c : LabelConsts) (w h : Nat) (H : Image) (dz : Nat) (L : Image)
    (hT1 : c.LABEL_TEMP ≠ 1) (j i : Nat) (ht : extendPromote c w h H dz L j i = c.LABEL_TEMP) :
    L j i = c.LABEL_TEMP := by
  unfold extendPromote at ht
  split_ifs at ht with hc
  · exact absurd ht.symm hT1
  · exact ht

theorem markCentre_mono {w h : Nat} {H L L' : Image} {dz jj ii : Nat}
    (hsub : ∀ j i, L j i = 1 → L' j i = 1) (hm : MarkCentre w h H L dz jj ii) :
    MarkCentre w h H L' dz jj ii := by
  obtain ⟨j, i, a, b, c, d⟩ := hm
  exact ⟨j, i, a, hsub j i b, c, d⟩

theorem extendPass_passInv (c : LabelConsts) (w h : Nat) (H : Image) (dz : Nat) (L : Image)
    (hw0 : 0 < w) (hh0 : 0 < h) (hw : w < 4294967296) (hh : h < 4294967296)
    (hT1 : c.LABEL_TEMP ≠ 1) (L' : Image) (hL : PassInv c w h H dz L L') :
    PassInv c w h H dz L (extendPromote c w h H dz (extendMark c w h H dz L')) := by
  have hm := extendMark_markInv c w h H dz L' hw0 hh0 hw hh hT1
  have hkeep : ∀ j i, L' j i = 1 →
      extendPromote c w h H dz (extendMark c w h H dz L') j i = 1 :=
    fun j i e => extendPromote_keeps_one c w h H dz _ j i ((hm.1 j i).2 e)
  refine ⟨fun j i e => hkeep j i (hL.1 j i e), ?_⟩
  intro jj ii hcase
  have hmark : extendMark c w h H dz L' jj ii = c.LABEL_TEMP ∨
      extendMark c w h H dz L' jj ii = 1 := by
    rcases hcase with e | e
    · exact Or.inl (extendPromote_temp c w h H dz _ hT1 jj ii e)
    · exact extendPromote_one_iff c w h H dz _ jj ii e
  have hprev : (L' jj ii = c.LABEL_TEMP ∨ L' jj ii = 1) ∨ MarkCentre w h H L' dz jj ii := by
    rcases hmark with e | e
    · rcases hm.2 jj ii e with e2 | e2
      · exact Or.inl (Or.inl e2)
      · exact Or.inr e2
    · exact Or.inl (Or.inr ((hm.1 jj ii).1 e))
  rcases hprev with e | e
  · rcases hL.2 jj ii e with e2 | e2 | e2
    · exact Or.inl e2
    · exact Or.inr (Or.inl e2)
    · exact Or.inr (Or.inr (markCentre_mono hkeep e2))
  · exact Or.inr (Or.inr (markCentre_mono hkeep e))

/-- C21 (as stated, refuted): a ground pixel higher than the centre is marked
and becomes 1.  On the 3x3 raster with the centre (1,1) labelled 1 at height 10
and pixel (1,2) at height 50, `dz = 20`: the marking pass sets the ground pixel
(1,2) to `LABEL_TEMP` although `H[c] - H[n] = -40` is below 0, and
`extendObjectBoundaries` returns it labelled 1, while every pixel labelled 1 on
entry is lower than it. -/
theorem extendObjectBoundaries_marks_higher_neighbour :
    sampleRiseLabels 1 2 = LABEL_GROUND ∧
    extendMark sampleConsts 3 3 sampleRiseHeights 20 sampleRiseLabels 1 2 =
      sampleConsts.LABEL_TEMP ∧
    extendObjectBoundaries sampleConsts 3 3 sampleRiseHeights sampleRiseLabels 1 20 1 2 = 1 ∧
    (∀ j, j < 3 → ∀ i, i < 3 → sampleRiseLabels j i = 1 →
      ¬ (sampleRiseHeights 1 2 ≤ sampleRiseHeights j i) ∧
      ¬ (0 ≤ (sampleRiseHeights j i : Int) - (sampleRiseHeights 1 2 : Int))) := by
  refine ⟨?_, ?_, ?_, ?_⟩
  · decide!
  · decide!
  · decide!
  · decide!

/-- C21 (amended): for a non-empty raster whose sides fit an `unsigned int` and
a scratch value `LABEL_TEMP` other than `LABEL_GROUND` and 1.  In a pass that
starts from any labels `L`, a ground pixel `n` that the marking loop sets to
`LABEL_TEMP`, or that the pass turns into 1, is 8-adjacent to an interior pixel
`c` labelled 1 at the start of the pass with `H[c] - H[n] < dz / 2` (no lower
bound: `n` may be higher than `c`).  For the whole of `extendObjectBoundaries`,
a pixel that was `LABEL_GROUND` on entry and is 1 on return is 8-adjacent to
such an interior pixel `c` that is labelled 1 on return. -/
theorem extendObjectBoundaries_marks_near_centre (c : LabelConsts) (w h : Nat) (H L : Image)
    (dh dz : Nat) (hw0 : 0 < w) (hh0 : 0 < h) (hw : w < 4294967296) (hh : h < 4294967296)
    (hT0 : c.LABEL_TEMP ≠ LABEL_GROUND) (hT1 : c.LABEL_TEMP ≠ 1) :
    (∀ jj ii, L jj ii = LABEL_GROUND →
      (extendMark c w h H dz L jj ii = c.LABEL_TEMP ∨
        extendPromote c w h H dz (extendMark c w h H dz L) jj ii = 1) →
      MarkCentre w h H L dz jj ii) ∧
    (∀ jj ii, L jj ii = LABEL_GROUND → extendObjectBoundaries c w h H L dh dz jj ii = 1 →
      MarkCentre w h H (extendObjectBoundaries c w h H L dh dz) dz jj ii) := by
  have h01 : LABEL_GROUND ≠ 1 := by decide
  constructor
  · intro jj ii h0 hcase
    have hm := extendMark_markInv c w h H dz L hw0 hh0 hw hh hT1
    have htemp : extendMark c w h H dz L jj ii = c.LABEL_TEMP := by
      rcases hcase with e | e
      · exact e
      · rcases extendPromote_one_iff c w h H dz _ jj ii e with e2 | e2
        · exact e2
        · have := (hm.1 jj ii).1 e2
          rw [h0] at this
          exact absurd this h01
    rcases hm.2 jj ii htemp with e | e
    · rw [h0] at e
      exact absurd e.symm hT0
    · exact e
  · intro jj ii h0 h1
    have hinv : PassInv c w h H dz L
        ((List.range dh).foldl
          (fun L _ => extendPromote c w h H dz (extendMark c w h H dz L)) L) := by
      refine foldl_inv (PassInv c w h H dz L) _ _ L ?_ ?_
      · exact ⟨fun _ _ e => e, fun _ _ e => e.elim Or.inl (fun e1 => Or.inr (Or.inl e1))⟩
      · intro L' _ _ hL'
        exact extendPass_passInv c w h H dz L hw0 hh0 hw hh hT1 L' hL'
    have hdef : ∀ a b, extendObjectBoundaries c w h H L dh dz a b =
        if (List.range dh).foldl
            (fun L _ => extendPromote c w h H dz (extendMark c w h H dz L)) L a b = c.LABEL_TEMP
        then LABEL_GROUND
        else (List.range dh).foldl
            (fun L _ => extendPromote c w h H dz (extendMark c w h H dz L)) L a b := fun _ _ => rfl
    have hres : ∀ a b, (List.range dh).foldl
          (fun L _ => extendPromote c w h H dz (extendMark c w h H dz L)) L a b = 1 →
        extendObjectBoundaries c w h H L dh dz a b = 1 := by
      intro a b e
      rw [hdef, if_neg (by rw [e]; exact fun e2 => hT1 e2.symm)]
      exact e
    have hone : (List.range dh).foldl
        (fun L _ => extendPromote c w h H dz (extendMark c w h H dz L)) L jj ii = 1 := by
      rw [hdef] at h1
      split_ifs at h1 with ht
      · exact absurd h1 h01
      · exact h1
    rcases hinv.2 jj ii (Or.inr hone) with e | e | e
    · rw [h0] at e
      exact absurd e.symm hT0
    · rw [h0] at e
      exact absurd e h01
    · exact markCentre_mono hres e

/-- C21 (amended), at the concrete 3x3 raster: pixel (1,2) has a marking centre. -/
theorem extendObjectBoundaries_marks_near_centre_witness :
    MarkCentre 3 3 sampleRiseHeights sampleRiseLabels 20 1 2 :=
  (extendObjectBoundaries_marks_near_centre sampleConsts 3 3 sampleRiseHeights sampleRiseLabels
    1 20 (by decide) (by decide) (by decide) (by decide) (by decide) (by decide)).1 1 2
    (by decide!) (Or.inl (by decide!))

/-! ## Flat-boundary rejection in `classifyNonGround` -/

theorem clampIdx_eq_clampSpec {n j : Nat} {d : Int} (hn : n < 2147483648) (hj : j < n)
    (hd : -2 ≤ d ∧ d ≤ 2) (h0 : 0 ≤ (j : Int) + d) : clampIdx n j d = clampSpec n ((j : Int) + d) := by
  unfold clampIdx clampSpec MAX MIN usub uaddInt
  split_ifs <;> omega

theorem gradTerm_eq_termClamped (a b c : Nat) : gradTerm a b c = termClamped a b c := by
  unfold gradTerm termClamped
  omega

theorem log2Fuel_spec : ∀ fuel n : Nat, n ≤ fuel → 1 ≤ n →
    2 ^ log2Fuel fuel n ≤ n ∧ n < 2 ^ (log2Fuel fuel n + 1) := by
  intro fuel
  induction fuel with
  | zero => intro n h0 h1; omega
  | succ f ih =>
    intro n hn h1
    unfold log2Fuel
    split_ifs with h2
    · obtain ⟨a, b⟩ := ih (n / 2) (by omega) (by omega)
      rw [pow_succ, pow_succ] at *
      constructor <;> omega
    · simp only [pow_zero, zero_add, pow_one]
      omega

theorem floorLog2_spec (n : Nat) (h1 : 1 ≤ n) :
    2 ^ floorLog2 n ≤ n ∧ n < 2 ^ (floorLog2 n + 1) :=
  log2Fuel_spec n n (le_refl n) h1

theorem pow2_neg (k : Nat) : pow2 (-(k : Int)) = 1 / (2 : ℚ) ^ k := by
  unfold pow2
  split_ifs with h0
  · have hk : k = 0 := by omega
    subst hk
    simp
  · simp

theorem roundEven_intCast (m : Int) : roundEven (m : ℚ) = m := by
  unfold roundEven
  rw [Int.floor_intCast, sub_self, if_pos (by norm_num)]

/-- A whole number below `2^24` is a `float`: rounding leaves it as it is. -/
theorem roundF32_natCast (n : Nat) (hn : n < 16777216) : roundF32 (n : ℚ) = (n : ℚ) := by
  unfold roundF32
  by_cases h0 : n = 0
  · subst h0
    simp
  · rw [if_neg (by simp [h0])]
    have hb : binade (n : ℚ) = (floorLog2 n : Int) := by
      unfold binade
      simp only [Rat.num_natCast, Rat.den_natCast, Int.natAbs_ofNat, Nat.div_one]
      rw [if_pos (by omega)]
    obtain ⟨hlo, _⟩ := floorLog2_spec n (by omega)
    have he : floorLog2 n < 24 := by
      by_contra hc
      have : 2 ^ 24 ≤ 2 ^ floorLog2 n := Nat.pow_le_pow_right (by norm_num) (by omega)
      omega
    have hexp : max (binade (n : ℚ)) (-126) - 23 = -((23 - floorLog2 n : Nat) : Int) := by
      rw [hb]
      omega
    rw [hexp, pow2_neg]
    have hm : (n : ℚ) / (1 / (2 : ℚ) ^ (23 - floorLog2 n)) =
        (((n * 2 ^ (23 - floorLog2 n) : Nat) : Int) : ℚ) := by
      push_cast
      field_simp
    rw [hm, roundEven_intCast]
    push_cast
    field_simp

theorem foldl_addF32_exact (ts : List Nat) :
    ∀ a : Nat, a + ts.sum < 16777216 → ts.foldl addF32 (a : ℚ) = ((a + ts.sum : Nat) : ℚ) := by
  induction ts with
  | nil => intro a _; simp
  | cons t ts ih =>
    intro a ha
    simp only [List.sum_cons] at ha
    rw [List.foldl_cons]
    have e : addF32 (a : ℚ) t = ((a + t : Nat) : ℚ) := by
      unfold addF32
      rw [← Nat.cast_add]
      exact roundF32_natCast _ (by omega)
    rw [e, ih (a + t) (by omega), List.sum_cons, Nat.add_assoc]

/-- While the sum and the count stay below `2^24` the only rounding in the
single-precision mean is that of the quotient. -/
theorem meanF32_exact_sum (ts : List Nat) (hs : ts.sum < 16777216) (hl : ts.length < 16777216) :
    meanF32 ts = roundF32 (meanOf ts) := by
  unfold meanF32 meanOf
  have e := foldl_addF32_exact ts 0 (by omega)
  simp only [Nat.cast_zero, zero_add] at e
  rw [e, roundF32_natCast _ hl]

/-- A fold that, for each element, accumulates its terms in single precision
and counts them. -/
theorem foldl_stats {α : Type} (f : α → List Nat) (step : ℚ × Nat → α → ℚ × Nat)
    (l : List α)
    (hstep : ∀ acc a, a ∈ l → step acc a = ((f a).foldl addF32 acc.1, acc.2 + (f a).length)) :
    ∀ acc, l.foldl step acc =
      ((l.flatMap f).foldl addF32 acc.1, acc.2 + (l.flatMap f).length) := by
  induction l with
  | nil => intro acc; simp
  | cons a t ih =>
    intro acc
    rw [List.foldl_cons, hstep acc a (List.mem_cons_self a t),
      ih (fun acc b hb => hstep acc b (List.mem_cons_of_mem a hb))]
    simp only [List.flatMap_cons, List.foldl_append, List.length_append]
    rw [Nat.add_assoc]

theorem mem_offsets3 {d : Int} (hd : d ∈ ([-1, 0, 1] : List Int)) : -1 ≤ d ∧ d ≤ 1 := by
  simp only [List.mem_cons, List.mem_singleton, List.not_mem_nil, or_false] at hd
  omega

theorem boundaryStats_eq_terms (w h : Nat) (dsm L : Image) (obj : ObjectType)
    (hw : w < 2147483648) (hh : h < 2147483648) (hx : 2 ≤ obj.xmin) (hy : 2 ≤ obj.ymin)
    (hxm : obj.xmax < w) (hym : obj.ymax < h) :
    boundaryStats w h dsm L obj =
      ((boundaryTermsSpec termClamped w h dsm L obj).foldl addF32 0,
        (boundaryTermsSpec termClamped w h dsm L obj).length) := by
  unfold boundaryStats boundaryTermsSpec
  rw [foldl_stats (fun j => (loopRange obj.xmin obj.xmax).flatMap fun i =>
      if L j i = obj.label then
        ([-1, 0, 1] : List Int).flatMap fun jj =>
          ([-1, 0, 1] : List Int).flatMap fun ii =>
            if L (clampSpec h ((j : Int) + jj)) (clampSpec w ((i : Int) + ii)) = LABEL_GROUND then
              [termClamped (dsm j i)
                (dsm (clampSpec h ((j : Int) + jj)) (clampSpec w ((i : Int) + ii)))
                (dsm (clampSpec h ((j : Int) + jj * 2)) (clampSpec w ((i : Int) + ii * 2)))]
            else []
      else [])]
  · simp
  intro acc j hj
  rw [mem_loopRange] at hj
  rw [foldl_stats (fun i =>
      if L j i = obj.label then
        ([-1, 0, 1] : List Int).flatMap fun jj =>
          ([-1, 0, 1] : List Int).flatMap fun ii =>
            if L (clampSpec h ((j : Int) + jj)) (clampSpec w ((i : Int) + ii)) = LABEL_GROUND then
              [termClamped (dsm j i)
                (dsm (clampSpec h ((j : Int) + jj)) (clampSpec w ((i : Int) + ii)))
                (dsm (clampSpec h ((j : Int) + jj * 2)) (clampSpec w ((i : Int) + ii * 2)))]
            else []
      else [])]
  intro acc i hi
  rw [mem_loopRange] at hi
  by_cases hl : L j i = obj.label
  · simp only [hl, if_true]
    rw [foldl_stats (fun jj : Int =>
        ([-1, 0, 1] : List Int).flatMap fun ii =>
          if L (clampSpec h ((j : Int) + jj)) (clampSpec w ((i : Int) + ii)) = LABEL_GROUND then
            [termClamped (dsm j i)
              (dsm (clampSpec h ((j : Int) + jj)) (clampSpec w ((i : Int) + ii)))
              (dsm (clampSpec h ((j : Int) + jj * 2)) (clampSpec w ((i : Int) + ii * 2)))]
          else [])]
    intro acc jj hjj
    have bj := mem_offsets3 hjj
    rw [foldl_stats (fun ii : Int =>
        if L (clampSpec h ((j : Int) + jj)) (clampSpec w ((i : Int) + ii)) = LABEL_GROUND then
          [termClamped (dsm j i)
            (dsm (clampSpec h ((j : Int) + jj)) (clampSpec w ((i : Int) + ii)))
            (dsm (clampSpec h ((j : Int) + jj * 2)) (clampSpec w ((i : Int) + ii * 2)))]
        else [])]
    intro acc ii hii
    have bi := mem_offsets3 hii
    rw [clampIdx_eq_clampSpec hh (by omega) (by omega) (by omega),
      clampIdx_eq_clampSpec hw (by omega) (by omega) (by omega),
      clampIdx_eq_clampSpec hh (by omega) (by omega : -2 ≤ jj * 2 ∧ jj * 2 ≤ 2) (by omega),
      clampIdx_eq_clampSpec hw (by omega) (by omega : -2 ≤ ii * 2 ∧ ii * 2 ≤ 2) (by omega),
      gradTerm_eq_termClamped]
    split_ifs <;> simp
  · simp [hl]

theorem flatBoundary_iff_mean (ts : List Nat) (dz : Nat) :
    flatBoundary (ts.foldl addF32 0) ts.length dz = true ↔
      ts ≠ [] ∧ meanF32 ts ≠ 0 ∧ meanF32 ts < (dz : ℚ) / 2 := by
  unfold flatBoundary meanF32
  rw [decide_eq_true_eq]
  by_cases hnil : ts = []
  · subst hnil
    simp
  · have hlen : 0 < ts.length := List.length_pos.2 hnil
    have hne : ts.length ≠ 0 := by omega
    constructor
    · rintro ⟨_, b, c⟩
      exact ⟨hnil, c, b⟩
    · rintro ⟨_, b, c⟩
      exact ⟨hne, c, b⟩

/-- The rounding of the quotient decides: for a sum of 16751058 over 517
contributions and `dz = 64801` the exact mean lies below `dz / 2`, the
single-precision quotient is `dz / 2`, and the test fails. -/
theorem flatBoundary_quotient_rounded_up :
    (16751058 : ℚ) / 517 < ((64801 : Nat) : ℚ) / 2 ∧ (16751058 : ℚ) / 517 ≠ 0 ∧
    roundF32 ((16751058 : ℚ) / roundF32 ((517 : Nat) : ℚ)) = ((64801 : Nat) : ℚ) / 2 ∧
    flatBoundary 16751058 517 64801 = false := by
  refine ⟨by norm_num, by norm_num, by decide!, by decide!⟩

/-- C26 (as stated, refuted): the contribution is not `max(0, (p - n) - (n - n2))`.
On the 5x5 raster with a pit (centre 10, ring 40, border 75) and `dz = 40`, the
centre pixel is grouped into an object of its own (label 2).  Each of its 8
ground neighbours contributes `max(0, -30 - (-35)) = 5` by the formula of the
claim, a mean of 5, non-zero and below `dz / 2 = 20`, so by the claim the object
is relabelled; the code clamps both gradients at 0 first, every contribution is
0, the mean is 0 and the object keeps its label.  All values are small whole
numbers, which single precision holds exactly. -/
theorem gradientReject_keeps_pit :
    (groupObjects 5 5 sampleMidLabels samplePitHeights LONG_MAX (40 / 2)).map
        (fun g => (toRows g.L 5 5, g.objects,
          toRows (g.objects.foldl (gradientRejectStep 5 5 samplePitHeights 40) g.L) 5 5)) =
      some ([[0, 0, 0, 0, 0], [0, 0, 0, 0, 0], [0, 0, 2, 0, 0], [0, 0, 0, 0, 0], [0, 0, 0, 0, 0]],
        [⟨2, 2, 2, 2, 2, 1⟩],
        [[0, 0, 0, 0, 0], [0, 0, 0, 0, 0], [0, 0, 2, 0, 0], [0, 0, 0, 0, 0], [0, 0, 0, 0, 0]]) ∧
    boundaryStats 5 5 samplePitHeights (setPx sampleMidLabels 2 2 2) ⟨2, 2, 2, 2, 2, 1⟩ = (0, 8) ∧
    boundaryTermsSpec termPlain 5 5 samplePitHeights (setPx sampleMidLabels 2 2 2)
        ⟨2, 2, 2, 2, 2, 1⟩ = [5, 5, 5, 5, 5, 5, 5, 5] ∧
    meanOf [5, 5, 5, 5, 5, 5, 5, 5] ≠ 0 ∧ meanOf [5, 5, 5, 5, 5, 5, 5, 5] < ((40 : Nat) : ℚ) / 2 ∧
    meanF32 [5, 5, 5, 5, 5, 5, 5, 5] = meanOf [5, 5, 5, 5, 5, 5, 5, 5] := by
  refine ⟨?_, ?_, ?_, ?_, ?_, ?_⟩
  · decide!
  · decide!
  · decide!
  · norm_num [meanOf]
  · norm_num [meanOf]
  · decide!

/-- C26 (amended): for a raster whose sides fit an `int` and an object whose
bounding box lies inside the raster and starts at row 2 and column 2 or further
in (so that no offset leaves the raster at the top or on the left).  The sum and
the count the code accumulates are those of the contributions
`max(0, max(0, DSM[p] - DSM[n]) - max(0, DSM[n] - DSM[n2]))`, one for each pair
of a pixel `p` of the bounding box that carries the label and a neighbour `n`
that is `LABEL_GROUND`, with `n` and `n2` at the clamped coordinates, the sum
being accumulated in single precision in the order of the loops; the object is
relabelled (`rejectObject`, which turns every pixel of the bounding box that
carries the label into `LABEL_GROUND` and leaves the others) exactly when there
is a contribution and their single-precision mean `meanF32` is non-zero and
below `dz / 2`.  While the sum and the count of the contributions stay below
`2^24`, that mean is the exact mean rounded once to single precision. -/
theorem gradientRejectStep_mean_test (w h : Nat) (dsm L : Image) (obj : ObjectType) (dz : Nat)
    (hw : w < 2147483648) (hh : h < 2147483648) (hx : 2 ≤ obj.xmin) (hy : 2 ≤ obj.ymin)
    (hxm : obj.xmax < w) (hym : obj.ymax < h) :
    boundaryStats w h dsm L obj =
      ((boundaryTermsSpec termClamped w h dsm L obj).foldl addF32 0,
        (boundaryTermsSpec termClamped w h dsm L obj).length) ∧
    ((boundaryTermsSpec termClamped w h dsm L obj ≠ [] ∧
        meanF32 (boundaryTermsSpec termClamped w h dsm L obj) ≠ 0 ∧
        meanF32 (boundaryTermsSpec termClamped w h dsm L obj) < (dz : ℚ) / 2) →
      gradientRejectStep w h dsm dz L obj = rejectObject L obj) ∧
    (¬ (boundaryTermsSpec termClamped w h dsm L obj ≠ [] ∧
        meanF32 (boundaryTermsSpec termClamped w h dsm L obj) ≠ 0 ∧
        meanF32 (boundaryTermsSpec termClamped w h dsm L obj) < (dz : ℚ) / 2) →
      gradientRejectStep w h dsm dz L obj = L) ∧
    ((boundaryTermsSpec termClamped w h dsm L obj).sum < 16777216 →
      (boundaryTermsSpec termClamped w h dsm L obj).length < 16777216 →
      meanF32 (boundaryTermsSpec termClamped w h dsm L obj) =
        roundF32 (meanOf (boundaryTermsSpec termClamped w h dsm L obj))) ∧
    (∀ j i, obj.ymin ≤ j → j ≤ obj.ymax → obj.xmin ≤ i → i ≤ obj.xmax → L j i = obj.label →
      rejectObject L obj j i = LABEL_GROUND) ∧
    (∀ j i, L j i ≠ obj.label → rejectObject L obj j i = L j i) := by
  have hs := boundaryStats_eq_terms w h dsm L obj hw hh hx hy hxm hym
  have hiff := flatBoundary_iff_mean (boundaryTermsSpec termClamped w h dsm L obj) dz
  refine ⟨hs, ?_, ?_, meanF32_exact_sum _, ?_, ?_⟩
  · intro hc
    unfold gradientRejectStep
    simp only [hs]
    rw [if_pos (hiff.2 hc)]
  · intro hc
    unfold gradientRejectStep
    simp only [hs]
    rw [if_neg (fun e => hc (hiff.1 e))]
  · intro j i a b c d e
    unfold rejectObject
    rw [if_pos ⟨a, b, c, d, e⟩]
  · intro j i hne
    unfold rejectObject
    rw [if_neg (fun e => hne e.2.2.2.2)]

/-- C26 (amended), at a mound (centre 50, ring 20, border 5) with `dz = 40`:
each of the 8 ground neighbours contributes `30 - 15 = 15`, the mean 15 is below
20 and the object is relabelled. -/
theorem gradientRejectStep_mean_test_witness :
    gradientRejectStep 5 5 sampleMoundHeights 40 (setPx sampleMidLabels 2 2 2)
        ⟨2, 2, 2, 2, 2, 1⟩ =
      rejectObject (setPx sampleMidLabels 2 2 2) ⟨2, 2, 2, 2, 2, 1⟩ :=
  (gradientRejectStep_mean_test 5 5 sampleMoundHeights (setPx sampleMidLabels 2 2 2)
    ⟨2, 2, 2, 2, 2, 1⟩ 40 (by decide) (by decide) (by decide) (by decide) (by decide)
    (by decide)).2.1 (by
      have e : boundaryTermsSpec termClamped 5 5 sampleMoundHeights (setPx sampleMidLabels 2 2 2)
          ⟨2, 2, 2, 2, 2, 1⟩ = [15, 15, 15, 15, 15, 15, 15, 15] := by decide!
      rw [e]
      exact ⟨by simp, by decide!, by decide!⟩)

/-! ## `fillObjectBounds` leaves no scratch value of its own -/

theorem foldl_bind_none {σ α : Type} (f : σ → α → Option σ) (l : List α) :
    l.foldl (fun acc a => acc.bind fun x => f x a) none = none := by
  induction l with
  | nil => rfl
  | cons a t ih => exact ih

/-- Invariant rule for a fold of fallible steps that returns. -/
theorem foldl_bind_inv {σ α : Type} (f : σ → α → Option σ) (P : σ → Prop) (l : List α)
    (hstep : ∀ s a s', a ∈ l → P s → f s a = some s' → P s') :
    ∀ s r, P s → l.foldl (fun acc a => acc.bind fun x => f x a) (some s) = some r → P r := by
  induction l with
  | nil =>
    intro s r hs hr
    simp only [List.foldl_nil, Option.some.injEq] at hr
    exact hr ▸ hs
  | cons a t ih =>
    intro s r hs hr
    rw [List.foldl_cons, Option.some_bind] at hr
    cases hf : f s a with
    | none =>
      rw [hf, foldl_bind_none] at hr
      exact absurd hr (by simp)
    | some s' =>
      rw [hf] at hr
      exact ih (fun s a s' ha => hstep s a s' (List.mem_cons_of_mem _ ha)) s' r
        (hstep s a s' (List.mem_cons_self a t) hs hf) hr

theorem fillRow_cases {c : LabelConsts} {w : Nat} {H : Image} {obj : ObjectType} {L L' : Image}
    {j : Nat} (hr : fillRow c w H obj L j = some L') :
    ∀ a b, L' a b = L a b ∨ L' a b = c.LABEL_IN_ONE ∨ L' a b = LABEL_GROUND := by
  simp only [fillRow] at hr
  cases hs : findStart (L j) obj.label
      (loopRange (obj.xmin - 1) (MIN (obj.xmax + 1) (usub w 1))) with
  | none =>
    rw [hs] at hr
    simp only [Option.some.injEq] at hr
    subst hr
    exact fun _ _ => Or.inl rfl
  | some s =>
    rw [hs] at hr
    cases ht : findStop (L j) obj.label
        (loopRange (obj.xmin - 1) (MIN (obj.xmax + 1) (usub w 1))) with
    | none =>
      rw [ht] at hr
      exact absurd hr (by simp)
    | some t =>
      rw [ht] at hr
      dsimp only at hr
      split_ifs at hr with he
      · simp only [Option.some.injEq] at hr
        subst hr
        exact fun _ _ => Or.inl rfl
      · simp only [Option.some.injEq] at hr
        subst hr
        intro a b
        dsimp only
        split_ifs with h1 h2 h3 h4
        · exact Or.inr (Or.inl rfl)
        · rw [h1.1]
          exact Or.inl rfl
        · exact Or.inr (Or.inr rfl)
        · rw [h1.1]
          exact Or.inl rfl
        · exact Or.inl rfl

theorem fillCol_cases {c : LabelConsts} {h : Nat} {H : Image} {obj : ObjectType} {L L' : Image}
    {i : Nat} (hr : fillCol c h H obj L i = some L') :
    ∀ a b, L' a b = L a b ∨
      (L' a b = c.LABEL_ACCEPTED ∧ b = i ∧ obj.ymin - 1 ≤ a ∧ a ≤ MIN (obj.ymax + 1) (usub h 1)) := by
  simp only [fillCol] at hr
  cases hs : findStart (fun j => L j i) obj.label
      (loopRange (obj.ymin - 1) (MIN (obj.ymax + 1) (usub h 1))) with
  | none =>
    rw [hs] at hr
    simp only [Option.some.injEq] at hr
    subst hr
    exact fun _ _ => Or.inl rfl
  | some s =>
    rw [hs] at hr
    cases ht : findStop (fun j => L j i) obj.label
        (loopRange (obj.ymin - 1) (MIN (obj.ymax + 1) (usub h 1))) with
    | none =>
      rw [ht] at hr
      exact absurd hr (by simp)
    | some t =>
      rw [ht] at hr
      have hsm := mem_loopRange.1 (List.mem_of_find?_eq_some hs)
      have htm := mem_loopRange.1 (List.mem_reverse.1 (List.mem_of_find?_eq_some ht))
      dsimp only at hr
      split_ifs at hr with he
      · simp only [Option.some.injEq] at hr
        subst hr
        exact fun _ _ => Or.inl rfl
      · simp only [Option.some.injEq] at hr
        subst hr
        intro a b
        dsimp only
        split_ifs with h1 h2
        · exact Or.inr ⟨rfl, h1.1, by omega, by omega⟩
        · rw [h1.1]
          exact Or.inl rfl
        · exact Or.inl rfl

theorem fillRow_scratchIn {c : LabelConsts} {w h : Nat} {H : Image} {obj : ObjectType}
    (hd : ScratchDistinct c obj.label) {ty0 ty1 tx0 tx1 ay0 ay1 ax0 ax1 : Nat} {L L' : Image}
    {j : Nat} (hL : ScratchIn c w h obj ty0 ty1 tx0 tx1 ay0 ay1 ax0 ax1 L)
    (hr : fillRow c w H obj L j = some L') :
    ScratchIn c w h obj ty0 ty1 tx0 tx1 ay0 ay1 ax0 ax1 L' := by
  intro a ha b hb
  obtain ⟨p1, p2, p3⟩ := hL a ha b hb
  rcases fillRow_cases hr a b with e | e | e
  · rw [e]
    exact ⟨p1, p2, p3⟩
  · rw [e]
    exact ⟨fun x => absurd x hd.inOne_temp, fun x => absurd x hd.inOne_acc,
      fun x => absurd x hd.inOne_label⟩
  · rw [e]
    exact ⟨fun x => absurd x hd.ground_temp, fun x => absurd x hd.ground_acc,
      fun x => absurd x hd.ground_label⟩

theorem fillCol_scratchIn {c : LabelConsts} {w h : Nat} {H : Image} {obj : ObjectType}
    (hd : ScratchDistinct c obj.label) {ty0 ty1 tx0 tx1 : Nat} {L L' : Image} {i : Nat}
    (hi : i ∈ loopRange (obj.xmin - 1) (MIN (obj.xmax + 1) (usub w 1)))
    (hL : ScratchIn c w h obj ty0 ty1 tx0 tx1 (obj.ymin - 1) (MIN (obj.ymax + 1) (usub h 1))
      (obj.xmin - 1) (MIN (obj.xmax + 1) (usub w 1)) L)
    (hr : fillCol c h H obj L i = some L') :
    ScratchIn c w h obj ty0 ty1 tx0 tx1 (obj.ymin - 1) (MIN (obj.ymax + 1) (usub h 1))
      (obj.xmin - 1) (MIN (obj.xmax + 1) (usub w 1)) L' := by
  intro a ha b hb
  obtain ⟨p1, p2, p3⟩ := hL a ha b hb
  rw [mem_loopRange] at hi
  rcases fillCol_cases hr a b with e | ⟨e, rfl, e1, e2⟩
  · rw [e]
    exact ⟨p1, p2, p3⟩
  · rw [e]
    exact ⟨fun x => absurd x hd.acc_temp, fun _ => ⟨e1, e2, hi.1, hi.2⟩,
      fun x => absurd x hd.acc_label⟩

/-- After the two scans: no `LABEL_TEMP`, and `LABEL_ACCEPTED` only inside the
padded bounding box. -/
theorem fillScans_scratchIn {c : LabelConsts} {w h : Nat} {L H : Image} {obj : ObjectType}
    (hd : ScratchDistinct c obj.label) {L2 : Image}
    (hentry : ∀ j, j < h → ∀ i, i < w → L j i ≠ c.LABEL_TEMP ∧ L j i ≠ c.LABEL_ACCEPTED ∧
      (L j i = obj.label → InBox obj.ymin obj.ymax obj.xmin obj.xmax j i))
    (hr : fillScans c w h L H obj = some L2) :
    ScratchIn c w h obj 1 0 1 0 (obj.ymin - 1) (MIN (obj.ymax + 1) (usub h 1))
      (obj.xmin - 1) (MIN (obj.xmax + 1) (usub w 1)) L2 := by
  have h0 : ScratchIn c w h obj 1 0 1 0 (obj.ymin - 1) (MIN (obj.ymax + 1) (usub h 1))
      (obj.xmin - 1) (MIN (obj.xmax + 1) (usub w 1)) L := by
    intro a ha b hb
    obtain ⟨p1, p2, p3⟩ := hentry a ha b hb
    exact ⟨fun x => absurd x p1, fun x => absurd x p2, p3⟩
  unfold fillScans at hr
  dsimp only at hr
  cases h1 : (loopRange (obj.ymin - 1) (MIN (obj.ymax + 1) (usub h 1))).foldl
      (fun acc j => acc.bind fun L => fillRow c w H obj L j) (some L) with
  | none =>
    rw [h1] at hr
    exact absurd hr (by simp)
  | some L1 =>
    rw [h1, Option.some_bind] at hr
    have hL1 := foldl_bind_inv (fun L j => fillRow c w H obj L j)
      (ScratchIn c w h obj 1 0 1 0 (obj.ymin - 1) (MIN (obj.ymax + 1) (usub h 1))
        (obj.xmin - 1) (MIN (obj.xmax + 1) (usub w 1)))
      _ (fun s a s' _ hs hf => fillRow_scratchIn hd hs hf) L L1 h0 h1
    exact foldl_bind_inv (fun L i => fillCol c h H obj L i)
      (ScratchIn c w h obj 1 0 1 0 (obj.ymin - 1) (MIN (obj.ymax + 1) (usub h 1))
        (obj.xmin - 1) (MIN (obj.xmax + 1) (usub w 1)))
      _ (fun s a s' ha hs hf => fillCol_scratchIn hd ha hs hf) L1 L2 hL1 hr

theorem erodeAt_cases (c : LabelConsts) (w h rad : Nat) (L : Image) (j i : Nat) :
    ∀ a b, erodeAt c w h rad L j i a b = L a b ∨
      (erodeAt c w h rad L j i a b = c.LABEL_TEMP ∧
        a ∈ loopRange (MAX (usub j rad) 0) (MIN ((j + rad) % 4294967296) (usub h 1)) ∧
        b ∈ loopRange (MAX (usub i rad) 0) (MIN ((i + rad) % 4294967296) (usub w 1))) := by
  unfold erodeAt
  split_ifs with hacc
  · refine foldl_inv (fun L' : Image => ∀ a b, L' a b = L a b ∨
        (L' a b = c.LABEL_TEMP ∧
          a ∈ loopRange (MAX (usub j rad) 0) (MIN ((j + rad) % 4294967296) (usub h 1)) ∧
          b ∈ loopRange (MAX (usub i rad) 0) (MIN ((i + rad) % 4294967296) (usub w 1))))
      _ _ L (fun _ _ => Or.inl rfl) ?_
    intro L1 jj hjj hL1
    refine foldl_inv (fun L' : Image => ∀ a b, L' a b = L a b ∨
        (L' a b = c.LABEL_TEMP ∧
          a ∈ loopRange (MAX (usub j rad) 0) (MIN ((j + rad) % 4294967296) (usub h 1)) ∧
          b ∈ loopRange (MAX (usub i rad) 0) (MIN ((i + rad) % 4294967296) (usub w 1))))
      _ _ L1 hL1 ?_
    intro L2 ii hii hL2 a b
    split_ifs with hne
    · by_cases hx : a = jj ∧ b = ii
      · obtain ⟨rfl, rfl⟩ := hx
        rw [setPx_same]
        exact Or.inr ⟨rfl, hjj, hii⟩
      · rw [setPx_other L2 _ hx]
        exact hL2 a b
    · exact hL2 a b
  · exact fun _ _ => Or.inl rfl

theorem MIN_eq_min (a b : Nat) : MIN a b = min a b := by
  unfold MIN
  split_ifs <;> omega

theorem MAX_eq_max (a b : Nat) : MAX a b = max a b := by
  unfold MAX
  split_ifs <;> omega

/-- The rows (or columns) of an erosion square around an index of the padded
bounding box lie in the bounding box widened by `rad + 1`. -/
theorem erode_range_in {n lo hi rad j a : Nat} (hn : n < 4294967296)
    (hj : lo - 1 ≤ j ∧ j ≤ MIN (hi + 1) (usub n 1))
    (ha : MAX (usub j rad) 0 ≤ a ∧ a ≤ MIN ((j + rad) % 4294967296) (usub n 1)) (han : a < n) :
    lo - rad - 1 ≤ a ∧ a ≤ MIN (hi + rad + 1) (usub n 1) := by
  simp only [MIN_eq_min, MAX_eq_max, usub] at *
  omega

theorem erodeAt_scratchIn {c : LabelConsts} {w h rad : Nat} {obj : ObjectType}
    (hw : w < 4294967296) (hh : h < 4294967296)
    (hd : ScratchDistinct c obj.label) {L : Image} {j i : Nat}
    (hj : j ∈ loopRange (obj.ymin - 1) (MIN (obj.ymax + 1) (usub h 1)))
    (hi : i ∈ loopRange (obj.xmin - 1) (MIN (obj.xmax + 1) (usub w 1)))
    (hL : ScratchIn c w h obj (obj.ymin - rad - 1) (MIN (obj.ymax + rad + 1) (usub h 1))
      (obj.xmin - rad - 1) (MIN (obj.xmax + rad + 1) (usub w 1))
      (obj.ymin - 1) (MIN (obj.ymax + 1) (usub h 1))
      (obj.xmin - 1) (MIN (obj.xmax + 1) (usub w 1)) L) :
    ScratchIn c w h obj (obj.ymin - rad - 1) (MIN (obj.ymax + rad + 1) (usub h 1))
      (obj.xmin - rad - 1) (MIN (obj.xmax + rad + 1) (usub w 1))
      (obj.ymin - 1) (MIN (obj.ymax + 1) (usub h 1))
      (obj.xmin - 1) (MIN (obj.xmax + 1) (usub w 1)) (erodeAt c w h rad L j i) := by
  intro a ha b hb
  obtain ⟨p1, p2, p3⟩ := hL a ha b hb
  rcases erodeAt_cases c w h rad L j i a b with e | ⟨e, ea, eb⟩
  · rw [e]
    exact ⟨p1, p2, p3⟩
  · rw [e]
    refine ⟨fun _ => ?_, fun x => absurd x.symm hd.acc_temp, fun x => absurd x hd.temp_label⟩
    rw [mem_loopRange] at hj hi ea eb
    obtain ⟨r1, r2⟩ := erode_range_in hh hj ea ha
    obtain ⟨c1, c2⟩ := erode_range_in hw hi eb hb
    exact ⟨r1, r2, c1, c2⟩

/-- The loops after the scans leave neither the object label nor `LABEL_TEMP`
nor `LABEL_ACCEPTED` in the raster. -/
theorem fillFinish_clean {c : LabelConsts} {w h rad : Nat} {obj : ObjectType}
    (hw : w < 4294967296) (hh : h < 4294967296) (hd : ScratchDistinct c obj.label) {L2 : Image}
    (hL2 : ScratchIn c w h obj 1 0 1 0 (obj.ymin - 1) (MIN (obj.ymax + 1) (usub h 1))
      (obj.xmin - 1) (MIN (obj.xmax + 1) (usub w 1)) L2) :
    ∀ j, j < h → ∀ i, i < w →
      (fillFinish c w h obj rad L2).1 j i ≠ obj.label ∧
      (fillFinish c w h obj rad L2).1 j i ≠ c.LABEL_TEMP ∧
      (fillFinish c w h obj rad L2).1 j i ≠ c.LABEL_ACCEPTED := by
  have h3 : ScratchIn c w h obj (obj.ymin - rad - 1) (MIN (obj.ymax + rad + 1) (usub h 1))
      (obj.xmin - rad - 1) (MIN (obj.xmax + rad + 1) (usub w 1))
      (obj.ymin - 1) (MIN (obj.ymax + 1) (usub h 1))
      (obj.xmin - 1) (MIN (obj.xmax + 1) (usub w 1))
      ((loopRange (obj.ymin - 1) (MIN (obj.ymax + 1) (usub h 1))).foldl
        (fun L j => (loopRange (obj.xmin - 1) (MIN (obj.xmax + 1) (usub w 1))).foldl
          (fun L i => erodeAt c w h rad L j i) L) L2) := by
    refine foldl_inv (ScratchIn c w h obj (obj.ymin - rad - 1)
      (MIN (obj.ymax + rad + 1) (usub h 1)) (obj.xmin - rad - 1)
      (MIN (obj.xmax + rad + 1) (usub w 1)) (obj.ymin - 1) (MIN (obj.ymax + 1) (usub h 1))
      (obj.xmin - 1) (MIN (obj.xmax + 1) (usub w 1))) _ _ L2 ?_ ?_
    · intro a ha b hb
      obtain ⟨p1, p2, p3⟩ := hL2 a ha b hb
      refine ⟨fun x => ?_, p2, p3⟩
      have := p1 x
      unfold InBox at this
      omega
    · intro L j hj hL
      refine foldl_inv (ScratchIn c w h obj (obj.ymin - rad - 1)
        (MIN (obj.ymax + rad + 1) (usub h 1)) (obj.xmin - rad - 1)
        (MIN (obj.xmax + rad + 1) (usub w 1)) (obj.ymin - 1) (MIN (obj.ymax + 1) (usub h 1))
        (obj.xmin - 1) (MIN (obj.xmax + 1) (usub w 1))) _ _ L hL ?_
      intro L' i hi hL'
      exact erodeAt_scratchIn hw hh hd hj hi hL'
  intro j hj i hi
  obtain ⟨p1, p2, p3⟩ := h3 j hj i hi
  have hb1 : ∀ n lo hi x : Nat, n < 4294967296 → x < n → lo - 1 ≤ x → x ≤ MIN (hi + 1) (usub n 1) →
      lo - rad - 1 ≤ x ∧ x ≤ MIN (hi + rad + 1) (usub n 1) := by
    intro n lo hi x hn hx h1 h2
    simp only [MIN_eq_min, usub] at *
    omega
  have hb2 : ∀ n lo hi x : Nat, n < 4294967296 → x < n → lo ≤ x → x ≤ hi →
      lo - rad - 1 ≤ x ∧ x ≤ MIN (hi + rad + 1) (usub n 1) := by
    intro n lo hi x hn hx h1 h2
    simp only [MIN_eq_min, usub] at *
    omega
  have hb3 : ∀ n lo hi x : Nat, n < 4294967296 → x < n → lo ≤ x → x ≤ MIN hi (usub n 1) →
      lo - 1 ≤ x ∧ x ≤ MIN (MIN hi (usub n 1) + 1) (usub n 1) := by
    intro n lo hi x hn hx h1 h2
    simp only [MIN_eq_min, usub] at *
    omega
  unfold fillFinish
  dsimp only
  generalize (loopRange (obj.ymin - 1) (MIN (obj.ymax + 1) (usub h 1))).foldl
      (fun L j => (loopRange (obj.xmin - 1) (MIN (obj.xmax + 1) (usub w 1))).foldl
        (fun L i => erodeAt c w h rad L j i) L) L2 = L3 at p1 p2 p3 ⊢
  -- the value `v4` after the promotion of `LABEL_TEMP`
  have h4 : ∀ v4 : Nat,
      v4 = (if obj.ymin - rad - 1 ≤ j ∧ j ≤ MIN (obj.ymax + rad + 1) (usub h 1) ∧
          obj.xmin - rad - 1 ≤ i ∧ i ≤ MIN (obj.xmax + rad + 1) (usub w 1) ∧
          L3 j i = c.LABEL_TEMP then c.LABEL_ACCEPTED else L3 j i) →
      v4 ≠ c.LABEL_TEMP ∧
      (v4 = c.LABEL_ACCEPTED → InBox (obj.ymin - rad - 1) (MIN (obj.ymax + rad + 1) (usub h 1))
        (obj.xmin - rad - 1) (MIN (obj.xmax + rad + 1) (usub w 1)) j i) ∧
      (v4 = obj.label → InBox (obj.ymin - rad - 1) (MIN (obj.ymax + rad + 1) (usub h 1))
        (obj.xmin - rad - 1) (MIN (obj.xmax + rad + 1) (usub w 1)) j i) := by
    intro v4 e4
    split_ifs at e4 with hc
    · subst e4
      exact ⟨hd.acc_temp, fun _ => ⟨hc.1, hc.2.1, hc.2.2.1, hc.2.2.2.1⟩,
        fun x => absurd x hd.acc_label⟩
    · subst e4
      refine ⟨fun x => ?_, fun x => ?_, fun x => ?_⟩
      · obtain ⟨a, b, c1, d⟩ := p1 x
        exact hc ⟨a, b, c1, d, x⟩
      · obtain ⟨a, b, c1, d⟩ := p2 x
        obtain ⟨r1, r2⟩ := hb1 h obj.ymin obj.ymax j hh hj a b
        obtain ⟨s1, s2⟩ := hb1 w obj.xmin obj.xmax i hw hi c1 d
        exact ⟨r1, r2, s1, s2⟩
      · obtain ⟨a, b, c1, d⟩ := p3 x
        obtain ⟨r1, r2⟩ := hb2 h obj.ymin obj.ymax j hh hj a b
        obtain ⟨s1, s2⟩ := hb2 w obj.xmin obj.xmax i hw hi c1 d
        exact ⟨r1, r2, s1, s2⟩
  generalize (if obj.ymin - rad - 1 ≤ j ∧ j ≤ MIN (obj.ymax + rad + 1) (usub h 1) ∧
      obj.xmin - rad - 1 ≤ i ∧ i ≤ MIN (obj.xmax + rad + 1) (usub w 1) ∧
      L3 j i = c.LABEL_TEMP then c.LABEL_ACCEPTED else L3 j i) = v4 at h4 ⊢
  obtain ⟨q1, q2, q3⟩ := h4 v4 rfl
  have hin : InBox (obj.ymin - rad - 1) (MIN (obj.ymax + rad + 1) (usub h 1))
      (obj.xmin - rad - 1) (MIN (obj.xmax + rad + 1) (usub w 1)) j i →
      obj.ymin - rad - 1 - 1 ≤ j ∧ j ≤ MIN (MIN (obj.ymax + rad + 1) (usub h 1) + 1) (usub h 1) ∧
        obj.xmin - rad - 1 - 1 ≤ i ∧
        i ≤ MIN (MIN (obj.xmax + rad + 1) (usub w 1) + 1) (usub w 1) := by
    rintro ⟨a, b, c1, d⟩
    obtain ⟨r1, r2⟩ := hb3 h (obj.ymin - rad - 1) (obj.ymax + rad + 1) j hh hj a b
    obtain ⟨s1, s2⟩ := hb3 w (obj.xmin - rad - 1) (obj.xmax + rad + 1) i hw hi c1 d
    exact ⟨r1, r2, s1, s2⟩
  split_ifs with hbox hl ha ha
  · exact ⟨hd.object_label, hd.object_temp, hd.object_acc⟩
  · exact ⟨hd.ground_label, hd.ground_temp, ha⟩
  · exact ⟨hd.object_label, hd.object_temp, hd.object_acc⟩
  · exact ⟨hl, q1, ha⟩
  · exact ⟨fun x => hbox (hin (q3 x)), q1, fun x => hbox (hin (q2 x))⟩

/-- C22: for a raster whose sides fit an `unsigned int` and label values that
do not collide (`ScratchDistinct`): if on entry no in-raster pixel holds
`LABEL_TEMP` or `LABEL_ACCEPTED` and every in-raster pixel that carries the
object label lies in the bounding box of the object, then `fillObjectBounds`
returns, and on return no in-raster pixel carries the object label,
`LABEL_TEMP` or `LABEL_ACCEPTED`.  The function has no write to the height
raster: in the model `H` is an input only and it is not part of the result. -/
theorem fillObjectBounds_leaves_no_scratch (c : LabelConsts) (w h : Nat) (L H : Image)
    (obj : ObjectType) (dh dz : Nat) (hw : w < 4294967296) (hh : h < 4294967296)
    (hd : ScratchDistinct c obj.label)
    (hentry : ∀ j, j < h → ∀ i, i < w → L j i ≠ c.LABEL_TEMP ∧ L j i ≠ c.LABEL_ACCEPTED ∧
      (L j i = obj.label → InBox obj.ymin obj.ymax obj.xmin obj.xmax j i)) :
    ∃ r, fillObjectBounds c w h L H obj dh dz = some r ∧
      ∀ j, j < h → ∀ i, i < w →
        r.1 j i ≠ obj.label ∧ r.1 j i ≠ c.LABEL_TEMP ∧ r.1 j i ≠ c.LABEL_ACCEPTED := by
  obtain ⟨r, hr⟩ := fillObjectBounds_isSome c w h L H obj dh dz
  refine ⟨r, hr, ?_⟩
  rw [fillObjectBounds_eq_scans] at hr
  cases hs : fillScans c w h L H obj with
  | none =>
    rw [hs] at hr
    exact absurd hr (by simp)
  | some L2 =>
    rw [hs, Option.map_some', Option.some.injEq] at hr
    subst hr
    exact fillFinish_clean hw hh hd (fillScans_scratchIn hd hentry hs)

theorem sampleConsts_distinct : ScratchDistinct sampleConsts 2 := by
  constructor <;> decide

/-- C22, at the 5x5 raster with the single object pixel (2,2), label 2. -/
theorem fillObjectBounds_leaves_no_scratch_witness :
    ∃ r, fillObjectBounds sampleConsts 5 5 (setPx sampleMidLabels 2 2 2) sampleMidHeights
        ⟨2, 2, 2, 2, 2, 1⟩ 1 20 = some r ∧
      ∀ j, j < 5 → ∀ i, i < 5 →
        r.1 j i ≠ 2 ∧ r.1 j i ≠ sampleConsts.LABEL_TEMP ∧ r.1 j i ≠ sampleConsts.LABEL_ACCEPTED :=
  fillObjectBounds_leaves_no_scratch sampleConsts 5 5 (setPx sampleMidLabels 2 2 2)
    sampleMidHeights ⟨2, 2, 2, 2, 2, 1⟩ 1 20 (by decide) (by decide)
    sampleConsts_distinct
    (by
      intro j hj i hi
      interval_cases j <;> interval_cases i <;> refine ⟨by decide, by decide, fun e => ?_⟩ <;>
        first
        | exact absurd e (by decide)
        | (unfold InBox; decide))

/-! ## Index safety of `fillObjectBounds` -/

theorem readPx_in {w h : Nat} (img : Image) {j i : Nat} (hj : j < h) (hi : i < w) :
    readPx w h img j i = some (img j i) := by
  unfold readPx
  rw [if_pos ⟨hj, hi⟩]

theorem writePx_in {w h : Nat} (img : Image) {j i : Nat} (v : Nat) (hj : j < h) (hi : i < w) :
    writePx w h img j i v = some (setPx img j i v) := by
  unfold writePx
  rw [if_pos ⟨hj, hi⟩]

theorem setPx_self (L : Image) (j i : Nat) : setPx L j i (L j i) = L := by
  funext a b
  unfold setPx
  split_ifs with hx
  · rw [hx.1, hx.2]
  · rfl

/-- A fold of checked steps that all succeed returns the fold of the plain steps. -/
theorem foldl_checked_eq {σ α : Type} (g : Option σ → α → Option σ) (f : σ → α → σ)
    (l : List α) (hstep : ∀ s a, a ∈ l → g (some s) a = some (f s a)) :
    ∀ s, l.foldl g (some s) = some (l.foldl f s) := by
  induction l with
  | nil => intro s; rfl
  | cons a t ih =>
    intro s
    rw [List.foldl_cons, List.foldl_cons, hstep s a (List.mem_cons_self a t)]
    exact ih (fun s b hb => hstep s b (List.mem_cons_of_mem a hb)) (f s a)

theorem searchLabel_eq (cell : Nat → Option Nat) (f : Nat → Nat) (label : Nat) (idxs : List Nat)
    (hcell : ∀ k ∈ idxs, cell k = some (f k)) :
    searchLabel cell label idxs = some (findStart f label idxs) := by
  induction idxs with
  | nil => rfl
  | cons k ks ih =>
    unfold searchLabel findStart
    rw [hcell k (List.mem_cons_self k ks), Option.some_bind, List.find?_cons]
    by_cases hk : f k = label
    · simp [hk]
    · simp only [hk, if_false, decide_False]
      exact ih (fun x hx => hcell x (List.mem_cons_of_mem k hx))

theorem loopRange_nodup (lo hi : Nat) : (loopRange lo hi).Nodup := by
  unfold loopRange
  exact List.Nodup.map (fun a b hab => by simpa using hab) (List.nodup_range _)

/-- A loop along row `j` that rewrites each visited pixel from its own value. -/
theorem foldl_row_update (upd : Nat → Nat → Nat) (j : Nat) (ks : List Nat) (hnd : ks.Nodup) :
    ∀ L : Image, ks.foldl (fun L k => setPx L j k (upd k (L j k))) L =
      fun a b => if a = j ∧ b ∈ ks then upd b (L a b) else L a b := by
  induction ks with
  | nil =>
    intro L
    funext a b
    simp
  | cons k t ih =>
    intro L
    rw [List.foldl_cons, ih (List.nodup_cons.1 hnd).2]
    have hk : k ∉ t := (List.nodup_cons.1 hnd).1
    funext a b
    by_cases ha : a = j
    · subst ha
      by_cases hb : b = k
      · subst hb
        simp [hk, setPx_same]
      · have hx : ¬ (a = a ∧ b = k) := fun e => hb e.2
        simp only [setPx_other L _ hx, List.mem_cons, hb, false_or, true_and]
    · have hx : ¬ (a = j ∧ b = k) := fun e => ha e.1
      simp only [setPx_other L _ hx, ha, false_and, if_false]

/-- A loop along column `i` that rewrites each visited pixel from its own value. -/
theorem foldl_col_update (upd : Nat → Nat → Nat) (i : Nat) (ks : List Nat) (hnd : ks.Nodup) :
    ∀ L : Image, ks.foldl (fun L k => setPx L k i (upd k (L k i))) L =
      fun a b => if b = i ∧ a ∈ ks then upd a (L a b) else L a b := by
  induction ks with
  | nil =>
    intro L
    funext a b
    simp
  | cons k t ih =>
    intro L
    rw [List.foldl_cons, ih (List.nodup_cons.1 hnd).2]
    have hk : k ∉ t := (List.nodup_cons.1 hnd).1
    funext a b
    by_cases hb : b = i
    · subst hb
      by_cases ha : a = k
      · subst ha
        simp [hk, setPx_same]
      · have hx : ¬ (a = k ∧ b = b) := fun e => ha e.1
        simp only [setPx_other L _ hx, List.mem_cons, ha, false_or, true_and]
    · have hx : ¬ (a = k ∧ b = i) := fun e => hb e.2
      simp only [setPx_other L _ hx, hb, false_and, if_false]

/-- Nested loops over a box that rewrite each visited pixel from its own value. -/
theorem foldl_box_update (upd : Nat → Nat) (rows cols : List Nat) (hr : rows.Nodup)
    (hc : cols.Nodup) :
    ∀ L : Image, rows.foldl (fun L j => cols.foldl (fun L i => setPx L j i (upd (L j i))) L) L =
      fun a b => if a ∈ rows ∧ b ∈ cols then upd (L a b) else L a b := by
  induction rows with
  | nil =>
    intro L
    funext a b
    simp
  | cons j t ih =>
    intro L
    rw [List.foldl_cons, ih (List.nodup_cons.1 hr).2,
      foldl_row_update (fun _ v => upd v) j cols hc]
    have hj : j ∉ t := (List.nodup_cons.1 hr).1
    funext a b
    by_cases ha : a = j
    · subst ha
      simp [hj]
    · simp [ha]

theorem groundLevelChecked_eq (cellC : Nat → Option Nat) (cell : Nat → Nat) {n : Nat}
    (hn0 : 0 < n) (hn : n < 4294967296) (hcell : ∀ k, k < n → cellC k = some (cell k))
    {s t : Nat} (hs : s < n) (ht : t < n) (hne : ¬ (s = 0 ∧ t = usub n 1)) :
    groundLevelChecked cellC n s t = some (scanGroundLevel cell n s t) := by
  have hu : usub n 1 = n - 1 := by
    unfold usub
    omega
  unfold groundLevelChecked scanGroundLevel
  rw [hu] at hne ⊢
  split_ifs with h1 h2
  · exact hcell _ (by omega)
  · exact hcell _ (by omega)
  · rw [hcell _ (by omega : s - 1 < n), hcell _ (by omega : t + 1 < n)]
    rfl

theorem padded_lt {n lo hi k : Nat} (hn0 : 0 < n) (hn : n < 4294967296)
    (hk : k ∈ loopRange (lo - 1) (MIN (hi + 1) (usub n 1))) : k < n := by
  rw [mem_loopRange] at hk
  simp only [MIN_eq_min, usub] at hk
  omega

theorem rowFillStep_eq (c : LabelConsts) {w h : Nat} (H : Image) (obj : ObjectType) (g : Nat)
    (L : Image) {j i : Nat} (hj : j < h) (hi : i < w) :
    rowFillStep c w h H obj g L j i =
      some (setPx L j i
        ((fun b v => if H j b > g then (if v ≠ obj.label then c.LABEL_IN_ONE else v)
          else (if v = obj.label then LABEL_GROUND else v)) i (L j i))) := by
  unfold rowFillStep
  rw [readPx_in H hj hi, readPx_in L hj hi]
  simp only [Option.some_bind]
  split_ifs with h1 h2 h3
  · exact writePx_in L _ hj hi
  · rw [setPx_self]
  · exact writePx_in L _ hj hi
  · rw [setPx_self]

theorem fillRowChecked_eq (c : LabelConsts) {w h : Nat} (hw0 : 0 < w) (hw : w < 4294967296)
    (H : Image) (obj : ObjectType) (L : Image) {j : Nat} (hj : j < h) :
    fillRowChecked c w h H obj L j = fillRow c w H obj L j := by
  have hidx : ∀ k ∈ loopRange (obj.xmin - 1) (MIN (obj.xmax + 1) (usub w 1)), k < w :=
    fun k hk => padded_lt hw0 hw hk
  unfold fillRowChecked fillRow
  dsimp only
  rw [searchLabel_eq (readPx w h L j) (L j) obj.label _
    (fun k hk => readPx_in L hj (hidx k hk)), Option.some_bind]
  cases hs : findStart (L j) obj.label
      (loopRange (obj.xmin - 1) (MIN (obj.xmax + 1) (usub w 1))) with
  | none => rfl
  | some s =>
    dsimp only
    rw [searchLabel_eq (readPx w h L j) (L j) obj.label _
      (fun k hk => readPx_in L hj (hidx k (List.mem_reverse.1 hk))), Option.some_bind]
    have hrev : findStart (L j) obj.label
        (loopRange (obj.xmin - 1) (MIN (obj.xmax + 1) (usub w 1))).reverse =
        findStop (L j) obj.label (loopRange (obj.xmin - 1) (MIN (obj.xmax + 1) (usub w 1))) := rfl
    rw [hrev]
    cases ht : findStop (L j) obj.label
        (loopRange (obj.xmin - 1) (MIN (obj.xmax + 1) (usub w 1))) with
    | none => rfl
    | some t =>
      dsimp only
      have hsw : s < w := hidx s (List.mem_of_find?_eq_some hs)
      have htw : t < w := hidx t (List.mem_reverse.1 (List.mem_of_find?_eq_some ht))
      split_ifs with he
      · rfl
      · have hfold := foldl_row_update
          (fun b v => if H j b > scanGroundLevel (H j) w s t then
              (if v ≠ obj.label then c.LABEL_IN_ONE else v)
            else (if v = obj.label then LABEL_GROUND else v))
          j (loopRange s t) (loopRange_nodup s t) L
        rw [groundLevelChecked_eq (readPx w h H j) (H j) hw0 hw
          (fun k hk => readPx_in H hj hk) hsw htw he, Option.some_bind,
          foldl_checked_eq (fun acc i => acc.bind fun L =>
              rowFillStep c w h H obj (scanGroundLevel (H j) w s t) L j i)
            (fun L i => setPx L j i
              ((fun b v => if H j b > scanGroundLevel (H j) w s t then
                  (if v ≠ obj.label then c.LABEL_IN_ONE else v)
                else (if v = obj.label then LABEL_GROUND else v)) i (L j i)))
            (loopRange s t)
            (fun L' i hi => rowFillStep_eq c H obj _ L' hj
                (by rw [mem_loopRange] at hi; omega)),
          hfold]
        congr 1
        funext a b
        simp only [mem_loopRange]
        by_cases hc : a = j ∧ s ≤ b ∧ b ≤ t
        · rw [if_pos hc, if_pos hc, hc.1]
        · rw [if_neg hc, if_neg hc]

theorem colFillStep_eq (c : LabelConsts) {w h : Nat} (H : Image) (obj : ObjectType) (g : Nat)
    (L : Image) {i j : Nat} (hj : j < h) (hi : i < w) :
    colFillStep c w h H obj g L i j =
      some (setPx L j i
        ((fun a v => if H a i > g ∧ (v = obj.label ∨ v = c.LABEL_IN_ONE) then c.LABEL_ACCEPTED
          else v) j (L j i))) := by
  unfold colFillStep
  rw [readPx_in H hj hi, readPx_in L hj hi]
  simp only [Option.some_bind]
  split_ifs with h1 h2 h3 h4 h5
  · exact writePx_in L _ hj hi
  · exact absurd ⟨h1, h2⟩ h3
  · exact absurd h4.2 h2
  · rw [setPx_self]
  · exact absurd h5.1 h1
  · rw [setPx_self]

theorem fillColChecked_eq (c : LabelConsts) {w h : Nat} (hh0 : 0 < h) (hh : h < 4294967296)
    (H : Image) (obj : ObjectType) (L : Image) {i : Nat} (hi : i < w) :
    fillColChecked c w h H obj L i = fillCol c h H obj L i := by
  have hidx : ∀ k ∈ loopRange (obj.ymin - 1) (MIN (obj.ymax + 1) (usub h 1)), k < h :=
    fun k hk => padded_lt hh0 hh hk
  unfold fillColChecked fillCol
  dsimp only
  rw [searchLabel_eq (fun j => readPx w h L j i) (fun j => L j i) obj.label _
    (fun k hk => readPx_in L (hidx k hk) hi), Option.some_bind]
  cases hs : findStart (fun j => L j i) obj.label
      (loopRange (obj.ymin - 1) (MIN (obj.ymax + 1) (usub h 1))) with
  | none => rfl
  | some s =>
    dsimp only
    rw [searchLabel_eq (fun j => readPx w h L j i) (fun j => L j i) obj.label _
      (fun k hk => readPx_in L (hidx k (List.mem_reverse.1 hk)) hi), Option.some_bind]
    have hrev : findStart (fun j => L j i) obj.label
        (loopRange (obj.ymin - 1) (MIN (obj.ymax + 1) (usub h 1))).reverse =
        findStop (fun j => L j i) obj.label
          (loopRange (obj.ymin - 1) (MIN (obj.ymax + 1) (usub h 1))) := rfl
    rw [hrev]
    cases ht : findStop (fun j => L j i) obj.label
        (loopRange (obj.ymin - 1) (MIN (obj.ymax + 1) (usub h 1))) with
    | none => rfl
    | some t =>
      dsimp only
      have hsh : s < h := hidx s (List.mem_of_find?_eq_some hs)
      have hth : t < h := hidx t (List.mem_reverse.1 (List.mem_of_find?_eq_some ht))
      split_ifs with he
      · rfl
      · have hfold := foldl_col_update
          (fun a v => if H a i > scanGroundLevel (fun j => H j i) h s t ∧
              (v = obj.label ∨ v = c.LABEL_IN_ONE) then c.LABEL_ACCEPTED else v)
          i (loopRange s t) (loopRange_nodup s t) L
        rw [groundLevelChecked_eq (fun j => readPx w h H j i) (fun j => H j i) hh0 hh
          (fun k hk => readPx_in H hk hi) hsh hth he, Option.some_bind,
          foldl_checked_eq (fun acc j => acc.bind fun L =>
              colFillStep c w h H obj (scanGroundLevel (fun j => H j i) h s t) L i j)
            (fun L j => setPx L j i
              ((fun a v => if H a i > scanGroundLevel (fun j => H j i) h s t ∧
                  (v = obj.label ∨ v = c.LABEL_IN_ONE) then c.LABEL_ACCEPTED else v) j (L j i)))
            (loopRange s t)
            (fun L' j hj => colFillStep_eq c H obj _ L'
                (by rw [mem_loopRange] at hj; omega) hi),
          hfold]
        congr 1
        funext a b
        simp only [mem_loopRange]
        by_cases hc : b = i ∧ s ≤ a ∧ a ≤ t
        · rw [if_pos hc, if_pos hc, hc.1]
        · rw [if_neg hc, if_neg hc]

theorem setPx_setPx (L : Image) (j i a b : Nat) : setPx (setPx L j i a) j i b = setPx L j i b := by
  funext x y
  unfold setPx
  split_ifs <;> rfl

theorem foldl_congr_mem {σ α : Type} (g g' : σ → α → σ) (l : List α)
    (hg : ∀ s a, a ∈ l → g s a = g' s a) : ∀ s, l.foldl g s = l.foldl g' s := by
  induction l with
  | nil => intro s; rfl
  | cons a t ih =>
    intro s
    rw [List.foldl_cons, List.foldl_cons, hg s a (List.mem_cons_self a t)]
    exact ih (fun s b hb => hg s b (List.mem_cons_of_mem a hb)) _

theorem erode_range_lt {n rad j k : Nat} (hn0 : 0 < n) (hn : n < 4294967296)
    (hk : k ∈ loopRange (MAX (usub j rad) 0) (MIN ((j + rad) % 4294967296) (usub n 1))) :
    k < n := by
  rw [mem_loopRange] at hk
  simp only [MIN_eq_min, usub] at hk
  omega

theorem erodeStep_eq (c : LabelConsts) {w h : Nat} (L : Image) {jj ii : Nat} (hj : jj < h)
    (hi : ii < w) :
    erodeStep c w h L jj ii =
      some (if L jj ii ≠ c.LABEL_ACCEPTED then setPx L jj ii c.LABEL_TEMP else L) := by
  unfold erodeStep
  rw [readPx_in L hj hi, Option.some_bind]
  split_ifs
  · exact writePx_in L _ hj hi
  · rfl

theorem erodeAtChecked_eq (c : LabelConsts) {w h : Nat} (hw0 : 0 < w) (hh0 : 0 < h)
    (hw : w < 4294967296) (hh : h < 4294967296) (rad : Nat) (L : Image) {j i : Nat}
    (hj : j < h) (hi : i < w) :
    erodeAtChecked c w h rad L j i = some (erodeAt c w h rad L j i) := by
  unfold erodeAtChecked erodeAt
  rw [readPx_in L hj hi, Option.some_bind]
  split_ifs with hacc
  · exact foldl_checked_eq _ _ _ (fun s jj hjj =>
      foldl_checked_eq
        (fun acc ii => acc.bind fun L => erodeStep c w h L jj ii)
        (fun L ii => if L jj ii ≠ c.LABEL_ACCEPTED then setPx L jj ii c.LABEL_TEMP else L) _
        (fun s' ii hii => erodeStep_eq c s' (erode_range_lt hh0 hh hjj) (erode_range_lt hw0 hw hii))
        s) L
  · rfl

theorem promoteStep_eq (c : LabelConsts) {w h : Nat} (L : Image) {j i : Nat} (hj : j < h)
    (hi : i < w) :
    promoteStep c w h L j i =
      some (setPx L j i
        ((fun v => if v = c.LABEL_TEMP then c.LABEL_ACCEPTED else v) (L j i))) := by
  unfold promoteStep
  rw [readPx_in L hj hi, Option.some_bind]
  dsimp only
  split_ifs
  · exact writePx_in L _ hj hi
  · rw [setPx_self]

theorem finishStep_eq (c : LabelConsts) {w h : Nat} (obj : ObjectType) (L : Image) {j i : Nat}
    (hj : j < h) (hi : i < w) :
    finishStep c w h obj L j i =
      some (setPx L j i
        ((fun v => if (if v = obj.label then LABEL_GROUND else v) = c.LABEL_ACCEPTED
            then c.LABEL_OBJECT
            else (if v = obj.label then LABEL_GROUND else v)) (L j i))) := by
  unfold finishStep
  rw [readPx_in L hj hi, Option.some_bind]
  dsimp only
  by_cases hl : L j i = obj.label
  · rw [if_pos hl, writePx_in L _ hj hi, Option.some_bind,
      readPx_in (setPx L j i LABEL_GROUND) hj hi, Option.some_bind, setPx_same, if_pos hl]
    split_ifs
    · rw [writePx_in _ _ hj hi, setPx_setPx]
    · rfl
  · rw [if_neg hl, Option.some_bind, readPx_in L hj hi, Option.some_bind, if_neg hl]
    split_ifs
    · exact writePx_in L _ hj hi
    · rw [setPx_self]

theorem upper_lt {n x k : Nat} (hn0 : 0 < n) (hn : n < 4294967296)
    (hk : k ≤ MIN x (usub n 1)) : k < n := by
  simp only [MIN_eq_min, usub] at hk
  omega

theorem rowScanChecked_eq (c : LabelConsts) {w h : Nat} (hw0 : 0 < w) (hh0 : 0 < h)
    (hw : w < 4294967296) (hh : h < 4294967296) (H : Image) (obj : ObjectType) (L : Image) :
    (loopRange (obj.ymin - 1) (MIN (obj.ymax + 1) (usub h 1))).foldl
        (fun acc j => acc.bind fun L => fillRowChecked c w h H obj L j) (some L) =
      (loopRange (obj.ymin - 1) (MIN (obj.ymax + 1) (usub h 1))).foldl
        (fun acc j => acc.bind fun L => fillRow c w H obj L j) (some L) := by
  refine foldl_congr_mem _ _ _ (fun acc j hj => ?_) _
  cases acc with
  | none => rfl
  | some s => exact fillRowChecked_eq c hw0 hw H obj s (padded_lt hh0 hh hj)

theorem colScanChecked_eq (c : LabelConsts) {w h : Nat} (hw0 : 0 < w) (hh0 : 0 < h)
    (hw : w < 4294967296) (hh : h < 4294967296) (H : Image) (obj : ObjectType) (L : Image) :
    (loopRange (obj.xmin - 1) (MIN (obj.xmax + 1) (usub w 1))).foldl
        (fun acc i => acc.bind fun L => fillColChecked c w h H obj L i) (some L) =
      (loopRange (obj.xmin - 1) (MIN (obj.xmax + 1) (usub w 1))).foldl
        (fun acc i => acc.bind fun L => fillCol c h H obj L i) (some L) := by
  refine foldl_congr_mem _ _ _ (fun acc i hi => ?_) _
  cases acc with
  | none => rfl
  | some s => exact fillColChecked_eq c hh0 hh H obj s (padded_lt hw0 hw hi)

theorem erodeLoopsChecked_eq (c : LabelConsts) {w h : Nat} (hw0 : 0 < w) (hh0 : 0 < h)
    (hw : w < 4294967296) (hh : h < 4294967296) (obj : ObjectType) (dh : Nat) (L : Image) :
    (loopRange (obj.ymin - 1) (MIN (obj.ymax + 1) (usub h 1))).foldl
        (fun acc j => (loopRange (obj.xmin - 1) (MIN (obj.xmax + 1) (usub w 1))).foldl
          (fun acc i => acc.bind fun L => erodeAtChecked c w h dh L j i) acc) (some L) =
      some ((loopRange (obj.ymin - 1) (MIN (obj.ymax + 1) (usub h 1))).foldl
        (fun L j => (loopRange (obj.xmin - 1) (MIN (obj.xmax + 1) (usub w 1))).foldl
          (fun L i => erodeAt c w h dh L j i) L) L) := by
  refine foldl_checked_eq _ _ _ (fun s j hj => ?_) L
  refine foldl_checked_eq (fun acc i => acc.bind fun L => erodeAtChecked c w h dh L j i)
    (fun L i => erodeAt c w h dh L j i) _ (fun s' i hi => ?_) s
  exact erodeAtChecked_eq c hw0 hh0 hw hh dh s' (padded_lt hh0 hh hj) (padded_lt hw0 hw hi)

/-- Nested loops of checked steps over a box that lies in the raster, each step
rewriting the visited pixel from its own value. -/
theorem boxLoopsChecked_eq {w h : Nat} (step : Image → Nat → Nat → Option Image)
    (upd : Nat → Nat)
    (hstep : ∀ (L : Image) (j i : Nat), j < h → i < w →
      step L j i = some (setPx L j i (upd (L j i))))
    (y0 y1 x0 x1 : Nat) (hy : ∀ j, j ≤ y1 → j < h) (hx : ∀ i, i ≤ x1 → i < w) (L : Image) :
    (loopRange y0 y1).foldl (fun acc j => (loopRange x0 x1).foldl
        (fun acc i => acc.bind fun L => step L j i) acc) (some L) =
      some (fun a b => if y0 ≤ a ∧ a ≤ y1 ∧ x0 ≤ b ∧ b ≤ x1 then upd (L a b) else L a b) := by
  rw [foldl_checked_eq
    (fun acc j => (loopRange x0 x1).foldl (fun acc i => acc.bind fun L => step L j i) acc)
    (fun L j => (loopRange x0 x1).foldl (fun L i => setPx L j i (upd (L j i))) L) _
    (fun s j hj => foldl_checked_eq (fun acc i => acc.bind fun L => step L j i)
      (fun L i => setPx L j i (upd (L j i))) _
      (fun s' i hi => hstep s' j i (hy j (mem_loopRange.1 hj).2) (hx i (mem_loopRange.1 hi).2)) s)
    L, foldl_box_update upd _ _ (loopRange_nodup _ _) (loopRange_nodup _ _) L]
  simp only [mem_loopRange, and_assoc]

/-- On a non-empty raster whose sides fit an `unsigned int`, no access of
`fillObjectBounds` fails its bounds check: the checked function returns what
the plain one returns. -/
theorem fillObjectBoundsChecked_eq (c : LabelConsts) {w h : Nat} (hw0 : 0 < w) (hh0 : 0 < h)
    (hw : w < 4294967296) (hh : h < 4294967296) (L H : Image) (obj : ObjectType) (dh dz : Nat) :
    fillObjectBoundsChecked c w h L H obj dh dz = fillObjectBounds c w h L H obj dh dz := by
  unfold fillObjectBoundsChecked fillObjectBounds
  dsimp only
  rw [rowScanChecked_eq c hw0 hh0 hw hh H obj L]
  cases (loopRange (obj.ymin - 1) (MIN (obj.ymax + 1) (usub h 1))).foldl
      (fun acc j => acc.bind fun L => fillRow c w H obj L j) (some L) with
  | none => rfl
  | some L1 =>
    rw [Option.some_bind, Option.some_bind, colScanChecked_eq c hw0 hh0 hw hh H obj L1]
    cases (loopRange (obj.xmin - 1) (MIN (obj.xmax + 1) (usub w 1))).foldl
        (fun acc i => acc.bind fun L => fillCol c h H obj L i) (some L1) with
    | none => rfl
    | some L2 =>
      rw [Option.some_bind, Option.map_some', erodeLoopsChecked_eq c hw0 hh0 hw hh obj dh L2,
        Option.some_bind]
      generalize (loopRange (obj.ymin - 1) (MIN (obj.ymax + 1) (usub h 1))).foldl
        (fun L j => (loopRange (obj.xmin - 1) (MIN (obj.xmax + 1) (usub w 1))).foldl
          (fun L i => erodeAt c w h dh L j i) L) L2 = L3
      rw [boxLoopsChecked_eq (promoteStep c w h)
          (fun v => if v = c.LABEL_TEMP then c.LABEL_ACCEPTED else v)
          (fun L j i hj hi => promoteStep_eq c L hj hi) _ _ _ _
          (fun j hj => upper_lt hh0 hh hj) (fun i hi => upper_lt hw0 hw hi) L3,
        Option.some_bind,
        boxLoopsChecked_eq (finishStep c w h obj)
          (fun v => if (if v = obj.label then LABEL_GROUND else v) = c.LABEL_ACCEPTED
            then c.LABEL_OBJECT
            else (if v = obj.label then LABEL_GROUND else v))
          (fun L j i hj hi => finishStep_eq c obj L hj hi) _ _ _ _
          (fun j hj => upper_lt hh0 hh hj) (fun i hi => upper_lt hw0 hw hi) _,
        Option.map_some']
      congr 2
      funext a b
      dsimp only
      have e4 : (if obj.ymin - dh - 1 ≤ a ∧ a ≤ MIN (obj.ymax + dh + 1) (usub h 1) ∧
            obj.xmin - dh - 1 ≤ b ∧ b ≤ MIN (obj.xmax + dh + 1) (usub w 1) then
            (if L3 a b = c.LABEL_TEMP then c.LABEL_ACCEPTED else L3 a b) else L3 a b) =
          (if obj.ymin - dh - 1 ≤ a ∧ a ≤ MIN (obj.ymax + dh + 1) (usub h 1) ∧
            obj.xmin - dh - 1 ≤ b ∧ b ≤ MIN (obj.xmax + dh + 1) (usub w 1) ∧
            L3 a b = c.LABEL_TEMP then c.LABEL_ACCEPTED else L3 a b) := by
        by_cases hin : obj.ymin - dh - 1 ≤ a ∧ a ≤ MIN (obj.ymax + dh + 1) (usub h 1) ∧
            obj.xmin - dh - 1 ≤ b ∧ b ≤ MIN (obj.xmax + dh + 1) (usub w 1)
        · by_cases ht : L3 a b = c.LABEL_TEMP
          · rw [if_pos hin, if_pos ht, if_pos ⟨hin.1, hin.2.1, hin.2.2.1, hin.2.2.2, ht⟩]
          · rw [if_pos hin, if_neg ht, if_neg (fun e => ht e.2.2.2.2)]
        · rw [if_neg hin, if_neg (fun e => hin ⟨e.1, e.2.1, e.2.2.1, e.2.2.2.1⟩)]
      rw [e4]

theorem loopRange_pairwise (lo hi : Nat) : (loopRange lo hi).Pairwise (· < ·) := by
  unfold loopRange
  exact (List.pairwise_lt_range _).map _ (fun a b hab => by omega)

/-- The forward search finds the first labelled index and the backward search
the last one: the first is not after the last. -/
theorem findStart_le_findStop {cell : Nat → Nat} {label lo hi s t : Nat}
    (hs : findStart cell label (loopRange lo hi) = some s)
    (ht : findStop cell label (loopRange lo hi) = some t) : s ≤ t := by
  unfold findStart at hs
  unfold findStop at ht
  have hpt : cell t = label := by
    simpa using @List.find?_some Nat (fun i => decide (cell i = label)) t _ ht
  have htm : t ∈ loopRange lo hi := List.mem_reverse.1 (List.mem_of_find?_eq_some ht)
  obtain ⟨_, as, bs, hl, has⟩ := List.find?_eq_some.1 hs
  have hpw := loopRange_pairwise lo hi
  rw [hl] at htm hpw
  rcases List.mem_append.1 htm with h1 | h1
  · have := has t h1
    simp [hpt] at this
  · rcases List.mem_cons.1 h1 with h2 | h2
    · omega
    · have := (List.pairwise_cons.1 (List.pairwise_append.1 hpw).2.1).1 t h2
      omega

/-- C25: on a non-empty raster whose sides fit an `unsigned int`, for every
label raster, height raster, object and `dh`.  (1) `fillObjectBounds` run with a
bounds check on every read and write of the label raster and of the height
raster returns, with the result of the plain function: no access leaves the
raster, the backward search included (it would yield no result if its counter
passed index 0), and so do the ground-level reads.  (2) In every row and column
of the padded box and for every state of the labels, when the forward search
finds a start index the backward search finds a stop index, both inside the
padded box, with start not after stop.  (3) The ground-level reads for such a
pair that is not skipped, taken with the bounds check, return a value. -/
theorem fillObjectBounds_index_safe (c : LabelConsts) (w h : Nat) (L H : Image)
    (obj : ObjectType) (dh dz : Nat) (hw0 : 0 < w) (hh0 : 0 < h)
    (hw : w < 4294967296) (hh : h < 4294967296) :
    (∃ r, fillObjectBoundsChecked c w h L H obj dh dz = some r ∧
      fillObjectBounds c w h L H obj dh dz = some r) ∧
    (∀ (cell : Nat → Nat) (n lo hi s : Nat), 0 < n → n < 4294967296 →
      findStart cell obj.label (loopRange (lo - 1) (MIN (hi + 1) (usub n 1))) = some s →
      ∃ t, findStop cell obj.label (loopRange (lo - 1) (MIN (hi + 1) (usub n 1))) = some t ∧
        s ≤ t ∧ lo - 1 ≤ s ∧ t ≤ hi + 1 ∧ t < n ∧
        (¬ (s = 0 ∧ t = usub n 1) → ∀ (img : Nat → Nat) (cellC : Nat → Option Nat),
          (∀ k, k < n → cellC k = some (img k)) →
          groundLevelChecked cellC n s t = some (scanGroundLevel img n s t))) := by
  constructor
  · obtain ⟨r, hr⟩ := fillObjectBounds_isSome c w h L H obj dh dz
    exact ⟨r, by rw [fillObjectBoundsChecked_eq c hw0 hh0 hw hh, hr], hr⟩
  · intro cell n lo hi s hn0 hn hs
    obtain ⟨t, ht⟩ := findStop_of_findStart hs
    have hsm := List.mem_of_find?_eq_some hs
    have htm : t ∈ loopRange (lo - 1) (MIN (hi + 1) (usub n 1)) :=
      List.mem_reverse.1 (List.mem_of_find?_eq_some ht)
    have hsn := padded_lt hn0 hn hsm
    have htn := padded_lt hn0 hn htm
    rw [mem_loopRange] at hsm htm
    refine ⟨t, ht, findStart_le_findStop hs ht, hsm.1, ?_, htn, ?_⟩
    · have := htm.2
      simp only [MIN_eq_min] at this
      omega
    · intro hne img cellC hcell
      exact groundLevelChecked_eq cellC img hn0 hn hcell hsn htn hne

/-- C25, at the 7x7 sample: the call for the diagonal object on the labels the
first call left returns with every access checked. -/
theorem fillObjectBounds_index_safe_witness :
    ∃ r, fillObjectBoundsChecked sampleConsts 7 7 sampleNestAfterFirst sampleNestHeights
        ⟨3, 3, 4, 1, 3, 3⟩ 1 20 = some r ∧
      fillObjectBounds sampleConsts 7 7 sampleNestAfterFirst sampleNestHeights
        ⟨3, 3, 4, 1, 3, 3⟩ 1 20 = some r :=
  (fillObjectBounds_index_safe sampleConsts 7 7 sampleNestAfterFirst sampleNestHeights
    ⟨3, 3, 4, 1, 3, 3⟩ 1 20 (by decide) (by decide) (by decide) (by decide)).1

/-- The bounds check is effective: on an empty raster the first read of the row
scan already fails. -/
theorem fillObjectBoundsChecked_empty_raster :
    (fillObjectBoundsChecked sampleConsts 0 0 sampleMidLabels sampleMidHeights
      ⟨2, 0, 0, 0, 0, 1⟩ 1 20).isSome = false := by
  decide!

/-! ## `groupObjects` and `classifyNonGround` for a ground value above 1 -/

/-- A seed's loop ends within the fuel and only relabels: a pixel keeps its
value or goes from a value of at most 1 to a label of at least 2. -/
theorem growLoop_relabelled (w h : Nat) (H : Image) (dz : Nat) (maxCount : Int) (fuel : Nat)
    (nb : List PixelType) (L : Image) (obj : ObjectType)
    (hnb : ∀ p ∈ nb, p.j < h ∧ p.i < w ∧ 2 ≤ L p.j p.i) (hlt : freeCount w h L < fuel) :
    ∃ r, growLoop w h H dz maxCount fuel nb L obj = some r ∧ Relabelled L r.1 := by
  obtain ⟨r, hr, hR, _⟩ := growLoopWaves_bound w h H dz maxCount fuel nb L obj hnb hlt
  have e := growLoopWaves_erase w h H dz maxCount fuel nb L obj
  rw [hr] at e
  exact ⟨(r.1, r.2.1), e.symm, hR⟩

/-- Whatever the value of `LABEL_GROUND`, `groupObjectsAt` returns and only
relabels. -/
theorem groupObjectsAt_relabelled (g w h : Nat) (L H : Image) (maxCount : Int) (dz : Nat) :
    ∃ s, groupObjectsAt g w h L H maxCount dz = some s ∧ Relabelled L s.L := by
  have key := foldl_option_visited (groupStepAt g w h H maxCount dz)
    (fun _ (s : GroupState) => 1 ≤ s.label ∧ Relabelled L s.L) (scanOrder w h)
    (by
      intro pre p s hp hs
      rw [mem_scanOrder] at hp
      simp only [groupStepAt, Option.some_bind]
      split_ifs with h0 h1
      · exact ⟨s, rfl, hs⟩
      · exact ⟨s, rfl, hs⟩
      · have hle : s.L p.1 p.2 ≤ 1 := by omega
        obtain ⟨r, hr, hR⟩ := growLoop_relabelled w h H dz maxCount (w * h + 1) [⟨p.2, p.1⟩]
          (setPx s.L p.1 p.2 (s.label + 1)) ⟨s.label + 1, p.2, p.2, p.1, p.1, 1⟩
          (by
            intro q hq
            simp only [List.mem_singleton] at hq
            subst hq
            exact ⟨hp.1, hp.2, by simp [setPx]; exact hs.1⟩)
          (by have := freeCount_le w h (setPx s.L p.1 p.2 (s.label + 1)); omega)
        have hseed : Relabelled s.L (setPx s.L p.1 p.2 (s.label + 1)) := by
          intro a b
          by_cases hx : a = p.1 ∧ b = p.2
          · obtain ⟨rfl, rfl⟩ := hx
            right
            rw [setPx_same]
            exact ⟨hle, by omega⟩
          · exact Or.inl (setPx_other _ _ hx)
        rw [hr]
        exact ⟨_, rfl, by show 1 ≤ s.label + 1; omega,
          relabelled_trans hs.2 (relabelled_trans hseed hR)⟩)
    [] ⟨L, [], 1⟩ ⟨le_refl 1, fun _ _ => Or.inl rfl⟩
  obtain ⟨s, hs, _, hR⟩ := key
  exact ⟨s, hs, hR⟩

theorem rejectObjectAt_cases (g : Nat) (L : Image) (o : ObjectType) (a b : Nat) :
    rejectObjectAt g L o a b = L a b ∨ rejectObjectAt g L o a b = g := by
  unfold rejectObjectAt
  split_ifs
  · exact Or.inr rfl
  · exact Or.inl rfl

/-- A loop over the objects whose body leaves the raster or relabels an object
to the ground value `g` leaves each pixel as it was or at `g`. -/
theorem rejectFoldAt_cases (g : Nat) (step : Image → ObjectType → Image)
    (hstep : ∀ L o, step L o = L ∨ step L o = rejectObjectAt g L o)
    (objs : List ObjectType) (L : Image) (a b : Nat) :
    (objs.foldl step L) a b = L a b ∨ (objs.foldl step L) a b = g := by
  refine foldl_inv (fun L' : Image => L' a b = L a b ∨ L' a b = g) _ objs L (Or.inl rfl) ?_
  intro L' o _ hL'
  show step L' o a b = L a b ∨ step L' o a b = g
  rcases hstep L' o with e | e
  · rw [e]
    exact hL'
  · rw [e]
    rcases rejectObjectAt_cases g L' o a b with f | f
    · rw [f]
      exact hL'
    · exact Or.inr f

theorem areaRejectStepAt_cases (g : Nat) (m : Int) (L : Image) (o : ObjectType) :
    areaRejectStepAt g m L o = L ∨ areaRejectStepAt g m L o = rejectObjectAt g L o := by
  unfold areaRejectStepAt
  split_ifs
  · exact Or.inr rfl
  · exact Or.inl rfl

theorem length_scanOrder (w h : Nat) : (scanOrder w h).length = h * w := by
  unfold scanOrder
  have e := List.length_product (List.range h) (List.range w)
  rw [List.length_range, List.length_range] at e
  exact e

/-- One step of the sweep of `groupObjectsAt`, for a ground value `g` above 1
that the next label does not reach: it returns, keeps the invariant, raises the
counter by at most 1, leaves the visited pixel different from 1 and never turns
a pixel into 1. -/
theorem groupStepAt_scanInv (g w h : Nat) (Lin H : Image) (maxCount : Int) (dz : Nat)
    (s : GroupState) (p : Nat × Nat) (hp : p.1 < h ∧ p.2 < w) (hg : 1 < g)
    (hnext : s.label + 1 < g) (hs : ScanInvAt g w h Lin s) :
    ∃ s', groupStepAt g w h H maxCount dz (some s) p = some s' ∧ ScanInvAt g w h Lin s' ∧
      s'.label ≤ s.label + 1 ∧ s'.L p.1 p.2 ≠ 1 ∧ (∀ a b, s.L a b ≠ 1 → s'.L a b ≠ 1) := by
  obtain ⟨j, i⟩ := p
  obtain ⟨hj, hi⟩ := hp
  simp only at hj hi
  simp only [groupStepAt, Option.some_bind]
  split_ifs with h0 h1
  · exact ⟨s, rfl, hs, by omega, by omega, fun a b hab => hab⟩
  · exact ⟨s, rfl, hs, by omega, by omega, fun a b hab => hab⟩
  · have hle : s.L j i ≤ 1 := by omega
    have hfresh : ∀ a b, a < h → b < w → s.L a b ≠ s.label + 1 := by
      intro a b ha hb
      rcases hs.bounded a b ha hb with e | e <;> omega
    have hlp := hs.label_pos
    obtain ⟨r, hr⟩ := growLoop_isSome w h H dz maxCount (w * h + 1) [⟨i, j⟩]
      (setPx s.L j i (s.label + 1)) ⟨s.label + 1, i, i, j, j, 1⟩
      (by
        intro q hq
        simp only [List.mem_singleton] at hq
        subst hq
        exact ⟨hj, hi, by simp [setPx]; omega⟩)
      (by have := freeCount_le w h (setPx s.L j i (s.label + 1)); omega)
    have hP0 : GrowP w h s.L (s.label + 1) (j, i) [⟨i, j⟩]
        ⟨setPx s.L j i (s.label + 1), ⟨s.label + 1, i, i, j, j, 1⟩, []⟩ := by
      refine ⟨by omega, rfl, ?_, by simp, objAt_seed hj hi hfresh, ?_⟩
      · intro q hq
        simp only [List.mem_singleton] at hq
        subst hq
        exact ⟨hj, hi, setPx_same _ _ _ _⟩
      · intro a b
        by_cases hx : a = j ∧ b = i
        · obtain ⟨rfl, rfl⟩ := hx
          exact Or.inr ⟨hj, hi, hle, setPx_same _ _ _ _⟩
        · exact Or.inl (setPx_other _ _ hx)
    obtain ⟨nb', hv, hlab, _, _, hO, hF⟩ :=
      growLoop_growP w h s.L (s.label + 1) (j, i) H dz maxCount _ _ _ _ r hP0 hr
    simp only at hlab hO hF
    rw [hr]
    refine ⟨⟨r.1, s.objects ++ [r.2], s.label + 1⟩, rfl, ?_, le_refl _, ?_, ?_⟩
    · refine
        { label_pos := by show 1 ≤ s.label + 1; omega
          bounded := ?_, objs := ?_, sorted := ?_, owned := ?_, frame := ?_ }
      · intro a b ha hb
        show r.1 a b ≤ s.label + 1 ∨ r.1 a b = g
        rcases hF a b with e | ⟨_, _, _, e⟩
        · rw [e]
          rcases hs.bounded a b ha hb with f | f
          · exact Or.inl (by omega)
          · exact Or.inr f
        · exact Or.inl (by omega)
      · intro obj hobj
        simp only [List.mem_append, List.mem_singleton] at hobj
        rcases hobj with hobj | rfl
        · obtain ⟨h2, hle2, sd, hOld⟩ := hs.objs obj hobj
          refine ⟨h2, by show obj.label ≤ s.label + 1; omega, sd, ?_⟩
          refine objAt_congr ?_ hOld
          intro a b ha hb
          rcases hF a b with e | ⟨_, _, e0, e⟩
          · show s.L a b = obj.label ↔ r.1 a b = obj.label
            rw [e]
          · show s.L a b = obj.label ↔ r.1 a b = obj.label
            constructor
            · intro hx
              omega
            · intro hx
              omega
        · exact ⟨by rw [hlab]; omega, by rw [hlab], (j, i), hO⟩
      · show (s.objects ++ [r.2]).Pairwise fun a b => a.label < b.label
        rw [List.pairwise_append]
        refine ⟨hs.sorted, List.pairwise_singleton _ _, ?_⟩
        intro a ha b hb
        simp only [List.mem_singleton] at hb
        subst hb
        obtain ⟨_, hle2, _⟩ := hs.objs a ha
        rw [hlab]
        omega
      · intro a b ha hb hab hne
        have hab' : 2 ≤ r.1 a b := hab
        have hne' : r.1 a b ≠ g := hne
        rcases hF a b with e | ⟨_, _, _, e⟩
        · obtain ⟨obj, hobj, hl⟩ := hs.owned a b ha hb (by rw [← e]; exact hab')
            (by rw [← e]; exact hne')
          exact ⟨obj, by simp [hobj], by show obj.label = r.1 a b; rw [hl, e]⟩
        · exact ⟨r.2, by simp, by show r.2.label = r.1 a b; rw [hlab, e]⟩
      · intro a b
        show r.1 a b = Lin a b ∨ (a < h ∧ b < w ∧ Lin a b ≤ 1 ∧ 2 ≤ r.1 a b ∧ r.1 a b ≠ g)
        rcases hF a b with e | ⟨ha, hb, e0, e⟩
        · rw [e]
          exact hs.frame a b
        · rcases hs.frame a b with f | ⟨_, _, f0, f, _⟩
          · right
            exact ⟨ha, hb, by rw [← f]; exact e0, by omega, by omega⟩
          · omega
    · show r.1 j i ≠ 1
      rcases hF j i with e | ⟨_, _, _, e⟩
      · have := hO.seed_in.2.2
        simp only at this
        omega
      · omega
    · intro a b hab
      show r.1 a b ≠ 1
      rcases hF a b with e | ⟨_, _, _, e⟩
      · rw [e]
        exact hab
      · omega

/-- One step of the sweep of `groupObjectsAt` returns: either the state is
unchanged, the visited pixel being ground or already labelled, or one object is
appended and the counter raised by 1. -/
theorem groupStepAt_total (g w h : Nat) (H : Image) (maxCount : Int) (dz : Nat)
    (s : GroupState) (p : Nat × Nat) (hp : p.1 < h ∧ p.2 < w) (hlab : 1 ≤ s.label) :
    ∃ s', groupStepAt g w h H maxCount dz (some s) p = some s' ∧
      ((s' = s ∧ (s.L p.1 p.2 = g ∨ 1 < s.L p.1 p.2)) ∨
        (s'.label = s.label + 1 ∧ s'.objects.length = s.objects.length + 1)) := by
  simp only [groupStepAt, Option.some_bind]
  split_ifs with h0 h1
  · exact ⟨s, rfl, Or.inl ⟨rfl, Or.inl h0⟩⟩
  · exact ⟨s, rfl, Or.inl ⟨rfl, Or.inr h1⟩⟩
  · obtain ⟨r, hr⟩ := growLoop_isSome w h H dz maxCount (w * h + 1) [⟨p.2, p.1⟩]
      (setPx s.L p.1 p.2 (s.label + 1)) ⟨s.label + 1, p.2, p.2, p.1, p.1, 1⟩
      (by
        intro q hq
        simp only [List.mem_singleton] at hq
        subst hq
        exact ⟨hp.1, hp.2, by simp [setPx]; exact hlab⟩)
      (by have := freeCount_le w h (setPx s.L p.1 p.2 (s.label + 1)); omega)
    rw [hr]
    exact ⟨_, rfl, Or.inr ⟨rfl, by simp⟩⟩

/-- For a ground value `g` above 1 and a raster that holds only `g` and 1:
`groupObjectsAt` returns, the counter is the number of returned objects plus 1
and at most `w * h + 1`, and if the counter stayed below `g` the invariant holds
on return and no pixel of the raster is left at 1. -/
theorem groupObjectsAt_scanInv (g w h : Nat) (L H : Image) (maxCount : Int) (dz : Nat)
    (hg : 1 < g) (h01 : ∀ j, j < h → ∀ i, i < w → L j i = g ∨ L j i = 1) :
    ∃ s, groupObjectsAt g w h L H maxCount dz = some s ∧ s.label = s.objects.length + 1 ∧
      s.label ≤ w * h + 1 ∧
      (s.label < g → ScanInvAt g w h L s ∧ ∀ j, j < h → ∀ i, i < w → s.L j i ≠ 1) := by
  have key := foldl_option_visited (groupStepAt g w h H maxCount dz)
    (fun pre (s : GroupState) => s.label = s.objects.length + 1 ∧ s.label ≤ 1 + pre.length ∧
      (s.label < g → ScanInvAt g w h L s ∧ ∀ q ∈ pre, s.L q.1 q.2 ≠ 1)) (scanOrder w h)
    (by
      intro pre p s hp hs
      rw [mem_scanOrder] at hp
      obtain ⟨hcnt, hle, hcond⟩ := hs
      obtain ⟨s', e, hcase⟩ := groupStepAt_total g w h H maxCount dz s p hp (by omega)
      refine ⟨s', e, ?_, ?_, ?_⟩
      · rcases hcase with ⟨rfl, _⟩ | ⟨a, b⟩
        · exact hcnt
        · omega
      · simp only [List.length_append, List.length_singleton]
        rcases hcase with ⟨rfl, _⟩ | ⟨a, _⟩
        · omega
        · omega
      · intro hlt
        rcases hcase with ⟨rfl, hskip⟩ | ⟨a, _⟩
        · obtain ⟨hI, hvis⟩ := hcond hlt
          refine ⟨hI, ?_⟩
          intro q hq
          simp only [List.mem_append, List.mem_singleton] at hq
          rcases hq with hq | rfl
          · exact hvis q hq
          · rcases hskip with f | f <;> omega
        · obtain ⟨hI, hvis⟩ := hcond (by omega)
          obtain ⟨s2, e2, hI2, _, hp1, hstab⟩ := groupStepAt_scanInv g w h L H maxCount dz s p hp
            hg (by omega) hI
          have hs2 : s2 = s' := Option.some.inj (e2.symm.trans e)
          subst hs2
          refine ⟨hI2, ?_⟩
          intro q hq
          simp only [List.mem_append, List.mem_singleton] at hq
          rcases hq with hq | rfl
          · exact hstab _ _ (hvis q hq)
          · exact hp1)
    [] ⟨L, [], 1⟩
    ⟨rfl, le_refl _, fun _ =>
      ⟨{ label_pos := le_refl 1
         bounded := fun j i hj hi => by
           rcases h01 j hj i hi with e | e
           · exact Or.inr e
           · exact Or.inl (by show L j i ≤ 1; omega)
         objs := by intro obj hobj; simp at hobj
         sorted := List.Pairwise.nil
         owned := by
           intro j i hj hi h2 hne
           have h2' : 2 ≤ L j i := h2
           rcases h01 j hj i hi with e | e
           · exact absurd e hne
           · omega
         frame := fun j i => Or.inl rfl }, by simp⟩⟩
  obtain ⟨s, hs, hcnt, hlab, hcond⟩ := key
  refine ⟨s, hs, hcnt, ?_, ?_⟩
  · simp only [List.nil_append] at hlab
    rw [length_scanOrder, Nat.mul_comm h w] at hlab
    omega
  · intro hlt
    obtain ⟨hI, hvis⟩ := hcond hlt
    refine ⟨hI, ?_⟩
    intro j hj i hi
    exact hvis (j, i) (by simp only [List.nil_append]; exact mem_scanOrder.2 ⟨hj, hi⟩)

/-- The ground value must not be a label that is handed out: with `g = 2` the
first label handed out is the ground value.  On the 1-row raster `[2, 1]` the object grown from pixel (0,1)
gets label 2, and the pixels carrying its label on return are both pixels, the
ground pixel included. -/
theorem groupObjectsAt_label_meets_ground :
    (groupObjectsAt 2 2 1 (ofRows [[2, 1]]) (ofRows [[5, 5]]) 100 3).map
      (fun s => (toRows s.L 2 1, s.objects)) = some ([[2, 2]], [⟨2, 1, 1, 0, 0, 1⟩]) := by
  decide!

theorem areaRejectStepAt_apply (g : Nat) (m : Int) (L : Image) (o : ObjectType) (a b : Nat) :
    areaRejectStepAt g m L o a b =
      if (o.count : Int) < m ∧ o.ymin ≤ a ∧ a ≤ o.ymax ∧ o.xmin ≤ b ∧ b ≤ o.xmax ∧
          L a b = o.label then g else L a b := by
  unfold areaRejectStepAt
  by_cases hrej : (o.count : Int) < m
  · rw [if_pos hrej]
    show (if o.ymin ≤ a ∧ a ≤ o.ymax ∧ o.xmin ≤ b ∧ b ≤ o.xmax ∧ L a b = o.label
      then g else L a b) = _
    by_cases hc : o.ymin ≤ a ∧ a ≤ o.ymax ∧ o.xmin ≤ b ∧ b ≤ o.xmax ∧ L a b = o.label
    · rw [if_pos hc, if_pos ⟨hrej, hc⟩]
    · rw [if_neg hc, if_neg (fun hx => hc hx.2)]
  · rw [if_neg hrej, if_neg (fun hx => hrej hx.1)]

theorem areaFoldAt_cases (g : Nat) (m : Int) (objs : List ObjectType) (L : Image) (a b : Nat) :
    (objs.foldl (areaRejectStepAt g m) L) a b = L a b ∨
      (objs.foldl (areaRejectStepAt g m) L) a b = g :=
  rejectFoldAt_cases g (areaRejectStepAt g m) (areaRejectStepAt_cases g m) objs L a b

theorem areaFoldAt_ground (g : Nat) (m : Int) (objs : List ObjectType) (L : Image) (a b : Nat)
    (hz : L a b = g) : (objs.foldl (areaRejectStepAt g m) L) a b = g := by
  rcases areaFoldAt_cases g m objs L a b with e | e
  · rw [e, hz]
  · exact e

theorem areaFoldAt_rejected (g : Nat) (m : Int) (a b : Nat) (obj : ObjectType)
    (hrej : (obj.count : Int) < m)
    (hbox : obj.ymin ≤ a ∧ a ≤ obj.ymax ∧ obj.xmin ≤ b ∧ b ≤ obj.xmax) :
    ∀ (objs : List ObjectType) (L : Image), obj ∈ objs → (L a b = obj.label ∨ L a b = g) →
      (objs.foldl (areaRejectStepAt g m) L) a b = g := by
  intro objs
  induction objs with
  | nil => intro L hmem; simp at hmem
  | cons o t ih =>
    intro L hmem hL
    simp only [List.foldl_cons]
    have hstep : areaRejectStepAt g m L o a b = L a b ∨ areaRejectStepAt g m L o a b = g := by
      rw [areaRejectStepAt_apply]
      split_ifs
      · exact Or.inr rfl
      · exact Or.inl rfl
    rcases List.mem_cons.1 hmem with rfl | hin
    · apply areaFoldAt_ground
      rcases hL with e | e
      · rw [areaRejectStepAt_apply,
          if_pos ⟨hrej, hbox.1, hbox.2.1, hbox.2.2.1, hbox.2.2.2, e⟩]
      · rcases hstep with s | s
        · rw [s, e]
        · exact s
    · apply ih _ hin
      rcases hstep with s | s
      · rw [s]
        exact hL
      · exact Or.inr s

theorem areaFoldAt_keep (g : Nat) (m : Int) (objs : List ObjectType) (L : Image) (a b : Nat)
    (hno : ∀ o ∈ objs, (o.count : Int) < m → o.label ≠ L a b) :
    (objs.foldl (areaRejectStepAt g m) L) a b = L a b := by
  refine foldl_inv (fun L' : Image => L' a b = L a b) _ objs L rfl ?_
  intro L' o ho hL'
  show areaRejectStepAt g m L' o a b = L a b
  rw [areaRejectStepAt_apply]
  split_ifs with h1
  · exfalso
    exact hno o ho h1.1 (by rw [← hL']; exact h1.2.2.2.2.2.symm)
  · exact hL'

/-- After the small-object loop and the last normalisation, every component of
pixels labelled 1 holds at least `m` pixels, when the loop ran on the result of
`groupObjectsAt` for a raster of `g` and 1 and no label reached `g`. -/
theorem areaCull_componentsAt (g w h : Nat) (hw : w < 4294967296) (hh : h < 4294967296)
    (L4 : Image) (s : GroupState) (m : Int) (hg : 1 < g) (hlt : s.label < g)
    (h01 : ∀ j, j < h → ∀ i, i < w → L4 j i = g ∨ L4 j i = 1)
    (hI : ScanInvAt g w h L4 s) (hno1 : ∀ j, j < h → ∀ i, i < w → s.L j i ≠ 1) :
    EveryComponent w h (finishLabelImageAt g (s.objects.foldl (areaRejectStepAt g m) s.L))
      (fun S => m ≤ (S.card : Int)) := by
  intro j hj i hi hfin S hS
  have hLr : (s.objects.foldl (areaRejectStepAt g m) s.L) j i ≠ g := by
    intro hz
    simp only [finishLabelImageAt, hz, ne_eq, not_true_eq_false, if_false] at hfin
    omega
  have hsame : (s.objects.foldl (areaRejectStepAt g m) s.L) j i = s.L j i := by
    rcases areaFoldAt_cases g m s.objects s.L j i with e | e
    · exact e
    · exact absurd e hLr
  have hne : s.L j i ≠ g := by rw [← hsame]; exact hLr
  have hv2 : 2 ≤ s.L j i := by
    have h1 := hno1 j hj i hi
    rcases hI.frame j i with e | ⟨_, _, _, e, _⟩
    · rcases h01 j hj i hi with f | f
      · exact absurd (e.trans f) hne
      · exact absurd (e.trans f) h1
    · exact e
  obtain ⟨obj, hobj, hlab⟩ := hI.owned j i hj hi hv2 hne
  have hnorej : ∀ o ∈ s.objects, o.label = s.L j i → ¬ ((o.count : Int) < m) := by
    intro o ho hl hrej
    obtain ⟨_, _, sd, hO⟩ := hI.objs o ho
    have hbox := hO.bbox j i hj hi hl.symm
    exact hLr (areaFoldAt_rejected g m j i o hrej hbox s.objects s.L ho (Or.inl hl.symm))
  have hfinal : ∀ a b, a < h → b < w → s.L a b = obj.label →
      finishLabelImageAt g (s.objects.foldl (areaRejectStepAt g m) s.L) a b = 1 := by
    intro a b _ _ hab
    have hk : (s.objects.foldl (areaRejectStepAt g m) s.L) a b = s.L a b := by
      apply areaFoldAt_keep
      intro o ho hrej hl
      exact hnorej o ho (by rw [hl, hab, hlab]) hrej
    have : s.L a b ≠ g := by
      obtain ⟨_, hle, _⟩ := hI.objs obj hobj
      rw [hab]
      omega
    simp [finishLabelImageAt, hk, this]
  obtain ⟨_, _, seed, hO⟩ := hI.objs obj hobj
  have hseed1 := hfinal seed.1 seed.2 hO.seed_in.1 hO.seed_in.2.1 hO.seed_in.2.2
  have hpseed : Connected w h
      (finishLabelImageAt g (s.objects.foldl (areaRejectStepAt g m) s.L)) 1 (j, i) seed :=
    connected_symm ⟨hO.seed_in.1, hO.seed_in.2.1, hseed1⟩
      (connected_map hfinal (hO.conn hw hh j i hj hi hlab.symm))
  have hsub : pixelsWith w h s.L obj.label ⊆ S := by
    intro q hq
    rw [mem_pixelsWith] at hq
    rw [hS q]
    exact Relation.ReflTransGen.trans hpseed
      (connected_map hfinal (hO.conn hw hh q.1 q.2 hq.1 hq.2.1 hq.2.2))
  have hcard := Finset.card_le_card hsub
  have hcnt := hO.count_eq
  have := hnorej obj hobj hlab
  simp only [ge_iff_le]
  omega

/-- C3 (amended): for rasters whose sides fit an `unsigned int`.  The threshold
of the small-object loop is `minPointCount`, the `int` that the first statement
of `classifyNonGround` makes of the single-precision quotient
`minAreaMeters / (gsd * gsd)`; and whatever value `minPointCount` that statement
yields, the passes that follow return, and every 8-connected component of pixels
labelled 1 on return holds at least `minPointCount` pixels.  This holds for the
value 0 that section 3 gives for `LABEL_GROUND`, and for every value `g` above
the labels that can be handed out. -/
theorem classifyNonGround_components_min_count (g w h : Nat) (gsd : ℚ) (dsm dtm L : Image)
    (dz agl : Nat) (minAreaMeters : ℚ) (minPointCount : Int)
    (hw : w < 4294967296) (hh : h < 4294967296) (hg : g = LABEL_GROUND ∨ w * h + 1 < g) :
    classifyNonGround w h gsd dsm dtm L dz agl minAreaMeters =
      classifyNonGroundAt LABEL_GROUND w h (floatToInt 32 (floatAreaQuot minAreaMeters gsd))
        dsm dtm L dz agl ∧
    ∃ r, classifyNonGroundAt g w h minPointCount dsm dtm L dz agl = some r ∧
      EveryComponent w h r (fun S => minPointCount ≤ (S.card : Int)) := by
  refine ⟨rfl, ?_⟩
  rcases hg with rfl | hg
  · obtain ⟨g1, hg1⟩ := groupObjects_isSome w h (aglCull dsm dtm L agl) dsm LONG_MAX (dz / 2)
    obtain ⟨g2, hg2, hI, hno1⟩ := groupObjects_scanInv w h
      (finishLabelImage (dilateFromTemp w h (g1.objects.foldl (gradientRejectStep w h dsm dz) g1.L)
        (erodeTemp w h (g1.objects.foldl (gradientRejectStep w h dsm dz) g1.L))))
      dsm LONG_MAX INT_MAX (fun j _ i _ => finishLabelImage_le_one _ j i)
    refine ⟨finishLabelImage (g2.objects.foldl (areaRejectStep minPointCount) g2.L), ?_, ?_⟩
    · rw [classifyNonGroundAt_ground]
      simp only [hg1, Option.some_bind, hg2, Option.map_some']
    · exact areaCull_components w h hw hh _ g2 _ hI hno1
  · obtain ⟨g1, hg1, _⟩ := groupObjectsAt_relabelled g w h (aglCullAt g dsm dtm L agl) dsm
      LONG_MAX (dz / 2)
    have h01 : ∀ j, j < h → ∀ i, i < w →
        finishLabelImageAt g (dilateFromTempAt g w h
          (g1.objects.foldl (gradientRejectStepAt g w h dsm dz) g1.L)
          (erodeTempAt g w h (g1.objects.foldl (gradientRejectStepAt g w h dsm dz) g1.L))) j i = g ∨
        finishLabelImageAt g (dilateFromTempAt g w h
          (g1.objects.foldl (gradientRejectStepAt g w h dsm dz) g1.L)
          (erodeTempAt g w h (g1.objects.foldl (gradientRejectStepAt g w h dsm dz) g1.L))) j i = 1 := by
      intro j _ i _
      unfold finishLabelImageAt
      split_ifs with hx
      · exact Or.inr rfl
      · simp only [ne_eq, not_not] at hx
        exact Or.inl hx
    obtain ⟨g2, hg2, _, hle, hcond⟩ := groupObjectsAt_scanInv g w h _ dsm LONG_MAX INT_MAX
      (by omega) h01
    obtain ⟨hI, hno1⟩ := hcond (by omega)
    refine ⟨finishLabelImageAt g (g2.objects.foldl (areaRejectStepAt g minPointCount) g2.L),
      ?_, ?_⟩
    · simp only [classifyNonGroundAt, hg1, Option.some_bind, hg2, Option.map_some']
    · exact areaCull_componentsAt g w h hw hh _ g2 _ (by omega) (by omega) h01 hI hno1

/-- C3 (amended), at the 3x3 raster with DSM 10, DTM 0 and label 1 at every
pixel (`dz = 2`, `agl = 5`, `gsd = 1`, `minAreaMeters = 3`): `minPointCount` is 3,
the five pixels grouped from the seed (1,1) stay labelled 1 and form the one
component of the result, and the pixels grouped alone are relabelled. -/
theorem classifyNonGround_components_min_count_witness :
    floatToInt 32 (floatAreaQuot 3 1) = 3 ∧
    (3 < 4294967296 ∧ (LABEL_GROUND = LABEL_GROUND ∨ 3 * 3 + 1 < LABEL_GROUND)) ∧
    (classifyNonGround 3 3 1 (ofRows [[10, 10, 10], [10, 10, 10], [10, 10, 10]])
        (ofRows [[0, 0, 0], [0, 0, 0], [0, 0, 0]])
        (ofRows [[1, 1, 1], [1, 1, 1], [1, 1, 1]]) 2 5 3).map (fun r => toRows r 3 3) =
      some [[0, 0, 0], [0, 1, 1], [1, 1, 1]] ∧
    ∃ r, classifyNonGroundAt LABEL_GROUND 3 3 3 (ofRows [[10, 10, 10], [10, 10, 10], [10, 10, 10]])
        (ofRows [[0, 0, 0], [0, 0, 0], [0, 0, 0]])
        (ofRows [[1, 1, 1], [1, 1, 1], [1, 1, 1]]) 2 5 = some r ∧
      EveryComponent 3 3 r (fun S => (3 : Int) ≤ (S.card : Int)) :=
  ⟨by decide!, ⟨by decide, Or.inl rfl⟩, by decide!,
    (classifyNonGround_components_min_count LABEL_GROUND 3 3 1
      (ofRows [[10, 10, 10], [10, 10, 10], [10, 10, 10]])
      (ofRows [[0, 0, 0], [0, 0, 0], [0, 0, 0]])
      (ofRows [[1, 1, 1], [1, 1, 1], [1, 1, 1]]) 2 5 3 3 (by decide) (by decide) (Or.inl rfl)).2⟩

end Shr3d
